import Mathlib

/-!
# libtioc: labelled, line-oriented serialisation

A shallow embedding of `src/lib/tioc/tioc.c` and of the commands of
`src/bin/main.c`.

* A byte is a `UInt8`; a C buffer is a `List Byte`.  A `const char *` string
  argument is the buffer it points to: its text is the bytes before the first
  NUL (`cstr`), and the end of the list stands for the terminator.
* `unsigned long long` and `size_t` values are naturals below `2 ^ 64`.
* An input `FILE *` is the list of bytes not yet read; an output `FILE *` is
  the list of bytes accepted so far together with a script saying which of
  the coming write calls fail.
* The process locale and the outcomes of `setlocale`, `strdup` and `malloc`
  live in `Host`.
* The libc and libuuid functions the source calls (`strlen`, `strcmp`,
  `fprintf`, `fwrite`, `fscanf`, `fread`, `uuid_unparse`, `uuid_parse`,
  `uuid_compare`) are modelled after the C standard and the glibc / libuuid
  implementations.
* File handles, callbacks and out-pointers are always present; the null
  checks on `label` and on the expected string are kept (`Option`).
* The commands `write`, `read` and `expect` of `src/bin/main.c` act on a
  `Proc`: the library state, the files on disk, standard input and standard
  output.  Their warnings on standard error are not represented.
* The heap is not represented, except for the one way in which the source
  misuses it: the string and blob readers free their buffer after a failed
  `fread` and leave its address with the caller, and `read_file_content`
  closes its file before jumping to a cleanup block that closes it again.
  `PtrState` records the state of such a pointer, and the results of
  `expect_string` and of the commands carry a flag `ub` that is set when the
  run frees a buffer or closes a file a second time.
-/

namespace Tioc

/-! ## Bytes and C strings -/

abbrev Byte := UInt8

/-- The bytes of an ASCII string literal. -/
def bytes (s : String) : List Byte := s.data.map (fun c => UInt8.ofNat c.toNat)

/-- The text of a C string: the bytes of the buffer before its first NUL. -/
def cstr (s : List Byte) : List Byte := s.takeWhile (fun b => b != 0)

/-- C `strlen`. -/
def strlen (s : List Byte) : Nat := (cstr s).length

/-- C `strcmp`; the end of a list is the terminator. -/
def strcmp : List Byte → List Byte → Int
  | [], [] => 0
  | [], y :: _ => if y = 0 then 0 else -1
  | x :: _, [] => if x = 0 then 0 else 1
  | x :: xs, y :: ys =>
    if x ≠ y then (x.toNat : Int) - (y.toNat : Int)
    else if x = 0 then 0
    else strcmp xs ys

/-- The value of a byte held in a C `char` (signed, as on x86-64). -/
def toChar (b : Byte) : Int := if b.toNat < 128 then (b.toNat : Int) else (b.toNat : Int) - 256

/-- C `isspace` in the "C" locale: space and the controls 9 to 13. -/
def isspace (c : Byte) : Bool := c == 32 || (decide (9 ≤ c.toNat) && decide (c.toNat ≤ 13))

/-- C `isdigit`. -/
def isdigit (c : Byte) : Bool := decide (48 ≤ c.toNat) && decide (c.toNat ≤ 57)

/-- C `isxdigit`. -/
def isxdigit (c : Byte) : Bool :=
  isdigit c || (decide (97 ≤ c.toNat) && decide (c.toNat ≤ 102))
    || (decide (65 ≤ c.toNat) && decide (c.toNat ≤ 70))

def ULLONG_MAX : Nat := 2 ^ 64 - 1

/-! ## Host: locale and allocation -/

inductive Locale where
  | C
  | named (id : Nat)
  deriving DecidableEq, Repr

/-- The process state the library touches, and the outcomes of the library
calls that may fail.  `print_llu` and `scan_llu` give the behaviour of the
`%llu` conversions under a locale other than "C". -/
structure Host where
  locale : Locale
  query_ok : Bool
  strdup_ok : Bool
  set_c_ok : Bool
  restore_ok : Bool
  malloc_ok : Nat → Bool
  print_llu : Nat → Nat → List Byte
  scan_llu : Nat → List Byte → Option Nat × List Byte

/-- The effect of a successful `setlocale(LC_ALL, "C")`. -/
def Host.in_c (h : Host) : Host := { h with locale := Locale.C }

/-- The call `setlocale(LC_ALL, old_locale2)` of the cleanup block. -/
def restore_locale (h : Host) (old : Locale) : Host :=
  if h.restore_ok then { h with locale := old } else h

/-! ## Output streams -/

/-- An output stream: the bytes it has accepted, and the outcomes of the coming
write calls (`none`: the call succeeds; `some k`: the call fails after `k`
bytes).  Once the script is used up every call succeeds. -/
structure OFile where
  data : List Byte
  script : List (Option Nat)

/-- The stream reports no write failure. -/
def OFile.healthy (f : OFile) : Prop := ∀ o ∈ f.script, o = none

instance (f : OFile) : Decidable f.healthy := by
  unfold OFile.healthy; infer_instance

/-- C `fprintf` on the already formatted text: the number of bytes written, or
a negative value on failure. -/
def fprintf (f : OFile) (text : List Byte) : Int × OFile :=
  match f.script with
  | [] => ((text.length : Int), { f with data := f.data ++ text })
  | none :: sc => ((text.length : Int), { data := f.data ++ text, script := sc })
  | some k :: sc => (-1, { data := f.data ++ text.take k, script := sc })

/-- C `fwrite(data, size, 1, file)`: the number of complete items written.  A
zero `size` writes nothing and returns 0. -/
def fwrite (f : OFile) (data : List Byte) (size : Nat) : Nat × OFile :=
  if size = 0 then (0, f)
  else
    match f.script with
    | [] => (1, { f with data := f.data ++ data.take size })
    | none :: sc => (1, { data := f.data ++ data.take size, script := sc })
    | some k :: sc => (0, { data := f.data ++ (data.take size).take k, script := sc })

/-- The digit loop of `printf("%llu")`: the digits are produced from the least
significant one, until the quotient is zero. -/
def utoa_loop : Nat → Nat → List Byte → List Byte
  | 0, _, acc => acc
  | fuel + 1, n, acc =>
    let acc1 := UInt8.ofNat (48 + n % 10) :: acc
    if n / 10 = 0 then acc1 else utoa_loop fuel (n / 10) acc1

/-- The text of `%llu` in the "C" locale (a 64-bit value has at most 20 digits). -/
def utoa (n : Nat) : List Byte := utoa_loop 20 n []

/-- The text of `%llu` under the current locale. -/
def fmt_llu (h : Host) (v : Nat) : List Byte :=
  match h.locale with
  | Locale.C => utoa v
  | Locale.named i => h.print_llu i v

/-! ## Input streams -/

/-- An input stream: the bytes not yet read. -/
abbrev IFile := List Byte

/-- C `fscanf(file, "%Nc", buf)` for `N = n ≥ 1`: the return value, the
bytes stored and the rest of the stream.  At end of input nothing is stored
and `EOF` is returned; otherwise up to `n` bytes are stored (glibc stores a
short final run as well). -/
def fscanf_c (f : IFile) (n : Nat) : Int × List Byte × IFile :=
  match f with
  | [] => (-1, [], [])
  | _ :: _ => (1, f.take n, f.drop n)

/-- The number a run of decimal digits spells. -/
def digits_value (ds : List Byte) : Nat := ds.foldl (fun a d => a * 10 + (d.toNat - 48)) 0

/-- C `strtoull` in base 10 on an optional sign and a run of digits: out of
range values give `ULLONG_MAX`, a minus sign negates modulo `2 ^ 64`. -/
def strtoull (neg : Bool) (ds : List Byte) : Nat :=
  let n := digits_value ds
  if n > ULLONG_MAX then ULLONG_MAX
  else if neg then (2 ^ 64 - n) % 2 ^ 64
  else n

/-- The `%llu` conversion of `fscanf` in the "C" locale (glibc): white space is
skipped, one sign is accepted, then a non-empty run of digits is converted.
The result is the return value of a `fscanf` whose format is this conversion
(1, or 0 on a matching failure, or `EOF` at end of input), the value stored
(if any) and the rest of the stream; the byte that ends the number stays
unread. -/
def scan_llu_C (f : IFile) : Int × Option Nat × IFile :=
  match f.dropWhile isspace with
  | [] => (-1, none, [])
  | c :: r =>
    let neg := c == 45
    let s := if c == 45 || c == 43 then r else c :: r
    let ds := s.takeWhile isdigit
    if ds.isEmpty then (0, none, s)
    else (1, some (strtoull neg ds), s.dropWhile isdigit)

/-- The `%llu` conversion under the current locale. -/
def scan_llu (h : Host) (f : IFile) : Int × Option Nat × IFile :=
  match h.locale with
  | Locale.C => scan_llu_C f
  | Locale.named i =>
    match h.scan_llu i f with
    | (some v, rest) => (1, some v, rest)
    | (none, rest) => (0, none, rest)

/-- C `fscanf(file, "%llu", &v)`: return value, value stored, rest. -/
def fscanf_llu (h : Host) (f : IFile) : Int × Option Nat × IFile := scan_llu h f

/-- C `fscanf(file, "%llu:", &v)` (and `"%zu:"`): after a successful
conversion a `:` is consumed when it is the next byte; the return value is 1
either way. -/
def fscanf_llu_colon (h : Host) (f : IFile) : Int × Option Nat × IFile :=
  let (n, v, rest) := scan_llu h f
  if n ≠ 1 then (n, v, rest)
  else
    match rest with
    | c :: r => if c == 58 then (n, v, r) else (n, v, c :: r)
    | [] => (n, v, [])

/-- C `fread(buf, size, 1, file)`: the number of complete items read, the
bytes stored and the rest.  A zero `size` reads nothing and returns 0. -/
def fread (f : IFile) (size : Nat) : Nat × List Byte × IFile :=
  if size = 0 then (0, [], f)
  else if size ≤ f.length then (1, f.take size, f.drop size)
  else (0, f, [])

/-! ## libuuid -/

/-- The lower-case hexadecimal digit of a value below 16. -/
def hexdigit (n : Nat) : Byte := if n < 10 then UInt8.ofNat (48 + n) else UInt8.ofNat (87 + n)

/-- The loop of libuuid `uuid_unparse`: two digits per byte, a `-` before
the bytes 4, 6, 8 and 10. -/
def uuid_fmt : Nat → List Byte → List Byte
  | _, [] => []
  | i, b :: rest =>
    (if i = 4 ∨ i = 6 ∨ i = 8 ∨ i = 10 then [45] else [])
      ++ [hexdigit (b.toNat / 16), hexdigit (b.toNat % 16)]
      ++ uuid_fmt (i + 1) rest

/-- The libuuid `uuid_unparse`: the 36 characters and the terminator. -/
def uuid_unparse (uu : List Byte) : List Byte := uuid_fmt 0 (uu.take 16) ++ [0]

/-- The value of a hexadecimal digit, as `strtoul(_, _, 16)` reads it. -/
def hexval (c : Byte) : Nat :=
  if isdigit c then c.toNat - 48
  else if 97 ≤ c.toNat then c.toNat - 87
  else c.toNat - 55

/-- The syntax check of libuuid `uuid_parse`, from position `i` on. -/
def uuid_check : Nat → List Byte → Bool
  | _, [] => true
  | i, c :: rest =>
    (if i = 8 ∨ i = 13 ∨ i = 18 ∨ i = 23 then c == 45 else isxdigit c)
      && uuid_check (i + 1) rest

/-- Pairs of hexadecimal digits to bytes. -/
def hex_bytes : List Byte → List Byte
  | a :: b :: rest => UInt8.ofNat (hexval a * 16 + hexval b) :: hex_bytes rest
  | _ => []

/-- The libuuid `uuid_parse`: `none` stands for the return value -1 (nothing is
stored), `some uu` for 0 with the 16 bytes stored. -/
def uuid_parse (s : List Byte) : Option (List Byte) :=
  let t := cstr s
  if t.length ≠ 36 then none
  else if !uuid_check 0 t then none
  else some (hex_bytes (t.filter (fun c => c != 45)))

/-- The libuuid `uuid_compare`: the sign of the first difference among the 16
bytes, 0 when there is none. -/
def uuid_cmp : List Byte → List Byte → Int
  | a :: as, b :: bs =>
    if a.toNat < b.toNat then -1
    else if b.toNat < a.toNat then 1
    else uuid_cmp as bs
  | _, _ => 0

def uuid_compare (a b : List Byte) : Int := uuid_cmp (a.take 16) (b.take 16)

/-! ## Label validation (`is_label_valid`) -/

/-- The loop of `is_label_valid` over the bytes `label[0 .. len)`. -/
def label_loop : List Byte → Int
  | [] => 1
  | b :: rest =>
    let c := toChar b
    if 95 ≠ c ∧ (c < 97 ∨ 122 < c) then 0 else label_loop rest

def is_label_valid (label : Option (List Byte)) : Int :=
  match label with
  | none => 0
  | some l =>
    let len := strlen l
    if len = 0 ∨ len > 80 then 0
    else label_loop (l.take len)

/-! ## Writing -/

/-- What a write operation returns: the return code, the process state and the
stream afterwards. -/
structure WResult where
  rc : Int
  host : Host
  file : OFile

/-- The bytes a write operation appended to the stream `f`. -/
def WResult.emitted (r : WResult) (f : OFile) : List Byte := r.file.data.drop f.data.length

def write_callback (h : Host) (file : OFile) (label : Option (List Byte))
    (callback : Host → OFile → Int × OFile) : WResult :=
  match label with
  | none => ⟨-1, h, file⟩
  | some l =>
    if is_label_valid (some l) = 0 then ⟨-1, h, file⟩
    else if !h.query_ok then ⟨-1, h, file⟩
    else if !h.strdup_ok then ⟨-1, h, file⟩
    else
      let old_locale2 := h.locale
      if !h.set_c_ok then ⟨-1, restore_locale h old_locale2, file⟩
      else
        let h1 := h.in_c
        -- the result of the header write is only reported, not acted upon
        let f1 := (fprintf file (cstr l ++ [58])).2
        let (crc, f2) := callback h1 f1
        if crc = -1 then ⟨-1, restore_locale h1 old_locale2, f2⟩
        else
          let (n, f3) := fprintf f2 [10]
          let rc : Int := if n < 0 then -1 else 0
          ⟨if rc ≠ 0 ∨ crc ≠ 0 then -1 else 0, restore_locale h1 old_locale2, f3⟩

def unsigned_writer (value : Nat) (h : Host) (file : OFile) : Int × OFile :=
  let (n, f1) := fprintf file (fmt_llu h value)
  if n < 0 then (-1, f1) else (0, f1)

def uuid_writer (uuid : List Byte) (_h : Host) (file : OFile) : Int × OFile :=
  let uuid_string := uuid_unparse uuid
  let (n, f1) := fprintf file (cstr uuid_string)
  if n < 0 then (-1, f1) else (0, f1)

def blob_writer (data : List Byte) (size : Nat) (h : Host) (file : OFile) : Int × OFile :=
  let (n, f1) := fprintf file (fmt_llu h size ++ [58])
  if n < 0 then (-1, f1)
  else
    let (k, f2) := fwrite f1 data size
    if k ≠ 1 then (-1, f2) else (0, f2)

def write_unsigned (h : Host) (file : OFile) (label : Option (List Byte)) (value : Nat) : WResult :=
  write_callback h file label (unsigned_writer value)

def write_uuid (h : Host) (file : OFile) (label : Option (List Byte)) (uuid : List Byte) : WResult :=
  write_callback h file label (uuid_writer uuid)

def write_blob (h : Host) (file : OFile) (label : Option (List Byte)) (blob : List Byte)
    (size : Nat) : WResult :=
  write_callback h file label (blob_writer blob size)

def write_string (h : Host) (file : OFile) (label : Option (List Byte)) (string : List Byte) :
    WResult :=
  write_blob h file label string (strlen string)

/-! ## Reading -/

/-- What a read operation returns: the return code, what was stored through
the out-pointer (`none` when nothing was stored), the process state and the
stream afterwards. -/
structure RResult (α : Type) where
  rc : Int
  value : Option α
  host : Host
  file : IFile

def expect_label (file : IFile) (expected : Option (List Byte)) : Int × IFile :=
  match expected with
  | none => (-1, file)
  | some e =>
    if is_label_valid (some e) = 0 then (-1, file)
    else
      let len := strlen e
      let (n, got, f1) := fscanf_c file len
      if n ≠ 1 then (-1, f1)
      else
        -- actual is 81 zeroed bytes with the bytes read copied to its front
        let actual := got ++ List.replicate (81 - got.length) 0
        if strcmp e actual ≠ 0 then (-1, f1) else (0, f1)

def read_callback {α : Type} (h : Host) (file : IFile) (label : Option (List Byte))
    (callback : Host → IFile → Int × Option α × IFile) : RResult α :=
  match label with
  | none => ⟨-1, none, h, file⟩
  | some l =>
    if !h.query_ok then ⟨-1, none, h, file⟩
    else if !h.strdup_ok then ⟨-1, none, h, file⟩
    else
      let old_locale2 := h.locale
      if !h.set_c_ok then ⟨-1, none, restore_locale h old_locale2, file⟩
      else
        let h1 := h.in_c
        let (lrc, f1) := expect_label file (some l)
        if lrc = -1 then ⟨-1, none, restore_locale h1 old_locale2, f1⟩
        else
          let (n, col, f2) := fscanf_c f1 1
          if n ≠ 1 then ⟨-1, none, restore_locale h1 old_locale2, f2⟩
          else if col ≠ [58] then ⟨-1, none, restore_locale h1 old_locale2, f2⟩
          else
            let (crc, v, f3) := callback h1 f2
            if crc = -1 then ⟨-1, v, restore_locale h1 old_locale2, f3⟩
            else
              let (m, nl, f4) := fscanf_c f3 1
              let rc : Int := if m ≠ 1 then -1 else if nl ≠ [10] then -1 else 0
              ⟨if rc ≠ 0 ∨ crc ≠ 0 then -1 else 0, v, restore_locale h1 old_locale2, f4⟩

def unsigned_reader (h : Host) (file : IFile) : Int × Option Nat × IFile :=
  let (n, v, f1) := fscanf_llu h file
  if n ≠ 1 then (-1, v, f1) else (0, v, f1)

def uuid_reader (_h : Host) (file : IFile) : Int × Option (List Byte) × IFile :=
  let (n, got, f1) := fscanf_c file 36
  if n ≠ 1 then (-1, none, f1)
  else
    -- uuid_string is 37 zeroed bytes with the bytes read copied to its front
    let uuid_string := got ++ List.replicate (37 - got.length) 0
    match uuid_parse uuid_string with
    | none => (-1, none, f1)
    | some uu => (0, some uu, f1)

/-- The state of a buffer pointer a reader was given the address of: the null
pointer, the address of a buffer the caller now owns, or the address of a
buffer that has already been freed. -/
inductive PtrState where
  | null
  | live
  | freed
  deriving DecidableEq, Repr

/-- The out-pointer of `string_reader`: `some buf` is the allocated buffer;
`none` is a pointer the caller cannot use (the null pointer, or the address
of the buffer the cleanup block has freed, see `string_reader_ptr`). -/
def string_reader (h : Host) (file : IFile) : Int × Option (Option (List Byte)) × IFile :=
  let (n, len, f1) := fscanf_llu_colon h file
  if n ≠ 1 then (-1, some none, f1)
  else
    -- length was initialised to 0
    let length := len.getD 0
    if !h.malloc_ok ((length + 1) % 2 ^ 64) then (-1, some none, f1)
    else
      let (k, got, f2) := fread f1 length
      if k ≠ 1 then (-1, some none, f2)
      else (0, some (some (got ++ [0])), f2)

/-- The state in which `string_reader` leaves `*string`.  The pointer is set to
null first and stays null when `fscanf` or `malloc` fails; when `fread` fails,
the cleanup block frees the buffer and leaves its address in `*string`. -/
def string_reader_ptr (h : Host) (file : IFile) : PtrState :=
  let (n, len, f1) := fscanf_llu_colon h file
  if n ≠ 1 then PtrState.null
  else
    let length := len.getD 0
    if !h.malloc_ok ((length + 1) % 2 ^ 64) then PtrState.null
    else if (fread f1 length).1 ≠ 1 then PtrState.freed
    else PtrState.live

/-- The two out-pointers of `blob_reader`; `data` is `none` for a pointer the
caller cannot use (null, or freed by the cleanup block, see
`blob_reader_ptr`). -/
structure RBlob where
  data : Option (List Byte)
  size : Nat

def blob_reader (h : Host) (file : IFile) : Int × Option RBlob × IFile :=
  let (n, len, f1) := fscanf_llu_colon h file
  -- the size was set to 0 first
  let size := len.getD 0
  if n ≠ 1 then (-1, some ⟨none, size⟩, f1)
  else if !h.malloc_ok size then (-1, some ⟨none, size⟩, f1)
  else
    let (k, got, f2) := fread f1 size
    if k ≠ 1 then (-1, some ⟨none, size⟩, f2)
    else (0, some ⟨some got, size⟩, f2)

/-- The state in which `blob_reader` leaves `*(b->data)`: null when `fscanf` or
`malloc` fails; when `fread` fails, the cleanup block frees the buffer and
leaves its address behind. -/
def blob_reader_ptr (h : Host) (file : IFile) : PtrState :=
  let (n, len, f1) := fscanf_llu_colon h file
  let size := len.getD 0
  if n ≠ 1 then PtrState.null
  else if !h.malloc_ok size then PtrState.null
  else if (fread f1 size).1 ≠ 1 then PtrState.freed
  else PtrState.live

def read_unsigned (h : Host) (file : IFile) (label : Option (List Byte)) : RResult Nat :=
  read_callback h file label unsigned_reader

def read_uuid (h : Host) (file : IFile) (label : Option (List Byte)) : RResult (List Byte) :=
  read_callback h file label uuid_reader

def read_string (h : Host) (file : IFile) (label : Option (List Byte)) :
    RResult (Option (List Byte)) :=
  read_callback h file label string_reader

def read_blob (h : Host) (file : IFile) (label : Option (List Byte)) : RResult RBlob :=
  read_callback h file label blob_reader

/-- The state of the caller's buffer pointer after a read with the callback
`cb`, for a pointer that was null before the call, `st` being the state in
which the callback leaves it.  The pointer is untouched unless the callback is
reached: the read is run with a callback that returns what `cb` returns and
stores the state. -/
def read_ptr {α : Type} (h : Host) (file : IFile) (label : Option (List Byte))
    (cb : Host → IFile → Int × Option α × IFile) (st : Host → IFile → PtrState) : PtrState :=
  ((read_callback h file label
    (fun h1 f => ((cb h1 f).1, some (st h1 f), (cb h1 f).2.2))).value).getD PtrState.null

/-- The state of `*value` after `read_string`, null before the call. -/
def read_string_ptr (h : Host) (file : IFile) (label : Option (List Byte)) : PtrState :=
  read_ptr h file label string_reader string_reader_ptr

/-- The state of `*data` after `read_blob`, null before the call. -/
def read_blob_ptr (h : Host) (file : IFile) (label : Option (List Byte)) : PtrState :=
  read_ptr h file label blob_reader blob_reader_ptr

/-! ## Expecting -/

/-- What an expect operation returns.  `ub` is set when the call has freed a
buffer that was freed before: its behaviour is then undefined, and the other
fields say what the code computes if that second `free` does nothing. -/
structure EResult where
  rc : Int
  host : Host
  file : IFile
  ub : Bool

def expect_unsigned (h : Host) (file : IFile) (label : Option (List Byte)) (expected : Nat) :
    EResult :=
  let r := read_unsigned h file label
  if r.rc = -1 then ⟨-1, r.host, r.file, false⟩
  else
    match r.value with
    | some actual =>
      if expected ≠ actual then ⟨-1, r.host, r.file, false⟩ else ⟨0, r.host, r.file, false⟩
    | none => ⟨-1, r.host, r.file, false⟩

def expect_uuid (h : Host) (file : IFile) (label : Option (List Byte)) (expected : List Byte) :
    EResult :=
  let r := read_uuid h file label
  if r.rc = -1 then ⟨-1, r.host, r.file, false⟩
  else
    match r.value with
    | some actual =>
      if uuid_compare expected actual ≠ 0 then ⟨-1, r.host, r.file, false⟩
      else ⟨0, r.host, r.file, false⟩
    | none => ⟨-1, r.host, r.file, false⟩

def expect_string (h : Host) (file : IFile) (label : Option (List Byte))
    (expected : Option (List Byte)) : EResult :=
  match expected with
  | none => ⟨-1, h, file, false⟩
  | some e =>
    let r := read_string h file label
    -- the cleanup block calls `free(actual)` on every path; `actual` was null
    -- before the read and may now hold an address `string_reader` has freed
    let ub := decide (read_string_ptr h file label = PtrState.freed)
    if r.rc = -1 then ⟨-1, r.host, r.file, ub⟩
    else
      match r.value with
      | some (some actual) =>
        if strcmp e actual ≠ 0 then ⟨-1, r.host, r.file, ub⟩ else ⟨0, r.host, r.file, ub⟩
      | _ => ⟨-1, r.host, r.file, ub⟩

/-! ## The command-line tool (`src/bin/main.c`) -/

/-- C `memcmp(a, b, n)` on buffers of at least `n` bytes: the sign of the
first difference among the first `n` bytes, 0 when there is none. -/
def memcmp : List Byte → List Byte → Nat → Int
  | x :: xs, y :: ys, n + 1 =>
    if x.toNat < y.toNat then -1
    else if y.toNat < x.toNat then 1
    else memcmp xs ys n
  | _, _, _ => 0

/-- The files `read_file_content` may open (`none`: `fopen` fails), and the
outcomes of its calls of `fseek` and `ftell`. -/
structure Disk where
  fopen : List Byte → Option (List Byte)
  seek_end_ok : Bool
  ftell_ok : Bool
  seek_set_ok : Bool

/-- The library function `read_file_content`: the return code, the buffer
stored through `data` (the content and a NUL) and the size stored through
`size`.  After a failure the buffer is freed and nothing usable is stored; the
failure paths that close the file or free the buffer twice are singled out by
`read_file_content_ub`. -/
def read_file_content (h : Host) (d : Disk) (filename : Option (List Byte)) :
    Int × Option (List Byte) × Nat :=
  match filename with
  | none => (-1, none, 0)
  | some name =>
    match d.fopen (cstr name) with
    | none => (-1, none, 0)
    | some content =>
      if !d.seek_end_ok then (-1, none, 0)
      else if !d.ftell_ok then (-1, none, 0)
      else if !d.seek_set_ok then (-1, none, 0)
      else
        let offset := content.length
        if !h.malloc_ok (offset + 1) then (-1, none, 0)
        else
          let (k, got, _) := fread content offset
          if k ≠ 1 then (-1, none, 0)
          else (0, some (got ++ [0]), offset)

/-- Whether a call of `read_file_content` runs into undefined behaviour.  With
a null `filename` the cleanup block tests the variable `file`, which was never
set.  Once `fopen` has succeeded, every failing step calls `fclose(file)` (and
`free(*data)` after a failed `fread`) before jumping to the cleanup block, which
closes the file and frees the buffer again. -/
def read_file_content_ub (h : Host) (d : Disk) (filename : Option (List Byte)) : Bool :=
  match filename with
  | none => true
  | some name =>
    match d.fopen (cstr name) with
    | none => false
    | some _ => decide ((read_file_content h d filename).1 = -1)

/-- C `strtoull(s, &end, 10)` on a C string in the "C" locale, in which the
tool runs: the value returned, whether `end` differs from `s`, the text at
`end`, and whether `errno` was set to `ERANGE`. -/
def strtoull_arg (s : List Byte) : Nat × Bool × List Byte × Bool :=
  let t := cstr s
  match t.dropWhile isspace with
  | [] => (0, false, t, false)
  | c :: r =>
    let neg := c == 45
    let body := if c == 45 || c == 43 then r else c :: r
    let ds := body.takeWhile isdigit
    if ds.isEmpty then (0, false, t, false)
    else (strtoull neg ds, true, body.dropWhile isdigit, decide (digits_value ds > ULLONG_MAX))

/-- The state of a run of the tool: the library state, the files on disk,
standard input and standard output. -/
structure Proc where
  host : Host
  disk : Disk
  stdin : IFile
  stdout : OFile

/-- What a command returns: the exit status and the state it leaves.  `ub` is
set when the run has closed a file or freed a buffer twice: its behaviour is
then undefined, and the other fields say what the code computes if the second
call does nothing. -/
structure Exit where
  status : Int
  proc : Proc
  ub : Bool

def EXIT_SUCCESS : Int := 0

def EXIT_FAILURE : Int := 1

/-- C `putchar(c)`: the byte written, or `EOF` (-1). -/
def putchar (f : OFile) (c : Byte) : Int × OFile :=
  match f.script with
  | [] => ((c.toNat : Int), { f with data := f.data ++ [c] })
  | none :: sc => ((c.toNat : Int), { data := f.data ++ [c], script := sc })
  | some k :: sc => (-1, { data := f.data ++ [c].take k, script := sc })

/-- The loop of `chain`: each byte `getchar` returns is passed to `putchar`,
until end of input or until `putchar` fails. -/
def chain_loop : IFile → OFile → IFile × OFile
  | [], out => ([], out)
  | c :: rest, out =>
    let (r, out1) := putchar out c
    if r = -1 then (rest, out1) else chain_loop rest out1

def chain (p : Proc) : Proc :=
  { p with stdin := (chain_loop p.stdin p.stdout).1, stdout := (chain_loop p.stdin p.stdout).2 }

/-- The variables the argument loops set: `label`, `quiet`, `chn`, `type` and
`value`. -/
structure Options where
  label : Option (List Byte)
  quiet : Bool
  chn : Bool
  type : Nat
  value : Option (List Byte)
  deriving DecidableEq

/-- The variables before the argument loop. -/
def options_init : Options := ⟨none, false, false, 0, none⟩

/-- The test `!strcmp(arg, a) || !strcmp(arg, b)` of the argument loops. -/
def is_flag (arg a b : List Byte) : Bool :=
  decide (strcmp arg a = 0) || decide (strcmp arg b = 0)

/-- The function `get_argument` on the arguments after `arg`: the variables
with `value` and `type` set, `none` for the return value -1. -/
def get_argument (rest : List (List Byte)) (o : Options) (dtype : Nat) : Option Options :=
  match rest with
  | [] => none
  | v :: _ =>
    if o.value.isSome then none else some { o with value := some v, type := dtype }

/-- The argument loop of `write`; `none` stands for `goto cleanup`. -/
def write_args : List (List Byte) → Options → Option Options
  | [], o => some o
  | arg :: rest, o =>
    if is_flag arg (bytes "-l") (bytes "--label") then
      match rest with
      | [] => none
      | v :: rest1 =>
        if o.label.isSome then none else write_args rest1 { o with label := some v }
    else if is_flag arg (bytes "-c") (bytes "--chain") then
      write_args rest { o with chn := true }
    else if is_flag arg (bytes "-n") (bytes "--unsigned") then
      match rest, get_argument rest o 1 with
      | _ :: rest1, some o1 => write_args rest1 o1
      | _, _ => none
    else if is_flag arg (bytes "-u") (bytes "--uuid") then
      match rest, get_argument rest o 2 with
      | _ :: rest1, some o1 => write_args rest1 o1
      | _, _ => none
    else if is_flag arg (bytes "-s") (bytes "--string") then
      match rest, get_argument rest o 3 with
      | _ :: rest1, some o1 => write_args rest1 o1
      | _, _ => none
    else if is_flag arg (bytes "-b") (bytes "--blob") then
      match rest, get_argument rest o 4 with
      | _ :: rest1, some o1 => write_args rest1 o1
      | _, _ => none
    else none

/-- The part of `write` after the label check and the call of `chain`: the
value is converted according to `type` and written to standard output. -/
def write_value (o : Options) (label : List Byte) (p : Proc) : Exit :=
  -- `value` is set whenever `type` is
  let value := o.value.getD []
  if o.type = 1 then
    let (n, converted, rest, erange) := strtoull_arg value
    if cstr value = [] then ⟨EXIT_FAILURE, p, false⟩
    else if !converted then ⟨EXIT_FAILURE, p, false⟩
    else if n = ULLONG_MAX ∧ erange = true then ⟨EXIT_FAILURE, p, false⟩
    else if rest ≠ [] then ⟨EXIT_FAILURE, p, false⟩
    else
      let r := write_unsigned p.host p.stdout (some label) n
      if r.rc = -1 then ⟨EXIT_FAILURE, { p with host := r.host, stdout := r.file }, false⟩
      else ⟨EXIT_SUCCESS, { p with host := r.host, stdout := r.file }, false⟩
  else if o.type = 2 then
    match uuid_parse value with
    | none => ⟨EXIT_FAILURE, p, false⟩
    | some u =>
      let r := write_uuid p.host p.stdout (some label) u
      if r.rc = -1 then ⟨EXIT_FAILURE, { p with host := r.host, stdout := r.file }, false⟩
      else ⟨EXIT_SUCCESS, { p with host := r.host, stdout := r.file }, false⟩
  else if o.type = 3 then
    let r := write_string p.host p.stdout (some label) value
    if r.rc = -1 then ⟨EXIT_FAILURE, { p with host := r.host, stdout := r.file }, false⟩
    else ⟨EXIT_SUCCESS, { p with host := r.host, stdout := r.file }, false⟩
  else if o.type = 4 then
    let (frc, blobdata, blobsize) := read_file_content p.host p.disk o.value
    -- the cleanup block calls `free(blobdata)`
    if frc = -1 then ⟨EXIT_FAILURE, p, read_file_content_ub p.host p.disk o.value⟩
    else
      let r := write_blob p.host p.stdout (some label) (blobdata.getD []) blobsize
      if r.rc = -1 then ⟨EXIT_FAILURE, { p with host := r.host, stdout := r.file }, false⟩
      else ⟨EXIT_SUCCESS, { p with host := r.host, stdout := r.file }, false⟩
  else ⟨EXIT_FAILURE, p, false⟩

/-- The command `write`. -/
def write (argv : List (List Byte)) (p : Proc) : Exit :=
  match write_args argv options_init with
  | none => ⟨EXIT_FAILURE, p, false⟩
  | some o =>
    match o.label with
    | none => ⟨EXIT_FAILURE, p, false⟩
    | some label => write_value o label (if o.chn then chain p else p)

/-- The argument loop of `read`; `none` stands for `goto cleanup`. -/
def read_args : List (List Byte) → Options → Option Options
  | [], o => some o
  | arg :: rest, o =>
    if is_flag arg (bytes "-l") (bytes "--label") then
      match rest with
      | [] => none
      | v :: rest1 =>
        if o.label.isSome then none else read_args rest1 { o with label := some v }
    else if is_flag arg (bytes "-q") (bytes "--quiet") then
      read_args rest { o with quiet := true }
    else if is_flag arg (bytes "-c") (bytes "--chain") then
      read_args rest { o with chn := true, quiet := true }
    else if is_flag arg (bytes "-n") (bytes "--unsigned") then
      if o.type ≠ 0 then none else read_args rest { o with type := 1 }
    else if is_flag arg (bytes "-u") (bytes "--uuid") then
      if o.type ≠ 0 then none else read_args rest { o with type := 2 }
    else if is_flag arg (bytes "-s") (bytes "--string") then
      if o.type ≠ 0 then none else read_args rest { o with type := 3 }
    else if is_flag arg (bytes "-b") (bytes "--blob") then
      if o.type ≠ 0 then none else read_args rest { o with type := 4 }
    else none

/-- The part of `read` between the argument loop and the call of `chain`: a
record is read from standard input according to `type` and, unless `quiet` is
set, printed. -/
def read_value (o : Options) (p : Proc) : Exit :=
  if o.type = 1 then
    let r := read_unsigned p.host p.stdin o.label
    if r.rc = -1 then ⟨EXIT_FAILURE, { p with host := r.host, stdin := r.file }, false⟩
    else
      -- `n` was initialised to 0
      let out := if !o.quiet then (fprintf p.stdout (fmt_llu r.host (r.value.getD 0) ++ [10])).2
        else p.stdout
      ⟨EXIT_SUCCESS, { p with host := r.host, stdin := r.file, stdout := out }, false⟩
  else if o.type = 2 then
    let r := read_uuid p.host p.stdin o.label
    if r.rc = -1 then ⟨EXIT_FAILURE, { p with host := r.host, stdin := r.file }, false⟩
    else
      let out := if !o.quiet then
          (fprintf p.stdout (cstr (uuid_unparse (r.value.getD [])) ++ [10])).2
        else p.stdout
      ⟨EXIT_SUCCESS, { p with host := r.host, stdin := r.file, stdout := out }, false⟩
  else if o.type = 3 then
    let r := read_string p.host p.stdin o.label
    -- the cleanup block calls `free(string)`
    if r.rc = -1 then
      ⟨EXIT_FAILURE, { p with host := r.host, stdin := r.file },
        decide (read_string_ptr p.host p.stdin o.label = PtrState.freed)⟩
    else
      let out := if !o.quiet then
          (fprintf p.stdout (cstr ((r.value.getD none).getD []) ++ [10])).2
        else p.stdout
      ⟨EXIT_SUCCESS, { p with host := r.host, stdin := r.file, stdout := out }, false⟩
  else if o.type = 4 then
    let r := read_blob p.host p.stdin o.label
    -- the cleanup block calls `free(blobdata)`
    if r.rc = -1 then
      ⟨EXIT_FAILURE, { p with host := r.host, stdin := r.file },
        decide (read_blob_ptr p.host p.stdin o.label = PtrState.freed)⟩
    else if !o.quiet then
      let b := r.value.getD ⟨none, 0⟩
      let (k, out) := fwrite p.stdout (b.data.getD []) b.size
      if k ≠ 1 then ⟨EXIT_FAILURE, { p with host := r.host, stdin := r.file, stdout := out }, false⟩
      else ⟨EXIT_SUCCESS, { p with host := r.host, stdin := r.file, stdout := out }, false⟩
    else ⟨EXIT_SUCCESS, { p with host := r.host, stdin := r.file }, false⟩
  else ⟨EXIT_FAILURE, p, false⟩

/-- The command `read`. -/
def read (argv : List (List Byte)) (p : Proc) : Exit :=
  match read_args argv options_init with
  | none => ⟨EXIT_FAILURE, p, false⟩
  | some o =>
    let e := read_value o p
    if e.status = EXIT_SUCCESS ∧ o.chn = true then ⟨e.status, chain e.proc, e.ub⟩ else e

/-- The argument loop of `expect`; `none` stands for `goto cleanup`. -/
def expect_args : List (List Byte) → Options → Option Options
  | [], o => some o
  | arg :: rest, o =>
    if is_flag arg (bytes "-l") (bytes "--label") then
      match rest with
      | [] => none
      | v :: rest1 =>
        if o.label.isSome then none else expect_args rest1 { o with label := some v }
    else if is_flag arg (bytes "-q") (bytes "--quiet") then
      expect_args rest { o with quiet := true }
    else if is_flag arg (bytes "-c") (bytes "--chain") then
      expect_args rest { o with chn := true, quiet := true }
    else if is_flag arg (bytes "-n") (bytes "--unsigned") then
      match rest, get_argument rest o 1 with
      | _ :: rest1, some o1 => expect_args rest1 o1
      | _, _ => none
    else if is_flag arg (bytes "-u") (bytes "--uuid") then
      match rest, get_argument rest o 2 with
      | _ :: rest1, some o1 => expect_args rest1 o1
      | _, _ => none
    else if is_flag arg (bytes "-s") (bytes "--string") then
      match rest, get_argument rest o 3 with
      | _ :: rest1, some o1 => expect_args rest1 o1
      | _, _ => none
    else if is_flag arg (bytes "-b") (bytes "--blob") then
      match rest, get_argument rest o 4 with
      | _ :: rest1, some o1 => expect_args rest1 o1
      | _, _ => none
    else none

/-- The part of `expect` between the argument loop and the call of `chain`: a
record is read from standard input, compared with the expected value and,
unless `quiet` is set, printed. -/
def expect_value (o : Options) (p : Proc) : Exit :=
  -- `value` is set whenever `type` is
  let value := o.value.getD []
  if o.type = 1 then
    let (n, converted, rest, erange) := strtoull_arg value
    if cstr value = [] then ⟨EXIT_FAILURE, p, false⟩
    else if !converted then ⟨EXIT_FAILURE, p, false⟩
    else if n = ULLONG_MAX ∧ erange = true then ⟨EXIT_FAILURE, p, false⟩
    else if rest ≠ [] then ⟨EXIT_FAILURE, p, false⟩
    else
      let r := expect_unsigned p.host p.stdin o.label n
      if r.rc = -1 then ⟨EXIT_FAILURE, { p with host := r.host, stdin := r.file }, false⟩
      else
        let out := if !o.quiet then (fprintf p.stdout (fmt_llu r.host n ++ [10])).2 else p.stdout
        ⟨EXIT_SUCCESS, { p with host := r.host, stdin := r.file, stdout := out }, false⟩
  else if o.type = 2 then
    match uuid_parse value with
    | none => ⟨EXIT_FAILURE, p, false⟩
    | some u =>
      let r := expect_uuid p.host p.stdin o.label u
      if r.rc = -1 then ⟨EXIT_FAILURE, { p with host := r.host, stdin := r.file }, false⟩
      else
        let out := if !o.quiet then (fprintf p.stdout (cstr value ++ [10])).2 else p.stdout
        ⟨EXIT_SUCCESS, { p with host := r.host, stdin := r.file, stdout := out }, false⟩
  else if o.type = 3 then
    let r := expect_string p.host p.stdin o.label o.value
    if r.rc = -1 then ⟨EXIT_FAILURE, { p with host := r.host, stdin := r.file }, r.ub⟩
    else
      let out := if !o.quiet then (fprintf p.stdout (cstr value ++ [10])).2 else p.stdout
      ⟨EXIT_SUCCESS, { p with host := r.host, stdin := r.file, stdout := out }, r.ub⟩
  else if o.type = 4 then
    let r := read_blob p.host p.stdin o.label
    let p1 : Proc := { p with host := r.host, stdin := r.file }
    -- the cleanup block calls `free(blobdata_expected)` and `free(blobdata_actual)`
    if r.rc = -1 then
      ⟨EXIT_FAILURE, p1, decide (read_blob_ptr p.host p.stdin o.label = PtrState.freed)⟩
    else
      let actual := r.value.getD ⟨none, 0⟩
      let (frc, blobdata_expected, blobsize_expected) := read_file_content r.host p.disk o.value
      if frc = -1 then ⟨EXIT_FAILURE, p1, read_file_content_ub r.host p.disk o.value⟩
      else if blobsize_expected ≠ actual.size then ⟨EXIT_FAILURE, p1, false⟩
      else if memcmp (actual.data.getD []) (blobdata_expected.getD []) actual.size ≠ 0 then
        ⟨EXIT_FAILURE, p1, false⟩
      else if !o.quiet then
        let (k, out) := fwrite p.stdout (actual.data.getD []) actual.size
        if k ≠ 1 then ⟨EXIT_FAILURE, { p1 with stdout := out }, false⟩
        else ⟨EXIT_SUCCESS, { p1 with stdout := out }, false⟩
      else ⟨EXIT_SUCCESS, p1, false⟩
  else ⟨EXIT_FAILURE, p, false⟩

/-- The command `expect`. -/
def expect (argv : List (List Byte)) (p : Proc) : Exit :=
  match expect_args argv options_init with
  | none => ⟨EXIT_FAILURE, p, false⟩
  | some o =>
    let e := expect_value o p
    if e.status = EXIT_SUCCESS ∧ o.chn = true then ⟨e.status, chain e.proc, e.ub⟩ else e

/-! ## Test fixtures -/

/-- A host in the locale `l` where every library call succeeds. -/
def host_ok (l : Locale) : Host :=
  { locale := l, query_ok := true, strdup_ok := true, set_c_ok := true, restore_ok := true,
    malloc_ok := fun _ => true, print_llu := fun _ _ => [], scan_llu := fun _ f => (none, f) }

/-- An empty output stream whose writes succeed. -/
def ofile_empty : OFile := ⟨[], []⟩

/-- The UUID of the examples, e4fa98a6-929a-4436-9f66-c38f9371db62. -/
def uuid_example : List Byte :=
  [0xe4, 0xfa, 0x98, 0xa6, 0x92, 0x9a, 0x44, 0x36, 0x9f, 0x66, 0xc3, 0x8f, 0x93, 0x71, 0xdb, 0x62]

/-- The stream of the counterexample to C9: label `name`, declared length 6,
payload `ab`, NUL, `cde`. -/
def nul_stream : List Byte := bytes "name:6:ab\x00cde\n"

/-- A record whose number is one past the largest 64-bit value. -/
def overflow_stream : List Byte := bytes "count:18446744073709551616\n"

/-- An upper-case record of the UUID of the examples. -/
def upper_uuid_stream : List Byte := bytes "id:E4FA98A6-929A-4436-9F66-C38F9371DB62\n"

/-- A stream whose first write call fails having written nothing, and whose
later write calls succeed. -/
def header_fail_file : OFile := ⟨[], [some 0]⟩

/-- A payload that holds a colon, a newline and a NUL byte. -/
def delimiter_payload : List Byte := [58, 10, 0, 65]

/-- A stream whose first write call succeeds and whose second fails after one
byte. -/
def payload_fail_file : OFile := ⟨[], [none, some 1]⟩

/-- A stream whose first two write calls succeed and whose third fails after
two bytes. -/
def blob_fail_file : OFile := ⟨[], [none, none, some 2]⟩

/-- A disk whose only file is `expected.bin`, holding `John`. -/
def disk_john : Disk :=
  ⟨fun name => if name = bytes "expected.bin" then some (bytes "John") else none, true, true, true⟩

/-- A run in the "C" locale with the given input, an empty output and the disk
`disk_john`. -/
def proc_of (input : List Byte) : Proc := ⟨host_ok Locale.C, disk_john, input, ofile_empty⟩

/-! ## Specification-side vocabulary -/

/-- The buffer holds no NUL: it is exactly the text of the C string it is
passed as. -/
def CString (s : List Byte) : Prop := (0 : Byte) ∉ s

instance (s : List Byte) : Decidable (CString s) := by
  unfold CString; infer_instance

/-- A byte of the label alphabet: `a` to `z`, or `_`. -/
def label_byte (b : Byte) : Prop := (97 ≤ b.toNat ∧ b.toNat ≤ 122) ∨ b.toNat = 95

instance (b : Byte) : Decidable (label_byte b) := by
  unfold label_byte; infer_instance

/-- The locale calls that precede the stream I/O of an operation succeed. -/
def Host.calls_ok (h : Host) : Prop :=
  h.query_ok = true ∧ h.strdup_ok = true ∧ h.set_c_ok = true

instance (h : Host) : Decidable h.calls_ok := by
  unfold Host.calls_ok; infer_instance

/-- The stream after a write call that succeeded with the text `t`. -/
def OFile.accept (f : OFile) (t : List Byte) : OFile := ⟨f.data ++ t, f.script.tail⟩

/-- The text `ds` is the decimal representation of `v`: digits only, spelling
`v`, with no leading zero unless the text is the single digit 0. -/
def is_decimal_of (ds : List Byte) (v : Nat) : Prop :=
  ds ≠ [] ∧ (∀ d ∈ ds, isdigit d = true) ∧ digits_value ds = v ∧ (ds.head? = some 48 → ds = [48])

/-- The canonical text of a UUID: the 32 lower-case hexadecimal digits of the
16 bytes in order, in groups of 8, 4, 4, 4 and 12 joined by `-`. -/
def canonical_uuid_text (u : List Byte) : List Byte :=
  let hex := u.flatMap (fun b => [hexdigit (b.toNat / 16), hexdigit (b.toNat % 16)])
  hex.take 8 ++ [45] ++ (hex.drop 8).take 4 ++ [45] ++ (hex.drop 12).take 4 ++ [45]
    ++ (hex.drop 16).take 4 ++ [45] ++ hex.drop 20

/-- A lower-case hexadecimal digit: `0` to `9` or `a` to `f`. -/
def lower_hex (c : Byte) : Prop := (48 ≤ c.toNat ∧ c.toNat ≤ 57) ∨ (97 ≤ c.toNat ∧ c.toNat ≤ 102)

instance (c : Byte) : Decidable (lower_hex c) := by
  unfold lower_hex; infer_instance

/-- The text is an optional sign: nothing, `+` or `-`. -/
def is_sign (sg : List Byte) : Prop := sg = [] ∨ sg = [43] ∨ sg = [45]

instance (sg : List Byte) : Decidable (is_sign sg) := by
  unfold is_sign; infer_instance

/-- The text of a UUID as the reader takes it: 36 bytes, `-` at the positions
8, 13, 18 and 23, a hexadecimal digit of either case everywhere else. -/
def uuid_text_ok (t : List Byte) : Prop :=
  t.length = 36 ∧ ∀ i, i < 36 → ∀ c ∈ t[i]?,
    if i = 8 ∨ i = 13 ∨ i = 18 ∨ i = 23 then c = 45 else isxdigit c = true

instance (t : List Byte) : Decidable (uuid_text_ok t) := by
  unfold uuid_text_ok; infer_instance

/-- The same process state with another active locale. -/
def Host.with_locale (h : Host) (l : Locale) : Host := { h with locale := l }

/-- The payload of the record a `write` with the options `o` is asked for, as
the wire format spells it.  A number (`type` 1): the decimal text of the value
the argument converts to.  A UUID (`type` 2): the canonical text of the UUID
the argument parses to.  A string (`type` 3): the decimal length of the
argument, a colon and its bytes.  A blob (any other `type`): the decimal
length of the content of the file the argument names, a colon and the
content. -/
def payload_of (o : Options) (d : Disk) : List Byte :=
  let value := o.value.getD []
  if o.type = 1 then utoa (strtoull_arg value).1
  else if o.type = 2 then canonical_uuid_text ((uuid_parse value).getD [])
  else if o.type = 3 then utoa (cstr value).length ++ [58] ++ cstr value
  else
    let content := (d.fopen (cstr value)).getD []
    utoa content.length ++ [58] ++ content

/-- The record a `write` with the options `o` and the label `label` is asked
for: the label, a colon, the payload and a newline. -/
def record_of (o : Options) (label : List Byte) (d : Disk) : List Byte :=
  cstr label ++ [58] ++ payload_of o d ++ [10]

/-! ## Lemmas: C strings and labels -/

theorem cstr_eq_self {s : List Byte} (hs : CString s) : cstr s = s := by
  unfold cstr
  rw [List.takeWhile_eq_self_iff]
  intro b hb
  have : b ≠ 0 := fun h0 => hs (h0 ▸ hb)
  simpa using this

theorem strlen_eq_length {s : List Byte} (hs : CString s) : strlen s = s.length := by
  unfold strlen
  rw [cstr_eq_self hs]

theorem label_loop_cases (l : List Byte) : label_loop l = 1 ∨ label_loop l = 0 := by
  induction l with
  | nil => left; rfl
  | cons b rest ih =>
    unfold label_loop
    simp only
    split
    · right; rfl
    · exact ih

theorem label_loop_eq_one (l : List Byte) : label_loop l = 1 ↔ ∀ b ∈ l, label_byte b := by
  induction l with
  | nil => simp [label_loop]
  | cons b rest ih =>
    unfold label_loop
    simp only [List.mem_cons, forall_eq_or_imp]
    have hb := UInt8.toNat_lt_size b
    have hsz : UInt8.size = 256 := rfl
    split
    · rename_i hbad
      constructor
      · intro h; exact absurd h (by decide)
      · rintro ⟨hlb, _⟩
        exfalso
        unfold label_byte at hlb
        unfold toChar at hbad
        split at hbad <;> omega
    · rename_i hgood
      rw [ih]
      constructor
      · intro h
        refine ⟨?_, h⟩
        unfold label_byte
        unfold toChar at hgood
        split at hgood <;> omega
      · exact fun h => h.2

theorem is_label_valid_cases (label : Option (List Byte)) :
    is_label_valid label = 1 ∨ is_label_valid label = 0 := by
  unfold is_label_valid
  cases label with
  | none => right; rfl
  | some l =>
    simp only
    split
    · right; rfl
    · exact label_loop_cases _

theorem is_label_valid_iff {l : List Byte} (hs : CString l) :
    is_label_valid (some l) = 1 ↔
      (1 ≤ l.length ∧ l.length ≤ 80 ∧ ∀ b ∈ l, label_byte b) := by
  unfold is_label_valid
  simp only [strlen_eq_length hs, List.take_length]
  split
  · rename_i hlen
    constructor
    · intro h; exact absurd h (by decide)
    · rintro ⟨h1, h2, _⟩; omega
  · rename_i hlen
    rw [label_loop_eq_one]
    constructor
    · intro h; exact ⟨by omega, by omega, h⟩
    · exact fun h => h.2.2

/-! ## Lemmas: decimal text -/

theorem toNat_ofNat_lt {n : Nat} (hn : n < 256) : (UInt8.ofNat n).toNat = n := by
  show n % 256 = n
  omega

theorem digit_byte_toNat {k : Nat} (hk : k < 10) : (UInt8.ofNat (48 + k)).toNat = 48 + k :=
  toNat_ofNat_lt (by omega)

theorem digit_byte_isdigit {k : Nat} (hk : k < 10) : isdigit (UInt8.ofNat (48 + k)) = true := by
  unfold isdigit
  rw [digit_byte_toNat hk]
  simp
  omega

theorem digits_value_snoc (ds : List Byte) (d : Byte) :
    digits_value (ds ++ [d]) = digits_value ds * 10 + (d.toNat - 48) := by
  unfold digits_value
  rw [List.foldl_append]
  rfl

theorem utoa_loop_spec (fuel : Nat) : ∀ (n : Nat) (acc : List Byte), n < 10 ^ fuel → 0 < fuel →
    ∃ ds, utoa_loop fuel n acc = ds ++ acc ∧ is_decimal_of ds n := by
  induction fuel with
  | zero => intro n acc _ h; exact absurd h (by decide)
  | succ fuel ih =>
    intro n acc hn _
    have hlt : n % 10 < 10 := Nat.mod_lt _ (by decide)
    unfold utoa_loop
    simp only
    split
    · rename_i hq
      refine ⟨[UInt8.ofNat (48 + n % 10)], rfl, by simp, ?_, ?_, ?_⟩
      · intro d hd
        rw [List.mem_singleton] at hd
        rw [hd]
        exact digit_byte_isdigit hlt
      · unfold digits_value
        simp only [List.foldl_cons, List.foldl_nil]
        rw [digit_byte_toNat hlt]
        omega
      · intro hh
        simp only [List.head?_cons, Option.some.injEq] at hh
        rw [hh]
    · rename_i hq
      have hfuel : 0 < fuel := by
        rcases Nat.eq_zero_or_pos fuel with h0 | h0
        · subst h0
          simp at hn
          omega
        · exact h0
      have hn10 : n / 10 < 10 ^ fuel := by
        rw [Nat.div_lt_iff_lt_mul (by decide)]
        rw [pow_succ] at hn
        exact hn
      obtain ⟨ds, hds, hne, hdig, hval, hhead⟩ := ih (n / 10) (UInt8.ofNat (48 + n % 10) :: acc) hn10 hfuel
      refine ⟨ds ++ [UInt8.ofNat (48 + n % 10)], ?_, by simp, ?_, ?_, ?_⟩
      · rw [hds]
        simp
      · intro d hd
        rw [List.mem_append, List.mem_singleton] at hd
        rcases hd with hd | hd
        · exact hdig d hd
        · rw [hd]
          exact digit_byte_isdigit hlt
      · rw [digits_value_snoc, hval, digit_byte_toNat hlt]
        omega
      · intro hh
        exfalso
        cases ds with
        | nil => exact hne rfl
        | cons x xs =>
          simp only [List.cons_append, List.head?_cons, Option.some.injEq] at hh
          have h48 := hhead (by simp [hh])
          rw [h48] at hval
          apply hq
          rw [← hval]
          rfl

theorem utoa_spec {v : Nat} (hv : v < 2 ^ 64) : is_decimal_of (utoa v) v := by
  obtain ⟨ds, hds, hdec⟩ := utoa_loop_spec 20 v [] (by omega) (by decide)
  unfold utoa
  rw [hds, List.append_nil]
  exact hdec

/-! ## Lemmas: writing -/

theorem accept_healthy {f : OFile} (hf : f.healthy) (t : List Byte) : (f.accept t).healthy := by
  intro o ho
  exact hf o (List.mem_of_mem_tail ho)

theorem fprintf_healthy {f : OFile} (hf : f.healthy) (t : List Byte) :
    fprintf f t = ((t.length : Int), f.accept t) := by
  unfold fprintf OFile.accept
  rcases f with ⟨d, sc⟩
  cases sc with
  | nil => rfl
  | cons o sc =>
    have : o = none := hf o (List.mem_cons_self _ _)
    subst this
    rfl

theorem fwrite_healthy {f : OFile} (hf : f.healthy) (data : List Byte) {size : Nat}
    (hs : size ≠ 0) : fwrite f data size = (1, f.accept (data.take size)) := by
  unfold fwrite OFile.accept
  rw [if_neg hs]
  rcases f with ⟨d, sc⟩
  cases sc with
  | nil => rfl
  | cons o sc =>
    have : o = none := hf o (List.mem_cons_self _ _)
    subst this
    rfl

theorem drop_data_append (d t : List Byte) : (d ++ t).drop d.length = t := by
  simp

/-- A write whose callback succeeds on a healthy stream: the record is the
label, a colon, the payload and a newline. -/
theorem write_callback_ok {h : Host} {f : OFile} {l : List Byte}
    {cb : Host → OFile → Int × OFile} {payload : List Byte}
    (hh : h.calls_ok) (hl : is_label_valid (some l) = 1) (hf : f.healthy)
    (hcb : ∀ g : OFile, g.healthy →
      ∃ g1, cb h.in_c g = (0, g1) ∧ g1.healthy ∧ g1.data = g.data ++ payload) :
    (write_callback h f (some l) cb).rc = 0 ∧
    (write_callback h f (some l) cb).host = restore_locale h.in_c h.locale ∧
    (write_callback h f (some l) cb).file.healthy ∧
    (write_callback h f (some l) cb).file.data
      = f.data ++ (cstr l ++ [58] ++ payload ++ [10]) := by
  obtain ⟨hq, hd, hc⟩ := hh
  have h1 := accept_healthy hf (cstr l ++ [58])
  obtain ⟨g1, hg1, hg1h, hg1d⟩ := hcb _ h1
  unfold write_callback
  simp only [hl, hq, hd, hc, fprintf_healthy hf, hg1, fprintf_healthy hg1h]
  simp only [OFile.accept, List.length_singleton, hg1d]
  refine ⟨by simp, by simp, ?_, by simp⟩
  simpa using accept_healthy hg1h [10]

/-- A write whose callback fails returns -1 and does not emit the newline. -/
theorem write_callback_cb_fails {h : Host} {f : OFile} {l : List Byte}
    {cb : Host → OFile → Int × OFile} {g : OFile}
    (hh : h.calls_ok) (hl : is_label_valid (some l) = 1)
    (hcb : cb h.in_c (fprintf f (cstr l ++ [58])).2 = (-1, g)) :
    (write_callback h f (some l) cb).rc = -1 ∧ (write_callback h f (some l) cb).file = g := by
  obtain ⟨hq, hd, hc⟩ := hh
  unfold write_callback
  simp [hl, hq, hd, hc, hcb]

theorem emitted_of_data (r : WResult) (f : OFile) (t : List Byte)
    (hr : r.file.data = f.data ++ t) : r.emitted f = t := by
  unfold WResult.emitted
  rw [hr]
  simp

theorem unsigned_writer_ok (v : Nat) (h : Host) {g : OFile} (hg : g.healthy) :
    ∃ g1, unsigned_writer v h.in_c g = (0, g1) ∧ g1.healthy ∧ g1.data = g.data ++ utoa v := by
  refine ⟨g.accept (utoa v), ?_, accept_healthy hg _, rfl⟩
  unfold unsigned_writer
  simp [fprintf_healthy hg, fmt_llu, Host.in_c]

theorem blob_writer_ok (data : List Byte) {size : Nat} (hsz : size ≠ 0) (h : Host) {g : OFile}
    (hg : g.healthy) :
    ∃ g1, blob_writer data size h.in_c g = (0, g1) ∧ g1.healthy ∧
      g1.data = g.data ++ (utoa size ++ [58] ++ data.take size) := by
  have h1 := accept_healthy hg (utoa size ++ [58])
  refine ⟨(g.accept (utoa size ++ [58])).accept (data.take size), ?_, accept_healthy h1 _, ?_⟩
  · unfold blob_writer
    simp [fprintf_healthy hg, fmt_llu, Host.in_c, fwrite_healthy h1 data hsz]
    omega
  · simp [OFile.accept]

/-- The blob callback on a zero size: the length prefix is written, then
`fwrite` returns 0 and the callback fails. -/
theorem blob_writer_zero (data : List Byte) (h : Host) {g : OFile} (hg : g.healthy) :
    blob_writer data 0 h.in_c g = (-1, g.accept (utoa 0 ++ [58])) := by
  unfold blob_writer
  simp [fprintf_healthy hg, fmt_llu, Host.in_c, fwrite]

/-! ## Lemmas: reading -/

theorem cstr_cons (x : Byte) (xs : List Byte) :
    cstr (x :: xs) = if x = 0 then [] else x :: cstr xs := by
  unfold cstr
  by_cases hx : x = 0 <;> simp [List.takeWhile_cons, hx]

theorem strcmp_eq_zero_iff : ∀ a b : List Byte, strcmp a b = 0 ↔ cstr a = cstr b
  | [], [] => by simp [strcmp]
  | [], y :: ys => by
    rw [cstr_cons]
    unfold strcmp
    by_cases hy : y = 0 <;> simp [hy, cstr]
  | x :: xs, [] => by
    rw [cstr_cons]
    unfold strcmp
    by_cases hx : x = 0 <;> simp [hx, cstr]
  | x :: xs, y :: ys => by
    rw [cstr_cons, cstr_cons]
    unfold strcmp
    by_cases hxy : x = y
    · subst hxy
      by_cases hx : x = 0
      · simp [hx]
      · simp [hx, strcmp_eq_zero_iff xs ys]
    · have hne : x.toNat ≠ y.toNat := fun h => hxy (UInt8.ext_iff.mpr h)
      have hsub : (x.toNat : Int) - (y.toNat : Int) ≠ 0 := by omega
      rw [if_pos hxy]
      constructor
      · intro h
        exact absurd h hsub
      · intro h
        exfalso
        by_cases hx : x = 0
        · by_cases hy : y = 0
          · exact hxy (hx.trans hy.symm)
          · rw [if_pos hx, if_neg hy] at h
            exact absurd h (by simp)
        · by_cases hy : y = 0
          · rw [if_neg hx, if_pos hy] at h
            exact absurd h (by simp)
          · rw [if_neg hx, if_neg hy] at h
            exact hxy (List.cons.inj h).1

theorem cstr_append_zeros {l : List Byte} (hs : CString l) (k : Nat) :
    cstr (l ++ List.replicate k 0) = l := by
  induction l with
  | nil =>
    cases k with
    | zero => rfl
    | succ k => simp [List.replicate_succ, cstr_cons]
  | cons x xs ih =>
    have hx : x ≠ 0 := fun h0 => hs (by simp [h0])
    have hxs : CString xs := fun h0 => hs (List.mem_cons_of_mem _ h0)
    rw [List.cons_append, cstr_cons, if_neg hx, ih hxs]

theorem label_nonempty {l : List Byte} (hl : is_label_valid (some l) = 1) : l ≠ [] := by
  intro h
  subst h
  exact absurd hl (by decide)

/-- The label check of a read passes on a stream that starts with the label,
and consumes exactly the label. -/
theorem expect_label_ok {l : List Byte} (hs : CString l) (hl : is_label_valid (some l) = 1)
    (rest : List Byte) : expect_label (l ++ rest) (some l) = (0, rest) := by
  have hne := label_nonempty hl
  unfold expect_label
  simp only [hl, strlen_eq_length hs]
  have hscan : fscanf_c (l ++ rest) l.length = (1, l, rest) := by
    unfold fscanf_c
    cases l with
    | nil => exact absurd rfl hne
    | cons x xs =>
      simp only [List.cons_append]
      rw [← List.cons_append, List.take_left, List.drop_left]
  have hcmp : strcmp l (l ++ List.replicate (81 - l.length) 0) = 0 := by
    rw [strcmp_eq_zero_iff, cstr_append_zeros hs, cstr_eq_self hs]
  simp [hscan, hcmp]

/-- A read on a stream holding the label, a colon, a payload the callback
accepts, and a newline. -/
theorem read_callback_ok {α : Type} {h : Host} {l : List Byte}
    {cb : Host → IFile → Int × Option α × IFile} {body rest : List Byte} {v : Option α}
    (hh : h.calls_ok) (hs : CString l) (hl : is_label_valid (some l) = 1)
    (hcb : cb h.in_c body = (0, v, 10 :: rest)) :
    read_callback h (l ++ 58 :: body) (some l) cb
      = ⟨0, v, restore_locale h.in_c h.locale, rest⟩ := by
  obtain ⟨hq, hd, hc⟩ := hh
  unfold read_callback
  simp [hq, hd, hc, expect_label_ok hs hl, fscanf_c, hcb]

theorem takeWhile_dropWhile_run (p : Byte → Bool) (tail : List Byte)
    (ht : ∀ c ∈ tail.head?, p c = false) :
    ∀ ds : List Byte, (∀ d ∈ ds, p d = true) →
      (ds ++ tail).takeWhile p = ds ∧ (ds ++ tail).dropWhile p = tail
  | [], _ => by
    cases tail with
    | nil => simp
    | cons c t =>
      have hc : p c = false := ht c (by simp)
      simp [List.takeWhile_cons, List.dropWhile_cons, hc]
  | d :: ds, hds => by
    have hd : p d = true := hds d (List.mem_cons_self _ _)
    have ih := takeWhile_dropWhile_run p tail ht ds (fun x hx => hds x (List.mem_cons_of_mem _ hx))
    simp [List.takeWhile_cons, List.dropWhile_cons, hd, ih.1, ih.2]

/-- The conversion `%llu` on a run of digits that is followed by a byte that
is not a digit (or by the end of input). -/
theorem scan_llu_C_digits {ds tail : List Byte} (hne : ds ≠ [])
    (hds : ∀ d ∈ ds, isdigit d = true) (ht : ∀ c ∈ tail.head?, isdigit c = false) :
    scan_llu_C (ds ++ tail) = (1, some (strtoull false ds), tail) := by
  obtain ⟨htake, hdrop⟩ := takeWhile_dropWhile_run isdigit tail ht ds hds
  cases ds with
  | nil => exact absurd rfl hne
  | cons d ds1 =>
    have hd : isdigit d = true := hds d (List.mem_cons_self _ _)
    have hd48 : 48 ≤ d.toNat := by
      unfold isdigit at hd
      simp at hd
      exact hd.1
    have hd57 : d.toNat ≤ 57 := by
      unfold isdigit at hd
      simp at hd
      exact hd.2
    have hsp : isspace d = false := by
      unfold isspace
      have h32 : d ≠ 32 := fun h => by rw [h] at hd48; exact absurd hd48 (by decide)
      simp [h32]
      omega
    have h45 : (d == 45) = false := by
      have : d ≠ 45 := fun h => by rw [h] at hd48; exact absurd hd48 (by decide)
      simpa using this
    have h43 : (d == 43) = false := by
      have : d ≠ 43 := fun h => by rw [h] at hd48; exact absurd hd48 (by decide)
      simpa using this
    unfold scan_llu_C
    rw [List.cons_append, List.dropWhile_cons, hsp]
    simp only [Bool.false_eq_true, if_false, h45, h43, Bool.or_self]
    rw [← List.cons_append, htake, hdrop]
    simp

theorem strtoull_of_decimal {ds : List Byte} {v : Nat} (hv : v < 2 ^ 64)
    (hdec : is_decimal_of ds v) : strtoull false ds = v := by
  unfold strtoull ULLONG_MAX
  rw [hdec.2.2.1]
  have hle : ¬ v > 2 ^ 64 - 1 := by omega
  simp only [hle, if_false, Bool.false_eq_true]

theorem isdigit_false_of_lt {c : Byte} (hc : c.toNat < 48) : isdigit c = false := by
  unfold isdigit
  simp
  omega

theorem unsigned_reader_ok (h : Host) {v : Nat} (hv : v < 2 ^ 64) (rest : List Byte) :
    unsigned_reader h.in_c (utoa v ++ 10 :: rest) = (0, some v, 10 :: rest) := by
  have hdec := utoa_spec hv
  have hscan : scan_llu_C (utoa v ++ 10 :: rest) = (1, some (strtoull false (utoa v)), 10 :: rest) :=
    scan_llu_C_digits hdec.1 hdec.2.1 (by
      intro c hc
      simp only [List.head?_cons, Option.mem_def, Option.some.injEq] at hc
      subst hc
      decide)
  unfold unsigned_reader fscanf_llu scan_llu
  simp [Host.in_c, hscan, strtoull_of_decimal hv hdec]

theorem isdigit_colon_head (X : List Byte) : ∀ c ∈ (58 :: X : List Byte).head?, isdigit c = false := by
  intro c hc
  simp only [List.head?_cons, Option.mem_def, Option.some.injEq] at hc
  subst hc
  decide

/-- The conversion `"%llu:"` on the decimal text of a length and a colon. -/
theorem fscanf_llu_colon_ok (h : Host) {n : Nat} (hn : n < 2 ^ 64) (X : List Byte) :
    fscanf_llu_colon h.in_c (utoa n ++ 58 :: X) = (1, some n, X) := by
  have hdec := utoa_spec hn
  have hscan := scan_llu_C_digits hdec.1 hdec.2.1 (isdigit_colon_head X)
  unfold fscanf_llu_colon scan_llu
  simp [Host.in_c, hscan, strtoull_of_decimal hn hdec]

theorem fread_exact {payload : List Byte} (hp : payload ≠ []) (tail : List Byte) :
    fread (payload ++ tail) payload.length = (1, payload, tail) := by
  have hlen : payload.length ≠ 0 := fun h0 => hp (List.length_eq_zero.mp h0)
  unfold fread
  simp [hlen]

theorem blob_reader_ok (h : Host) {payload : List Byte} (hp : payload ≠ [])
    (hn : payload.length < 2 ^ 64) (hm : h.malloc_ok payload.length = true) (rest : List Byte) :
    blob_reader h.in_c (utoa payload.length ++ 58 :: (payload ++ 10 :: rest))
      = (0, some ⟨some payload, payload.length⟩, 10 :: rest) := by
  have hm1 : h.in_c.malloc_ok payload.length = true := hm
  unfold blob_reader
  simp [fscanf_llu_colon_ok h hn, hm1, fread_exact hp]

theorem string_reader_ok (h : Host) {payload : List Byte} (hp : payload ≠ [])
    (hn : payload.length < 2 ^ 64) (hm : h.malloc_ok ((payload.length + 1) % 2 ^ 64) = true)
    (rest : List Byte) :
    string_reader h.in_c (utoa payload.length ++ 58 :: (payload ++ 10 :: rest))
      = (0, some (some (payload ++ [0])), 10 :: rest) := by
  have hm1 : h.in_c.malloc_ok ((payload.length + 1) % 2 ^ 64) = true := hm
  unfold string_reader
  simp only [fscanf_llu_colon_ok h hn, Option.getD_some, hm1, fread_exact hp]
  simp

/-- Writing a blob of zero size fails: the header and the length prefix are
left in the stream, the newline is not written. -/
theorem write_blob_zero_fails {h : Host} {f : OFile} {l : List Byte} (data : List Byte)
    (hh : h.calls_ok) (hl : is_label_valid (some l) = 1) (hf : f.healthy) :
    (write_blob h f (some l) data 0).rc = -1 ∧
    (write_blob h f (some l) data 0).file.data = f.data ++ (cstr l ++ [58] ++ utoa 0 ++ [58]) := by
  have h1 := accept_healthy hf (cstr l ++ [58])
  have hcb : blob_writer data 0 h.in_c (fprintf f (cstr l ++ [58])).2
      = (-1, (f.accept (cstr l ++ [58])).accept (utoa 0 ++ [58])) := by
    rw [fprintf_healthy hf]
    exact blob_writer_zero data h h1
  obtain ⟨hrc, hfile⟩ := write_callback_cb_fails hh hl hcb
  unfold write_blob
  refine ⟨hrc, ?_⟩
  rw [hfile]
  simp [OFile.accept]

/-- Round trip of a blob that is not empty. -/
theorem blob_round_trip_nonempty (h h2 : Host) (f : OFile) (L V : List Byte)
    (hs : CString L) (hL : is_label_valid (some L) = 1) (hV : V ≠ []) (hn : V.length < 2 ^ 64)
    (hh : h.calls_ok) (hh2 : h2.calls_ok) (hf : f.healthy)
    (hm : h2.malloc_ok V.length = true) :
    (write_blob h f (some L) V V.length).rc = 0 ∧
    (write_blob h f (some L) V V.length).file.data
      = f.data ++ (L ++ [58] ++ (utoa V.length ++ [58] ++ V) ++ [10]) ∧
    read_blob h2 ((write_blob h f (some L) V V.length).emitted f) (some L)
      = ⟨0, some ⟨some V, V.length⟩, restore_locale h2.in_c h2.locale, []⟩ := by
  have hsz : V.length ≠ 0 := fun h0 => hV (List.length_eq_zero.mp h0)
  obtain ⟨hrc, _, _, hfile⟩ :=
    write_callback_ok hh hL hf (fun g hg => blob_writer_ok V hsz h hg)
  rw [cstr_eq_self hs, List.take_length] at hfile
  have hem : (write_blob h f (some L) V V.length).emitted f
      = L ++ 58 :: (utoa V.length ++ 58 :: (V ++ 10 :: [])) := by
    unfold write_blob
    rw [emitted_of_data _ f _ hfile]
    simp
  refine ⟨hrc, hfile, ?_⟩
  rw [hem]
  exact read_callback_ok hh2 hs hL (blob_reader_ok h2 hV hn hm [])

/-- Round trip of a string that is not empty. -/
theorem string_round_trip_nonempty (h h2 : Host) (f : OFile) (L V : List Byte)
    (hs : CString L) (hL : is_label_valid (some L) = 1) (hV : V ≠ []) (hn : V.length < 2 ^ 64)
    (hh : h.calls_ok) (hh2 : h2.calls_ok) (hf : f.healthy)
    (hm : h2.malloc_ok ((V.length + 1) % 2 ^ 64) = true) :
    (write_blob h f (some L) V V.length).rc = 0 ∧
    (write_blob h f (some L) V V.length).file.data
      = f.data ++ (L ++ [58] ++ (utoa V.length ++ [58] ++ V) ++ [10]) ∧
    read_string h2 ((write_blob h f (some L) V V.length).emitted f) (some L)
      = ⟨0, some (some (V ++ [0])), restore_locale h2.in_c h2.locale, []⟩ := by
  have hsz : V.length ≠ 0 := fun h0 => hV (List.length_eq_zero.mp h0)
  obtain ⟨hrc, _, _, hfile⟩ :=
    write_callback_ok hh hL hf (fun g hg => blob_writer_ok V hsz h hg)
  rw [cstr_eq_self hs, List.take_length] at hfile
  have hem : (write_blob h f (some L) V V.length).emitted f
      = L ++ 58 :: (utoa V.length ++ 58 :: (V ++ 10 :: [])) := by
    unfold write_blob
    rw [emitted_of_data _ f _ hfile]
    simp
  refine ⟨hrc, hfile, ?_⟩
  rw [hem]
  exact read_callback_ok hh2 hs hL (string_reader_ok h2 hV hn hm [])

/-! ## Lemmas: UUID text -/

theorem hexdigit_facts : ∀ n, n < 16 →
    hexval (hexdigit n) = n ∧ isxdigit (hexdigit n) = true ∧ hexdigit n ≠ 45 ∧ hexdigit n ≠ 0
      ∧ (isdigit (hexdigit n) = true ∨ (97 ≤ (hexdigit n).toNat ∧ (hexdigit n).toNat ≤ 102)) := by
  decide

theorem byte_hi_lt (b : Byte) : b.toNat / 16 < 16 := by
  have := UInt8.toNat_lt_size b
  have hsz : UInt8.size = 256 := rfl
  omega

theorem byte_lo_lt (b : Byte) : b.toNat % 16 < 16 := Nat.mod_lt _ (by decide)

theorem ofNat_toNat (b : Byte) : UInt8.ofNat b.toNat = b := by
  apply UInt8.ext_iff.mpr
  exact toNat_ofNat_lt (UInt8.toNat_lt_size b)

theorem hex_pair_value (b : Byte) :
    UInt8.ofNat (hexval (hexdigit (b.toNat / 16)) * 16 + hexval (hexdigit (b.toNat % 16))) = b := by
  rw [(hexdigit_facts _ (byte_hi_lt b)).1, (hexdigit_facts _ (byte_lo_lt b)).1]
  have : b.toNat / 16 * 16 + b.toNat % 16 = b.toNat := by omega
  rw [this, ofNat_toNat]

theorem list_length_16 (u : List Byte) (hu : u.length = 16) :
    ∃ b0 b1 b2 b3 b4 b5 b6 b7 b8 b9 b10 b11 b12 b13 b14 b15,
      u = [b0, b1, b2, b3, b4, b5, b6, b7, b8, b9, b10, b11, b12, b13, b14, b15] := by
  rcases u with _ | ⟨b0, _ | ⟨b1, _ | ⟨b2, _ | ⟨b3, _ | ⟨b4, _ | ⟨b5, _ | ⟨b6, _ | ⟨b7, _ | ⟨b8,
    _ | ⟨b9, _ | ⟨b10, _ | ⟨b11, _ | ⟨b12, _ | ⟨b13, _ | ⟨b14, _ | ⟨b15, _ | ⟨b16, r⟩⟩⟩⟩⟩⟩⟩⟩⟩⟩⟩⟩⟩⟩⟩⟩⟩
  all_goals first
    | exact ⟨_, _, _, _, _, _, _, _, _, _, _, _, _, _, _, _, rfl⟩
    | (simp at hu)

theorem isxdigit_hi (b : Byte) : isxdigit (hexdigit (b.toNat / 16)) = true :=
  (hexdigit_facts _ (byte_hi_lt b)).2.1
theorem isxdigit_lo (b : Byte) : isxdigit (hexdigit (b.toNat % 16)) = true :=
  (hexdigit_facts _ (byte_lo_lt b)).2.1
theorem hexdigit_hi_ne_dash (b : Byte) : hexdigit (b.toNat / 16) ≠ 45 :=
  (hexdigit_facts _ (byte_hi_lt b)).2.2.1
theorem hexdigit_lo_ne_dash (b : Byte) : hexdigit (b.toNat % 16) ≠ 45 :=
  (hexdigit_facts _ (byte_lo_lt b)).2.2.1
theorem hexdigit_hi_ne_zero (b : Byte) : hexdigit (b.toNat / 16) ≠ 0 :=
  (hexdigit_facts _ (byte_hi_lt b)).2.2.2.1
theorem hexdigit_lo_ne_zero (b : Byte) : hexdigit (b.toNat % 16) ≠ 0 :=
  (hexdigit_facts _ (byte_lo_lt b)).2.2.2.1

theorem uuid_fmt_cstring (u : List Byte) : ∀ i, CString (uuid_fmt i u) := by
  induction u with
  | nil => intro i; simp [uuid_fmt, CString]
  | cons b rest ih =>
    intro i
    have h := ih (i + 1)
    unfold CString at h ⊢
    unfold uuid_fmt
    have h1 := hexdigit_hi_ne_zero b
    have h2 := hexdigit_lo_ne_zero b
    split <;> simp [h, Ne.symm h1, Ne.symm h2]

theorem hex_bytes_uuid_fmt (u : List Byte) :
    ∀ i, hex_bytes ((uuid_fmt i u).filter (fun c => c != 45)) = u := by
  induction u with
  | nil => intro i; simp [uuid_fmt, hex_bytes]
  | cons b rest ih =>
    intro i
    unfold uuid_fmt
    have h1 := hexdigit_hi_ne_dash b
    have h2 := hexdigit_lo_ne_dash b
    split <;> simp [List.filter_cons, h1, h2, hex_bytes, hex_pair_value, ih]

theorem uuid_fmt_16 (u : List Byte) (hu : u.length = 16) :
    (uuid_fmt 0 u).length = 36 ∧ uuid_check 0 (uuid_fmt 0 u) = true
      ∧ uuid_fmt 0 u = canonical_uuid_text u := by
  obtain ⟨b0, b1, b2, b3, b4, b5, b6, b7, b8, b9, b10, b11, b12, b13, b14, b15, rfl⟩ :=
    list_length_16 u hu
  refine ⟨by simp [uuid_fmt], ?_, ?_⟩
  · simp [uuid_fmt, uuid_check, isxdigit_hi, isxdigit_lo]
  · simp [uuid_fmt, canonical_uuid_text]

theorem list_length_36 (t : List Byte) (ht : t.length = 36) :
    ∃ c0 c1 c2 c3 c4 c5 c6 c7 c8 c9 c10 c11 c12 c13 c14 c15 c16 c17 c18 c19 c20 c21 c22 c23 c24 c25 c26 c27 c28 c29 c30 c31 c32 c33 c34 c35,
      t = [c0, c1, c2, c3, c4, c5, c6, c7, c8, c9, c10, c11, c12, c13, c14, c15, c16, c17, c18, c19, c20, c21, c22, c23, c24, c25, c26, c27, c28, c29, c30, c31, c32, c33, c34, c35] := by
  rcases t with _ | ⟨c0, _ | ⟨c1, _ | ⟨c2, _ | ⟨c3, _ | ⟨c4, _ | ⟨c5, _ | ⟨c6, _ | ⟨c7, _ | ⟨c8, _ | ⟨c9, _ | ⟨c10, _ | ⟨c11, _ | ⟨c12, _ | ⟨c13, _ | ⟨c14, _ | ⟨c15, _ | ⟨c16, _ | ⟨c17, _ | ⟨c18, _ | ⟨c19, _ | ⟨c20, _ | ⟨c21, _ | ⟨c22, _ | ⟨c23, _ | ⟨c24, _ | ⟨c25, _ | ⟨c26, _ | ⟨c27, _ | ⟨c28, _ | ⟨c29, _ | ⟨c30, _ | ⟨c31, _ | ⟨c32, _ | ⟨c33, _ | ⟨c34, _ | ⟨c35, _ | ⟨c36, r⟩⟩⟩⟩⟩⟩⟩⟩⟩⟩⟩⟩⟩⟩⟩⟩⟩⟩⟩⟩⟩⟩⟩⟩⟩⟩⟩⟩⟩⟩⟩⟩⟩⟩⟩⟩⟩
  all_goals first
    | exact ⟨_, _, _, _, _, _, _, _, _, _, _, _, _, _, _, _, _, _, _, _, _, _, _, _, _, _, _, _, _, _, _, _, _, _, _, _, rfl⟩
    | (simp at ht)

theorem bne_dash_of_isxdigit {c : Byte} (h : isxdigit c = true) : (c != 45) = true := by
  have hne : c ≠ 45 := by
    intro h45
    rw [h45] at h
    exact absurd h (by decide)
  simpa using hne

theorem uuid_parse_length {s a : List Byte} (h : uuid_parse s = some a) : a.length = 16 := by
  unfold uuid_parse at h
  simp only at h
  split at h
  · exact absurd h (by simp)
  · rename_i hlen
    split at h
    · exact absurd h (by simp)
    · rename_i hchk
      simp only [Option.some.injEq] at h
      subst h
      have hlen36 : (cstr s).length = 36 := by
        by_contra hne
        exact hlen hne
      obtain ⟨c0, c1, c2, c3, c4, c5, c6, c7, c8, c9, c10, c11, c12, c13, c14, c15, c16, c17, c18, c19, c20, c21, c22, c23, c24, c25, c26, c27, c28, c29, c30, c31, c32, c33, c34, c35, ht⟩ := list_length_36 _ hlen36
      rw [ht] at hchk ⊢
      simp [uuid_check] at hchk
      obtain ⟨h0, h1, h2, h3, h4, h5, h6, h7, h8, h9, h10, h11, h12, h13, h14, h15, h16, h17, h18, h19, h20, h21, h22, h23, h24, h25, h26, h27, h28, h29, h30, h31, h32, h33, h34, h35⟩ := hchk
      simp [List.filter_cons, hex_bytes, bne_dash_of_isxdigit, *]

theorem uuid_cmp_eq_zero : ∀ a b : List Byte, a.length = b.length → (uuid_cmp a b = 0 ↔ a = b)
  | [], [], _ => by simp [uuid_cmp]
  | [], _ :: _, h => by simp at h
  | _ :: _, [], h => by simp at h
  | x :: xs, y :: ys, h => by
    have hl : xs.length = ys.length := by simpa using h
    unfold uuid_cmp
    by_cases h1 : x.toNat < y.toNat
    · have hne : x ≠ y := fun e => by rw [e] at h1; exact absurd h1 (lt_irrefl _)
      simp [h1, hne]
    · by_cases h2 : y.toNat < x.toNat
      · have hne : x ≠ y := fun e => by rw [e] at h2; exact absurd h2 (lt_irrefl _)
        simp [h1, h2, hne]
      · have hxy : x = y := UInt8.ext_iff.mpr (by omega)
        simp [h1, h2, hxy, uuid_cmp_eq_zero xs ys hl]

theorem lower_hex_facts : ∀ n, n < 16 → lower_hex (hexdigit n) := by decide

theorem uuid_fmt_lower_hex (u : List Byte) :
    ∀ i, ∀ c ∈ (uuid_fmt i u).filter (fun c => c != 45), lower_hex c := by
  induction u with
  | nil => intro i; simp [uuid_fmt]
  | cons b rest ih =>
    intro i c hc
    unfold uuid_fmt at hc
    have h1 := hexdigit_hi_ne_dash b
    have h2 := hexdigit_lo_ne_dash b
    have hmem : c = hexdigit (b.toNat / 16) ∨ c = hexdigit (b.toNat % 16)
        ∨ c ∈ (uuid_fmt (i + 1) rest).filter (fun c => c != 45) := by
      split at hc <;> simpa [List.filter_cons, h1, h2] using hc
    rcases hmem with h | h | h
    · rw [h]; exact lower_hex_facts _ (byte_hi_lt b)
    · rw [h]; exact lower_hex_facts _ (byte_lo_lt b)
    · exact ih (i + 1) c h

theorem canonical_uuid_text_shape (u : List Byte) (hu : u.length = 16) :
    (canonical_uuid_text u).length = 36 ∧
    (canonical_uuid_text u)[8]? = some 45 ∧ (canonical_uuid_text u)[13]? = some 45 ∧
    (canonical_uuid_text u)[18]? = some 45 ∧ (canonical_uuid_text u)[23]? = some 45 ∧
    (∀ c ∈ (canonical_uuid_text u).filter (fun c => c != 45), lower_hex c) ∧
    hex_bytes ((canonical_uuid_text u).filter (fun c => c != 45)) = u := by
  obtain ⟨hlen, _, hcan⟩ := uuid_fmt_16 u hu
  rw [← hcan]
  refine ⟨hlen, ?_, ?_, ?_, ?_, uuid_fmt_lower_hex u 0, hex_bytes_uuid_fmt u 0⟩
  all_goals
    obtain ⟨b0, b1, b2, b3, b4, b5, b6, b7, b8, b9, b10, b11, b12, b13, b14, b15, rfl⟩ :=
      list_length_16 u hu
    simp [uuid_fmt]

theorem uuid_compare_eq_zero {a b : List Byte} (ha : a.length = 16) (hb : b.length = 16) :
    uuid_compare a b = 0 ↔ a = b := by
  unfold uuid_compare
  have h1 : a.take 16 = a := by rw [← ha, List.take_length]
  have h2 : b.take 16 = b := by rw [← hb, List.take_length]
  rw [h1, h2]
  exact uuid_cmp_eq_zero a b (ha.trans hb.symm)

/-! ## Lemmas: outcomes of a read -/

/-- Every outcome of a read: it returns -1, or the locale calls succeeded, the
label check passed, the next byte was a colon, the callback returned 0 and
left a newline as the next byte, and the read returns 0 with the value the
callback stored. -/
theorem read_callback_cases {α : Type} (h : Host) (f : IFile) (label : Option (List Byte))
    (cb : Host → IFile → Int × Option α × IFile) :
    (read_callback h f label cb).rc = -1 ∨
    ∃ l body v rest, label = some l ∧ h.calls_ok ∧ (expect_label f (some l)).1 ≠ -1 ∧
      (expect_label f (some l)).2 = 58 :: body ∧ cb h.in_c body = (0, v, 10 :: rest) ∧
      read_callback h f label cb = ⟨0, v, restore_locale h.in_c h.locale, rest⟩ := by
  cases label with
  | none => left; simp [read_callback]
  | some l =>
    cases hq : h.query_ok with
    | false => left; simp [read_callback, hq]
    | true =>
    cases hd : h.strdup_ok with
    | false => left; simp [read_callback, hq, hd]
    | true =>
    cases hc : h.set_c_ok with
    | false => left; simp [read_callback, hq, hd, hc]
    | true =>
    rcases hE : expect_label f (some l) with ⟨lrc, f1⟩
    by_cases hl : lrc = -1
    · left; simp [read_callback, hq, hd, hc, hE, hl]
    · cases f1 with
      | nil => left; simp [read_callback, hq, hd, hc, hE, hl, fscanf_c]
      | cons c body =>
        by_cases hc58 : c = 58
        · subst hc58
          rcases hC : cb h.in_c body with ⟨crc, v, f3⟩
          by_cases hcrc : crc = -1
          · left; simp [read_callback, hq, hd, hc, hE, hl, fscanf_c, hC, hcrc]
          · cases f3 with
            | nil => left; simp [read_callback, hq, hd, hc, hE, hl, fscanf_c, hC, hcrc]
            | cons d rest =>
              by_cases hd10 : d = 10
              · subst hd10
                by_cases hcrc0 : crc = 0
                · subst hcrc0
                  right
                  refine ⟨l, body, v, rest, rfl, ⟨hq, hd, hc⟩, by rw [hE]; exact hl, by rw [hE], hC, ?_⟩
                  simp [read_callback, hq, hd, hc, hE, hl, fscanf_c, hC]
                · left; simp [read_callback, hq, hd, hc, hE, hl, fscanf_c, hC, hcrc, hcrc0]
              · left; simp [read_callback, hq, hd, hc, hE, hl, fscanf_c, hC, hcrc, hd10]
        · left; simp [read_callback, hq, hd, hc, hE, hl, fscanf_c, hc58]

theorem read_callback_rc_cases {α : Type} (h : Host) (f : IFile) (label : Option (List Byte))
    (cb : Host → IFile → Int × Option α × IFile) :
    (read_callback h f label cb).rc = 0 ∨ (read_callback h f label cb).rc = -1 := by
  rcases read_callback_cases h f label cb with h1 | ⟨_, _, _, _, _, _, _, _, _, h0⟩
  · exact Or.inr h1
  · left; rw [h0]

theorem read_callback_ok_inv {α : Type} {h : Host} {f : IFile} {label : Option (List Byte)}
    {cb : Host → IFile → Int × Option α × IFile}
    (hrc : (read_callback h f label cb).rc = 0) :
    ∃ l body v rest, label = some l ∧ h.calls_ok ∧ (expect_label f (some l)).1 ≠ -1 ∧
      (expect_label f (some l)).2 = 58 :: body ∧ cb h.in_c body = (0, v, 10 :: rest) ∧
      read_callback h f label cb = ⟨0, v, restore_locale h.in_c h.locale, rest⟩ := by
  rcases read_callback_cases h f label cb with h1 | h0
  · rw [h1] at hrc
    exact absurd hrc (by decide)
  · exact h0

theorem cstr_append_zero (p : List Byte) : cstr (p ++ [0]) = cstr p := by
  induction p with
  | nil => simp [cstr]
  | cons x xs ih =>
    rw [List.cons_append, cstr_cons, cstr_cons, ih]

theorem uuid_text_cstr (u : List Byte) : cstr (uuid_unparse u) = uuid_fmt 0 (u.take 16) := by
  unfold uuid_unparse
  exact cstr_append_zeros (uuid_fmt_cstring _ 0) 1

theorem uuid_writer_ok {u : List Byte} (hu : u.length = 16) (h : Host) {g : OFile}
    (hg : g.healthy) :
    ∃ g1, uuid_writer u h.in_c g = (0, g1) ∧ g1.healthy ∧ g1.data = g.data ++ uuid_fmt 0 u := by
  have htake : u.take 16 = u := by rw [← hu, List.take_length]
  refine ⟨g.accept (uuid_fmt 0 u), ?_, accept_healthy hg _, rfl⟩
  unfold uuid_writer
  simp [uuid_text_cstr, htake, fprintf_healthy hg]

theorem uuid_reader_ok {u : List Byte} (hu : u.length = 16) (h : Host) (tail : List Byte) :
    uuid_reader h (uuid_fmt 0 u ++ tail) = (0, some u, tail) := by
  obtain ⟨hlen, hchk, _⟩ := uuid_fmt_16 u hu
  have hne : uuid_fmt 0 u ≠ [] := by
    intro h0
    rw [h0] at hlen
    exact absurd hlen (by decide)
  have hscan : fscanf_c (uuid_fmt 0 u ++ tail) 36 = (1, uuid_fmt 0 u, tail) := by
    unfold fscanf_c
    cases hx : uuid_fmt 0 u with
    | nil => exact absurd hx hne
    | cons x xs =>
      rw [hx] at hlen
      simp only [List.cons_append]
      rw [← List.cons_append, ← hlen, List.take_left, List.drop_left]
  have hparse : uuid_parse (uuid_fmt 0 u ++ List.replicate (37 - (uuid_fmt 0 u).length) 0)
      = some u := by
    have hc := cstr_append_zeros (uuid_fmt_cstring u 0) (37 - (uuid_fmt 0 u).length)
    simp only [uuid_parse]
    rw [hc]
    simp [hlen, hchk, hex_bytes_uuid_fmt]
  unfold uuid_reader
  simp only [hscan, hparse]
  simp

theorem uuid_reader_ok_inv {h : Host} {f r : IFile} {v : Option (List Byte)}
    (hr : uuid_reader h f = (0, v, r)) : ∃ a, v = some a ∧ a.length = 16 := by
  unfold uuid_reader at hr
  simp only at hr
  split at hr
  · simp at hr
  · split at hr
    · simp at hr
    · rename_i uu hp
      refine ⟨uu, ?_, uuid_parse_length hp⟩
      have := congrArg (fun t => t.2.1) hr
      simpa using this.symm

theorem string_reader_ok_inv {h : Host} {f r : IFile} {v : Option (Option (List Byte))}
    (hr : string_reader h f = (0, v, r)) : ∃ payload, v = some (some (payload ++ [0])) := by
  unfold string_reader at hr
  simp only at hr
  split at hr
  · simp at hr
  · split at hr
    · simp at hr
    · split at hr
      · simp at hr
      · have := congrArg (fun t => t.2.1) hr
        exact ⟨_, by simpa using this.symm⟩

/-! ## Lemmas: rejected reads -/

theorem cstr_pad_prefix (g : List Byte) (k : Nat) : cstr (g ++ List.replicate k 0) <+: g := by
  induction g with
  | nil =>
    cases k with
    | zero => simp [cstr]
    | succ k => simp [List.replicate_succ, cstr_cons]
  | cons x xs ih =>
    rw [List.cons_append, cstr_cons]
    by_cases hx : x = 0
    · simp [hx]
    · rw [if_neg hx]
      exact (List.prefix_cons_inj x).mpr ih

/-- The label check of a read on a stream that does not start with the label
fails. -/
theorem expect_label_mismatch {l : List Byte} (hs : CString l)
    (hl : is_label_valid (some l) = 1) {f : IFile} (hf : f.take l.length ≠ l) :
    (expect_label f (some l)).1 = -1 := by
  unfold expect_label
  simp only [hl, strlen_eq_length hs]
  cases f with
  | nil => simp [fscanf_c]
  | cons c r =>
    have hscan : fscanf_c (c :: r) l.length
        = (1, (c :: r).take l.length, (c :: r).drop l.length) := rfl
    simp only [hscan]
    by_cases hcmp : strcmp l ((c :: r).take l.length
        ++ List.replicate (81 - ((c :: r).take l.length).length) 0) = 0
    · exfalso
      rw [strcmp_eq_zero_iff, cstr_eq_self hs] at hcmp
      have hpre := cstr_pad_prefix ((c :: r).take l.length)
        (81 - ((c :: r).take l.length).length)
      rw [← hcmp] at hpre
      have hlen : ((c :: r).take l.length).length ≤ l.length := by
        rw [List.length_take]
        exact Nat.min_le_left _ _
      exact hf (hpre.eq_of_length_le hlen).symm
    · rw [if_pos hcmp]
      simp

/-- The label check of a read passes exactly on the streams that start with
the label, and then consumes exactly the label. -/
theorem expect_label_inv {l : List Byte} (hs : CString l)
    (hl : is_label_valid (some l) = 1) {f : IFile} (hok : (expect_label f (some l)).1 ≠ -1) :
    f = l ++ (expect_label f (some l)).2 := by
  by_cases hf : f.take l.length = l
  · have hsplit : f = l ++ f.drop l.length := by
      conv_lhs => rw [← List.take_append_drop l.length f, hf]
    have hres := expect_label_ok hs hl (f.drop l.length)
    rw [← hsplit] at hres
    rw [hres]
    exact hsplit
  · exact absurd (expect_label_mismatch hs hl hf) hok

theorem read_callback_label_mismatch {α : Type} (h : Host) {l : List Byte} (hs : CString l)
    (hl : is_label_valid (some l) = 1) {f : IFile} (hf : f.take l.length ≠ l)
    (cb : Host → IFile → Int × Option α × IFile) :
    (read_callback h f (some l) cb).rc = -1 := by
  rcases read_callback_cases h f (some l) cb with h1 | ⟨l1, _, _, _, hl1, _, hok, _⟩
  · exact h1
  · have : l1 = l := (Option.some.inj hl1).symm
    subst this
    exact absurd (expect_label_mismatch hs hl hf) hok

theorem expect_unsigned_of_read_fails {h : Host} {f : IFile} {label : Option (List Byte)}
    (x : Nat) (hr : (read_unsigned h f label).rc = -1) : (expect_unsigned h f label x).rc = -1 := by
  unfold expect_unsigned
  simp [hr]

theorem expect_uuid_of_read_fails {h : Host} {f : IFile} {label : Option (List Byte)}
    (e : List Byte) (hr : (read_uuid h f label).rc = -1) : (expect_uuid h f label e).rc = -1 := by
  unfold expect_uuid
  simp [hr]

theorem expect_string_of_read_fails {h : Host} {f : IFile} {label : Option (List Byte)}
    (e : Option (List Byte)) (hr : (read_string h f label).rc = -1) :
    (expect_string h f label e).rc = -1 := by
  unfold expect_string
  cases e with
  | none => rfl
  | some e => simp [hr]

/-- A read on a stream where the label is not followed by a colon fails
before the callback runs: nothing is stored and the result does not depend on
the callback. -/
theorem read_callback_no_colon {α : Type} (h : Host) {l : List Byte} (hs : CString l)
    (hl : is_label_valid (some l) = 1) {tail : List Byte} (ht : ∀ c ∈ tail.head?, c ≠ 58)
    (cb : Host → IFile → Int × Option α × IFile) :
    read_callback h (l ++ tail) (some l) cb =
      if h.query_ok = true ∧ h.strdup_ok = true then
        (if h.set_c_ok = true then ⟨-1, none, restore_locale h.in_c h.locale, tail.tail⟩
         else ⟨-1, none, restore_locale h h.locale, l ++ tail⟩)
      else ⟨-1, none, h, l ++ tail⟩ := by
  cases hq : h.query_ok with
  | false => simp [read_callback, hq]
  | true =>
  cases hd : h.strdup_ok with
  | false => simp [read_callback, hq, hd]
  | true =>
  cases hc : h.set_c_ok with
  | false => simp [read_callback, hq, hd, hc]
  | true =>
    cases tail with
    | nil =>
      have hlab := expect_label_ok hs hl []
      rw [List.append_nil] at hlab
      simp [read_callback, hq, hd, hc, hlab, fscanf_c]
    | cons c r =>
      have hc58 : c ≠ 58 := ht c (by simp)
      simp [read_callback, hq, hd, hc, expect_label_ok hs hl, fscanf_c, hc58]

/-- A read whose callback returns 0 but does not leave a newline as the next
byte fails; what the callback stored stays stored. -/
theorem read_callback_no_newline {α : Type} (h : Host) {l : List Byte} (hs : CString l)
    (hl : is_label_valid (some l) = 1) {body after : List Byte} {v : Option α}
    {cb : Host → IFile → Int × Option α × IFile}
    (hcb : cb h.in_c body = (0, v, after)) (ha : ∀ c ∈ after.head?, c ≠ 10) :
    (read_callback h (l ++ 58 :: body) (some l) cb).rc = -1 ∧
    (h.calls_ok → (read_callback h (l ++ 58 :: body) (some l) cb).value = v) := by
  cases hq : h.query_ok with
  | false => simp [read_callback, hq, Host.calls_ok]
  | true =>
  cases hd : h.strdup_ok with
  | false => simp [read_callback, hq, hd, Host.calls_ok]
  | true =>
  cases hc : h.set_c_ok with
  | false => simp [read_callback, hq, hd, hc, Host.calls_ok]
  | true =>
    cases after with
    | nil => simp [read_callback, hq, hd, hc, expect_label_ok hs hl, fscanf_c, hcb]
    | cons c r =>
      have hc10 : c ≠ 10 := ha c (by simp)
      simp [read_callback, hq, hd, hc, expect_label_ok hs hl, fscanf_c, hcb, hc10]

/-- On a stream that starts with the label and a colon, the callback runs on
what follows the colon: if it returns 0 and leaves a newline, the read returns
0; in every other case the read returns -1. -/
theorem read_callback_body {α : Type} (h : Host) {l : List Byte} (hs : CString l)
    (hl : is_label_valid (some l) = 1) (body : List Byte)
    (cb : Host → IFile → Int × Option α × IFile) :
    (read_callback h (l ++ 58 :: body) (some l) cb).rc = -1 ∨
    (h.calls_ok ∧ ∃ v rest, cb h.in_c body = (0, v, 10 :: rest) ∧
      read_callback h (l ++ 58 :: body) (some l) cb
        = ⟨0, v, restore_locale h.in_c h.locale, rest⟩) := by
  rcases read_callback_cases h (l ++ 58 :: body) (some l) cb with
    h1 | ⟨l1, body1, v, rest, hl1, hok, _, hbody, hcb, hres⟩
  · exact Or.inl h1
  · right
    have : l1 = l := (Option.some.inj hl1).symm
    subst this
    rw [expect_label_ok hs hl] at hbody
    have hb : body = body1 := List.tail_eq_of_cons_eq hbody
    subst hb
    exact ⟨hok, v, rest, hcb, hres⟩

theorem read_callback_cb_fails {α : Type} (h : Host) {l : List Byte} (hs : CString l)
    (hl : is_label_valid (some l) = 1) {body : List Byte}
    {cb : Host → IFile → Int × Option α × IFile} (hcb : (cb h.in_c body).1 ≠ 0) :
    (read_callback h (l ++ 58 :: body) (some l) cb).rc = -1 := by
  rcases read_callback_body h hs hl body cb with h1 | ⟨_, v, rest, hv, _⟩
  · exact h1
  · rw [hv] at hcb
    exact absurd rfl hcb

theorem fread_short {p : List Byte} {n : Nat} (hp : p.length < n) : fread p n = (0, p, []) := by
  unfold fread
  have h0 : n ≠ 0 := by omega
  have h1 : ¬ n ≤ p.length := by omega
  simp [h0, h1]

theorem scan_llu_in_c (h : Host) (f : IFile) : scan_llu h.in_c f = scan_llu_C f := rfl

theorem dropWhile_all_append (p : Byte → Bool) (X : List Byte) :
    ∀ ws : List Byte, (∀ c ∈ ws, p c = true) → (ws ++ X).dropWhile p = X.dropWhile p
  | [], _ => rfl
  | c :: ws, h => by
    have hc : p c = true := h c (List.mem_cons_self _ _)
    rw [List.cons_append, List.dropWhile_cons, hc]
    exact dropWhile_all_append p X ws (fun x hx => h x (List.mem_cons_of_mem _ hx))

/-- White space before a number is skipped by the conversion. -/
theorem scan_llu_C_skip {ws : List Byte} (hws : ∀ c ∈ ws, isspace c = true) (X : List Byte) :
    scan_llu_C (ws ++ X) = scan_llu_C X := by
  unfold scan_llu_C
  rw [dropWhile_all_append isspace X ws hws]

/-- The conversion on a sign followed by a run of digits. -/
theorem scan_llu_C_signed {sg ds tail : List Byte} (hsg : is_sign sg) (hne : ds ≠ [])
    (hds : ∀ d ∈ ds, isdigit d = true) (ht : ∀ c ∈ tail.head?, isdigit c = false) :
    scan_llu_C (sg ++ ds ++ tail) = (1, some (strtoull (decide (sg = [45])) ds), tail) := by
  obtain ⟨htake, hdrop⟩ := takeWhile_dropWhile_run isdigit tail ht ds hds
  have hemp : ds.isEmpty = false := by
    cases ds with
    | nil => exact absurd rfl hne
    | cons _ _ => rfl
  rcases hsg with h0 | hp | hm
  · subst h0
    rw [List.nil_append, scan_llu_C_digits hne hds ht]
    rfl
  · subst hp
    unfold scan_llu_C
    have hsp : isspace 43 = false := by decide
    simp only [List.cons_append, List.nil_append, List.dropWhile_cons, hsp]
    simp [htake, hdrop, hemp]
  · subst hm
    unfold scan_llu_C
    have hsp : isspace 45 = false := by decide
    simp only [List.cons_append, List.nil_append, List.dropWhile_cons, hsp]
    simp [htake, hdrop, hemp]

/-- Every input on which the conversion stores a value: white space, an
optional sign, a run of digits, and a rest that does not start with a digit. -/
theorem scan_llu_C_inv {f r : List Byte} {v : Option Nat} (hscan : scan_llu_C f = (1, v, r)) :
    ∃ ws sg ds, f = ws ++ sg ++ ds ++ r ∧ (∀ c ∈ ws, isspace c = true) ∧ is_sign sg ∧ ds ≠ [] ∧
      (∀ d ∈ ds, isdigit d = true) ∧ (∀ c ∈ r.head?, isdigit c = false) ∧
      v = some (strtoull (decide (sg = [45])) ds) := by
  have hsplit : f = f.takeWhile isspace ++ f.dropWhile isspace :=
    (List.takeWhile_append_dropWhile isspace f).symm
  have hws : ∀ c ∈ f.takeWhile isspace, isspace c = true := fun c hc => List.mem_takeWhile_imp hc
  unfold scan_llu_C at hscan
  cases hdw : f.dropWhile isspace with
  | nil => rw [hdw] at hscan; simp at hscan
  | cons c r0 =>
    rw [hdw] at hscan
    simp only at hscan
    -- the text after the sign
    generalize hs : (if (c == 45 || c == 43) = true then r0 else c :: r0) = s at hscan
    have hsd : s = s.takeWhile isdigit ++ s.dropWhile isdigit :=
      (List.takeWhile_append_dropWhile isdigit s).symm
    have hdig : ∀ d ∈ s.takeWhile isdigit, isdigit d = true := fun d hd => List.mem_takeWhile_imp hd
    by_cases hemp : (s.takeWhile isdigit).isEmpty = true
    · rw [if_pos hemp] at hscan
      simp at hscan
    · rw [if_neg hemp] at hscan
      have hne : s.takeWhile isdigit ≠ [] := fun h0 => hemp (by rw [h0]; rfl)
      have hv : v = some (strtoull (c == 45) (s.takeWhile isdigit)) := by
        have := congrArg (fun t => t.2.1) hscan
        exact this.symm
      have hr : r = s.dropWhile isdigit := by
        have := congrArg (fun t => t.2.2) hscan
        exact this.symm
      have hrhead : ∀ x ∈ r.head?, isdigit x = false := by
        intro x hx
        rw [hr] at hx
        cases hdd : s.dropWhile isdigit with
        | nil => rw [hdd] at hx; simp at hx
        | cons y ys =>
          rw [hdd] at hx
          simp only [List.head?_cons, Option.mem_def, Option.some.injEq] at hx
          subst hx
          have := List.head_dropWhile_not isdigit s (by rw [hdd]; simp)
          simpa [hdd] using this
      by_cases hsign : (c == 45 || c == 43) = true
      · rw [if_pos hsign] at hs
        subst hs
        refine ⟨f.takeWhile isspace, [c], r0.takeWhile isdigit, ?_, hws, ?_, hne, hdig, hrhead, ?_⟩
        · rw [hr]
          conv_lhs => rw [hsplit, hdw, hsd]
          simp
        · simp only [Bool.or_eq_true, beq_iff_eq] at hsign
          rcases hsign with h45 | h43
          · right; right; rw [h45]
          · right; left; rw [h43]
        · rw [hv]
          congr 2
          by_cases h45 : c = 45 <;> simp [h45]
      · rw [if_neg hsign] at hs
        subst hs
        refine ⟨f.takeWhile isspace, [], (c :: r0).takeWhile isdigit, ?_, hws, Or.inl rfl, hne,
          hdig, hrhead, ?_⟩
        · rw [hr]
          conv_lhs => rw [hsplit, hdw, hsd]
          simp
        · rw [hv]
          simp only [Bool.or_eq_true, beq_iff_eq, not_or] at hsign
          have h45 : (c == 45) = false := by simpa using hsign.1
          rw [h45]
          simp

theorem isdigit_newline_head (X : List Byte) :
    ∀ c ∈ (10 :: X : List Byte).head?, isdigit c = false := by
  intro c hc
  simp only [List.head?_cons, Option.mem_def, Option.some.injEq] at hc
  subst hc
  decide

/-- What `unsigned_reader` stores on white space, an optional sign and a run
of digits that a newline follows. -/
theorem unsigned_reader_signed (h : Host) {ws sg ds : List Byte}
    (hws : ∀ c ∈ ws, isspace c = true) (hsg : is_sign sg) (hne : ds ≠ [])
    (hds : ∀ d ∈ ds, isdigit d = true) (rest : List Byte) :
    unsigned_reader h.in_c (ws ++ sg ++ ds ++ 10 :: rest)
      = (0, some (strtoull (decide (sg = [45])) ds), 10 :: rest) := by
  have hscan : scan_llu_C (ws ++ sg ++ ds ++ 10 :: rest)
      = (1, some (strtoull (decide (sg = [45])) ds), 10 :: rest) := by
    rw [List.append_assoc, List.append_assoc, scan_llu_C_skip hws, ← List.append_assoc]
    exact scan_llu_C_signed hsg hne hds (isdigit_newline_head rest)
  unfold unsigned_reader fscanf_llu
  rw [scan_llu_in_c, hscan]
  simp

/-- When `unsigned_reader` succeeds in the "C" locale the conversion stored a
value. -/
theorem unsigned_reader_inv {h : Host} {f r : IFile} {v : Option Nat}
    (hr : unsigned_reader h.in_c f = (0, v, r)) : scan_llu_C f = (1, v, r) := by
  unfold unsigned_reader fscanf_llu at hr
  rw [scan_llu_in_c] at hr
  rcases hsc : scan_llu_C f with ⟨n, v1, r1⟩
  rw [hsc] at hr
  simp only at hr
  by_cases hn : n ≠ 1
  · rw [if_pos hn] at hr
    simp at hr
  · rw [if_neg hn] at hr
    have hn1 : n = 1 := not_not.mp hn
    have h1 := congrArg (fun t => t.2.1) hr
    have h2 := congrArg (fun t => t.2.2) hr
    simp only at h1 h2
    rw [hn1, h1, h2]

/-- A number too large for 64 bits is read as the largest 64-bit value. -/
theorem read_unsigned_saturates (h : Host) (L d rest : List Byte) (hh : h.calls_ok)
    (hs : CString L) (hL : is_label_valid (some L) = 1) (hne : d ≠ [])
    (hd : ∀ c ∈ d, isdigit c = true) (hbig : digits_value d > 2 ^ 64 - 1) :
    read_unsigned h (L ++ 58 :: (d ++ 10 :: rest)) (some L)
      = ⟨0, some ULLONG_MAX, restore_locale h.in_c h.locale, rest⟩ := by
  have hcb : unsigned_reader h.in_c (d ++ 10 :: rest) = (0, some ULLONG_MAX, 10 :: rest) := by
    have := @unsigned_reader_signed h [] [] d (fun _ hc => by simp at hc)
      (Or.inl rfl) hne hd rest
    simp only [List.nil_append] at this
    rw [this]
    have hst : strtoull (decide (([] : List Byte) = [45])) d = ULLONG_MAX := by
      unfold strtoull
      have hb : digits_value d > ULLONG_MAX := hbig
      simp [hb]
    rw [hst]
  exact read_callback_ok hh hs hL hcb

/-- The streams `read_unsigned` accepts. -/
theorem read_unsigned_ok_iff (h : Host) (f : IFile) (L : List Byte) (hs : CString L)
    (hL : is_label_valid (some L) = 1) :
    (read_unsigned h f (some L)).rc = 0 ↔
      h.calls_ok ∧ ∃ ws sg ds rest, f = L ++ 58 :: (ws ++ sg ++ ds ++ 10 :: rest) ∧
        (∀ c ∈ ws, isspace c = true) ∧ is_sign sg ∧ ds ≠ [] ∧ (∀ d ∈ ds, isdigit d = true) ∧
        read_unsigned h f (some L)
          = ⟨0, some (strtoull (decide (sg = [45])) ds), restore_locale h.in_c h.locale, rest⟩ := by
  constructor
  · intro hrc
    obtain ⟨l, body, v, rest, hlab, hh, hE, hbody, hcb, hres⟩ := read_callback_ok_inv hrc
    cases hlab
    have hf := expect_label_inv hs hL hE
    rw [hbody] at hf
    obtain ⟨ws, sg, ds, hsplit, hws, hsg, hne, hds, _, hv⟩ :=
      scan_llu_C_inv (unsigned_reader_inv hcb)
    refine ⟨hh, ws, sg, ds, rest, ?_, hws, hsg, hne, hds, ?_⟩
    · rw [hf, hsplit]
    · have hres1 : read_unsigned h f (some L) = ⟨0, v, restore_locale h.in_c h.locale, rest⟩ := hres
      rw [hres1, hv]
  · rintro ⟨_, _, _, _, _, _, _, _, _, _, hres⟩
    rw [hres]

/-! ## Lemmas: the grammar of length-prefixed records -/

theorem fread_inv {f got r : IFile} {n : Nat} (hr : fread f n = (1, got, r)) :
    f = got ++ r ∧ got.length = n := by
  unfold fread at hr
  by_cases h0 : n = 0
  · rw [if_pos h0] at hr
    simp at hr
  · rw [if_neg h0] at hr
    by_cases hle : n ≤ f.length
    · rw [if_pos hle] at hr
      have h1 := congrArg (fun t => t.2.1) hr
      have h2 := congrArg (fun t => t.2.2) hr
      simp only at h1 h2
      rw [← h1, ← h2]
      exact ⟨(List.take_append_drop n f).symm, by rw [List.length_take]; omega⟩
    · rw [if_neg hle] at hr
      simp at hr

theorem uuid_check_iff : ∀ (t : List Byte) (k : Nat), uuid_check k t = true ↔
    ∀ i c, t[i]? = some c →
      if k + i = 8 ∨ k + i = 13 ∨ k + i = 18 ∨ k + i = 23 then c = 45 else isxdigit c = true
  | [], k => by simp [uuid_check]
  | x :: xs, k => by
    unfold uuid_check
    rw [Bool.and_eq_true, uuid_check_iff xs (k + 1)]
    constructor
    · rintro ⟨hx, hrest⟩ i c hi
      cases i with
      | zero =>
        simp only [List.getElem?_cons_zero, Option.some.injEq] at hi
        subst hi
        simp only [Nat.add_zero]
        by_cases hk : k = 8 ∨ k = 13 ∨ k = 18 ∨ k = 23
        · rw [if_pos hk] at hx ⊢
          simpa using hx
        · rw [if_neg hk] at hx ⊢
          exact hx
      | succ j =>
        simp only [List.getElem?_cons_succ] at hi
        have := hrest j c hi
        rw [show k + 1 + j = k + (j + 1) by omega] at this
        exact this
    · intro hall
      constructor
      · have := hall 0 x (by simp)
        simp only [Nat.add_zero] at this
        by_cases hk : k = 8 ∨ k = 13 ∨ k = 18 ∨ k = 23
        · rw [if_pos hk] at this ⊢
          simpa using this
        · rw [if_neg hk] at this ⊢
          exact this
      · intro i c hi
        have := hall (i + 1) c (by simpa using hi)
        rw [show k + (i + 1) = k + 1 + i by omega] at this
        exact this

theorem uuid_text_ok_iff (t : List Byte) :
    uuid_text_ok t ↔ t.length = 36 ∧ uuid_check 0 t = true := by
  unfold uuid_text_ok
  rw [uuid_check_iff t 0]
  simp only [Nat.zero_add, Option.mem_def]
  constructor
  · rintro ⟨hlen, hall⟩
    refine ⟨hlen, fun i c hi => hall i ?_ c hi⟩
    by_contra hge
    rw [List.getElem?_eq_none (by omega)] at hi
    exact absurd hi (by simp)
  · rintro ⟨hlen, hall⟩
    exact ⟨hlen, fun i _ c hi => hall i c hi⟩

theorem isxdigit_ne_zero {c : Byte} (h : isxdigit c = true) : c ≠ 0 := by
  intro h0
  rw [h0] at h
  exact absurd h (by decide)

theorem uuid_check_cstring : ∀ (t : List Byte) (k : Nat), uuid_check k t = true → CString t
  | [], _, _ => by simp [CString]
  | x :: xs, k, h => by
    unfold uuid_check at h
    rw [Bool.and_eq_true] at h
    have hxs : CString xs := uuid_check_cstring xs (k + 1) h.2
    have hx : x ≠ 0 := by
      by_cases hk : k = 8 ∨ k = 13 ∨ k = 18 ∨ k = 23
      · have h1 := h.1
        rw [if_pos hk] at h1
        have : x = 45 := by simpa using h1
        rw [this]
        decide
      · have h1 := h.1
        rw [if_neg hk] at h1
        exact isxdigit_ne_zero h1
    unfold CString at hxs ⊢
    simp only [List.mem_cons, not_or]
    exact ⟨fun h0 => hx h0.symm, hxs⟩

/-- What `uuid_reader` stores on a well-formed UUID text. -/
theorem uuid_reader_text {t : List Byte} (ht : uuid_text_ok t) (h : Host) (tail : List Byte) :
    uuid_reader h (t ++ tail) = (0, some (hex_bytes (t.filter (fun c => c != 45))), tail) := by
  obtain ⟨hlen, hchk⟩ := (uuid_text_ok_iff t).mp ht
  have hscan : fscanf_c (t ++ tail) 36 = (1, t, tail) := by
    unfold fscanf_c
    cases hx : t with
    | nil => rw [hx] at hlen; exact absurd hlen (by decide)
    | cons x xs =>
      rw [hx] at hlen
      simp only [List.cons_append]
      rw [← List.cons_append, ← hlen, List.take_left, List.drop_left]
  have hparse : uuid_parse (t ++ List.replicate (37 - t.length) 0)
      = some (hex_bytes (t.filter (fun c => c != 45))) := by
    have hc := cstr_append_zeros (uuid_check_cstring t 0 hchk) (37 - t.length)
    simp only [uuid_parse]
    rw [hc]
    simp [hlen, hchk]
  unfold uuid_reader
  simp only [hscan, hparse]
  simp

/-- The inputs on which `uuid_reader` succeeds. -/
theorem uuid_reader_grammar {h : Host} {f r : IFile} {v : Option (List Byte)}
    (hr : uuid_reader h f = (0, v, r)) : ∃ t, f = t ++ r ∧ uuid_text_ok t := by
  unfold uuid_reader at hr
  cases f with
  | nil => simp [fscanf_c] at hr
  | cons c cs =>
    have hscan : fscanf_c (c :: cs) 36 = (1, (c :: cs).take 36, (c :: cs).drop 36) := rfl
    rw [hscan] at hr
    simp only at hr
    generalize hg : (c :: cs).take 36 = got at hr
    have hgl : got.length ≤ 36 := by
      rw [← hg, List.length_take]
      exact Nat.min_le_left _ _
    cases hp : uuid_parse (got ++ List.replicate (37 - got.length) 0) with
    | none =>
      rw [hp] at hr
      simp at hr
    | some uu =>
      rw [hp] at hr
      simp only [ne_eq, not_true_eq_false, if_false] at hr
      have h2 := congrArg (fun t => t.2.2) hr
      simp only at h2
      unfold uuid_parse at hp
      simp only at hp
      by_cases hlen : (cstr (got ++ List.replicate (37 - got.length) 0)).length ≠ 36
      · rw [if_pos hlen] at hp
        simp at hp
      · rw [if_neg hlen] at hp
        have hlen36 := not_not.mp hlen
        by_cases hchk : (!uuid_check 0 (cstr (got ++ List.replicate (37 - got.length) 0))) = true
        · rw [if_pos hchk] at hp
          simp at hp
        · rw [if_neg hchk] at hp
          have hpre := cstr_pad_prefix got (37 - got.length)
          have heq : cstr (got ++ List.replicate (37 - got.length) 0) = got :=
            hpre.eq_of_length_le (by rw [hlen36]; exact hgl)
          rw [heq] at hlen36 hchk
          refine ⟨got, ?_, (uuid_text_ok_iff got).mpr ⟨hlen36, by simpa using hchk⟩⟩
          rw [← h2, ← hg]
          exact (List.take_append_drop 36 (c :: cs)).symm

/-! ## Lemmas: the locale -/

theorem restore_locale_locale {h : Host} (hr : h.restore_ok = true) (old : Locale) :
    (restore_locale h old).locale = old := by
  unfold restore_locale
  simp [hr]

theorem restore_locale_in_c {h : Host} (hr : h.restore_ok = true) :
    (restore_locale h.in_c h.locale).locale = h.locale :=
  restore_locale_locale (h := h.in_c) hr h.locale

theorem with_locale_in_c (h : Host) (l : Locale) : (h.with_locale l).in_c = h.in_c := rfl

/-- A write leaves the locale as it found it when the restoring call succeeds,
and its return code and its effect on the stream do not depend on the locale
it starts in. -/
theorem write_callback_frame (h : Host) (f : OFile) (label : Option (List Byte))
    (cb : Host → OFile → Int × OFile) (l : Locale) :
    (h.restore_ok = true → (write_callback h f label cb).host.locale = h.locale) ∧
    (write_callback (h.with_locale l) f label cb).rc = (write_callback h f label cb).rc ∧
    (write_callback (h.with_locale l) f label cb).file = (write_callback h f label cb).file := by
  have hq1 : (h.with_locale l).query_ok = h.query_ok := rfl
  have hd1 : (h.with_locale l).strdup_ok = h.strdup_ok := rfl
  have hc1 : (h.with_locale l).set_c_ok = h.set_c_ok := rfl
  cases label with
  | none => simp [write_callback]
  | some lab =>
    by_cases hv : is_label_valid (some lab) = 0
    · simp [write_callback, hv]
    · cases hq : h.query_ok with
      | false => simp [write_callback, hv, hq, hq1]
      | true =>
      cases hd : h.strdup_ok with
      | false => simp [write_callback, hv, hq, hq1, hd, hd1]
      | true =>
      cases hc : h.set_c_ok with
      | false =>
        refine ⟨fun hr => ?_, ?_, ?_⟩
        · have := restore_locale_locale hr h.locale
          simp [write_callback, hv, hq, hd, hc, this]
        · simp [write_callback, hv, hq, hq1, hd, hd1, hc, hc1]
        · simp [write_callback, hv, hq, hq1, hd, hd1, hc, hc1]
      | true =>
        rcases hC : cb h.in_c (fprintf f (cstr lab ++ [58])).2 with ⟨crc, f2⟩
        by_cases hcrc : crc = -1
        · refine ⟨fun hr => ?_, ?_, ?_⟩
          · have := restore_locale_in_c hr
            simp [write_callback, hv, hq, hd, hc, hC, hcrc, this]
          · simp [write_callback, hv, hq, hq1, hd, hd1, hc, hc1, with_locale_in_c, hC, hcrc]
          · simp [write_callback, hv, hq, hq1, hd, hd1, hc, hc1, with_locale_in_c, hC, hcrc]
        · refine ⟨fun hr => ?_, ?_, ?_⟩
          · have := restore_locale_in_c hr
            simp [write_callback, hv, hq, hd, hc, hC, hcrc, this]
          · simp [write_callback, hv, hq, hq1, hd, hd1, hc, hc1, with_locale_in_c, hC, hcrc]
          · simp [write_callback, hv, hq, hq1, hd, hd1, hc, hc1, with_locale_in_c, hC, hcrc]

/-- A read leaves the locale as it found it when the restoring call succeeds,
and its return code, the value it stores and what it consumes do not depend on
the locale it starts in. -/
theorem read_callback_frame {α : Type} (h : Host) (f : IFile) (label : Option (List Byte))
    (cb : Host → IFile → Int × Option α × IFile) (l : Locale) :
    (h.restore_ok = true → (read_callback h f label cb).host.locale = h.locale) ∧
    (read_callback (h.with_locale l) f label cb).rc = (read_callback h f label cb).rc ∧
    (read_callback (h.with_locale l) f label cb).value = (read_callback h f label cb).value ∧
    (read_callback (h.with_locale l) f label cb).file = (read_callback h f label cb).file := by
  have hq1 : (h.with_locale l).query_ok = h.query_ok := rfl
  have hd1 : (h.with_locale l).strdup_ok = h.strdup_ok := rfl
  have hc1 : (h.with_locale l).set_c_ok = h.set_c_ok := rfl
  cases label with
  | none => simp [read_callback]
  | some lab =>
    cases hq : h.query_ok with
    | false => simp [read_callback, hq, hq1]
    | true =>
    cases hd : h.strdup_ok with
    | false => simp [read_callback, hq, hq1, hd, hd1]
    | true =>
    cases hc : h.set_c_ok with
    | false =>
      refine ⟨fun hr => ?_, ?_, ?_, ?_⟩
      · have := restore_locale_locale hr h.locale
        simp [read_callback, hq, hd, hc, this]
      all_goals simp [read_callback, hq, hq1, hd, hd1, hc, hc1]
    | true =>
      rcases hE : expect_label f (some lab) with ⟨lrc, f1⟩
      by_cases hl : lrc = -1
      · refine ⟨fun hr => ?_, ?_, ?_, ?_⟩
        · have := restore_locale_in_c hr
          simp [read_callback, hq, hd, hc, hE, hl, this]
        all_goals simp [read_callback, hq, hq1, hd, hd1, hc, hc1, with_locale_in_c, hE, hl]
      · cases f1 with
        | nil =>
          refine ⟨fun hr => ?_, ?_, ?_, ?_⟩
          · have := restore_locale_in_c hr
            simp [read_callback, hq, hd, hc, hE, hl, fscanf_c, this]
          all_goals
            simp [read_callback, hq, hq1, hd, hd1, hc, hc1, with_locale_in_c, hE, hl, fscanf_c]
        | cons c body =>
          by_cases hc58 : c = 58
          · subst hc58
            rcases hC : cb h.in_c body with ⟨crc, v, f3⟩
            by_cases hcrc : crc = -1
            · refine ⟨fun hr => ?_, ?_, ?_, ?_⟩
              · have := restore_locale_in_c hr
                simp [read_callback, hq, hd, hc, hE, hl, fscanf_c, hC, hcrc, this]
              all_goals
                simp [read_callback, hq, hq1, hd, hd1, hc, hc1, with_locale_in_c, hE, hl,
                  fscanf_c, hC, hcrc]
            · cases f3 with
              | nil =>
                refine ⟨fun hr => ?_, ?_, ?_, ?_⟩
                · have := restore_locale_in_c hr
                  simp [read_callback, hq, hd, hc, hE, hl, fscanf_c, hC, hcrc, this]
                all_goals
                  simp [read_callback, hq, hq1, hd, hd1, hc, hc1, with_locale_in_c, hE, hl,
                    fscanf_c, hC, hcrc]
              | cons d rest =>
                refine ⟨fun hr => ?_, ?_, ?_, ?_⟩
                · have := restore_locale_in_c hr
                  simp [read_callback, hq, hd, hc, hE, hl, fscanf_c, hC, hcrc, this]
                all_goals
                  simp [read_callback, hq, hq1, hd, hd1, hc, hc1, with_locale_in_c, hE, hl,
                    fscanf_c, hC, hcrc]
          · refine ⟨fun hr => ?_, ?_, ?_, ?_⟩
            · have := restore_locale_in_c hr
              simp [read_callback, hq, hd, hc, hE, hl, fscanf_c, hc58, this]
            all_goals
              simp [read_callback, hq, hq1, hd, hd1, hc, hc1, with_locale_in_c, hE, hl,
                fscanf_c, hc58]

/-! ## Lemmas: rejected labels -/

/-- A write with a label that `is_label_valid` rejects returns -1 at once: the
locale and the stream are untouched. -/
theorem write_callback_invalid (h : Host) (f : OFile) {label : Option (List Byte)}
    (hbad : is_label_valid label = 0) (cb : Host → OFile → Int × OFile) :
    write_callback h f label cb = ⟨-1, h, f⟩ := by
  cases label with
  | none => rfl
  | some l => simp [write_callback, hbad]

/-- The label check of a read fails on a label that `is_label_valid` rejects,
without reading. -/
theorem expect_label_invalid (f : IFile) {label : Option (List Byte)}
    (hbad : is_label_valid label = 0) : expect_label f label = (-1, f) := by
  cases label with
  | none => rfl
  | some l => simp [expect_label, hbad]

/-- A read with a label that `is_label_valid` rejects returns -1, stores
nothing and consumes nothing. -/
theorem read_callback_invalid {α : Type} (h : Host) (f : IFile) {label : Option (List Byte)}
    (hbad : is_label_valid label = 0) (cb : Host → IFile → Int × Option α × IFile) :
    (read_callback h f label cb).rc = -1 ∧ (read_callback h f label cb).value = none ∧
    (read_callback h f label cb).file = f := by
  cases label with
  | none => simp [read_callback]
  | some l =>
    have hE := expect_label_invalid f hbad
    cases hq : h.query_ok with
    | false => simp [read_callback, hq]
    | true =>
    cases hd : h.strdup_ok with
    | false => simp [read_callback, hq, hd]
    | true =>
    cases hc : h.set_c_ok with
    | false => simp [read_callback, hq, hd, hc]
    | true => simp [read_callback, hq, hd, hc, hE]

theorem expect_unsigned_invalid (h : Host) (f : IFile) {label : Option (List Byte)}
    (hbad : is_label_valid label = 0) (x : Nat) :
    (expect_unsigned h f label x).rc = -1 ∧ (expect_unsigned h f label x).file = f := by
  obtain ⟨hrc, _, hfile⟩ := read_callback_invalid h f hbad unsigned_reader
  have hrc1 : (read_unsigned h f label).rc = -1 := hrc
  have hf1 : (read_unsigned h f label).file = f := hfile
  unfold expect_unsigned
  simp [hrc1, hf1]

theorem expect_uuid_invalid (h : Host) (f : IFile) {label : Option (List Byte)}
    (hbad : is_label_valid label = 0) (e : List Byte) :
    (expect_uuid h f label e).rc = -1 ∧ (expect_uuid h f label e).file = f := by
  obtain ⟨hrc, _, hfile⟩ := read_callback_invalid h f hbad uuid_reader
  have hrc1 : (read_uuid h f label).rc = -1 := hrc
  have hf1 : (read_uuid h f label).file = f := hfile
  unfold expect_uuid
  simp [hrc1, hf1]

theorem expect_string_invalid (h : Host) (f : IFile) {label : Option (List Byte)}
    (hbad : is_label_valid label = 0) (e : Option (List Byte)) :
    (expect_string h f label e).rc = -1 ∧ (expect_string h f label e).file = f := by
  obtain ⟨hrc, _, hfile⟩ := read_callback_invalid h f hbad string_reader
  have hrc1 : (read_string h f label).rc = -1 := hrc
  have hf1 : (read_string h f label).file = f := hfile
  cases e with
  | none => exact ⟨rfl, rfl⟩
  | some e =>
    unfold expect_string
    simp [hrc1, hf1]

/-! ## Lemmas: records of length zero -/

/-- Reading a record of declared length 0 fails: `fread` with a zero size
returns 0. -/
theorem read_zero_length_fails (h : Host) {L : List Byte} (hs : CString L)
    (hL : is_label_valid (some L) = 1) (rest : List Byte) :
    (read_blob h (L ++ 58 :: (utoa 0 ++ 58 :: 10 :: rest)) (some L)).rc = -1 ∧
    (read_string h (L ++ 58 :: (utoa 0 ++ 58 :: 10 :: rest)) (some L)).rc = -1 := by
  constructor
  · refine read_callback_cb_fails h hs hL ?_
    have : (blob_reader h.in_c (utoa 0 ++ 58 :: 10 :: rest)).1 = -1 := by
      unfold blob_reader
      simp only [fscanf_llu_colon_ok h (by decide : 0 < 2 ^ 64), Option.getD_some]
      cases h.in_c.malloc_ok 0 <;> simp [fread]
    rw [this]
    decide
  · refine read_callback_cb_fails h hs hL ?_
    have : (string_reader h.in_c (utoa 0 ++ 58 :: 10 :: rest)).1 = -1 := by
      unfold string_reader
      simp only [fscanf_llu_colon_ok h (by decide : 0 < 2 ^ 64), Option.getD_some]
      cases h.in_c.malloc_ok ((0 + 1) % 2 ^ 64) <;> simp [fread]
    rw [this]
    decide

/-! ## Lemmas: failed writes -/

/-- What a call of `fprintf` leaves on the stream: the text when it succeeds,
a prefix of the text when it fails. -/
theorem fprintf_data (g : OFile) (t : List Byte) :
    (0 ≤ (fprintf g t).1 ∧ (fprintf g t).2.data = g.data ++ t) ∨
    ((fprintf g t).1 = -1 ∧ ∃ k, (fprintf g t).2.data = g.data ++ t.take k) := by
  rcases g with ⟨d, sc⟩
  unfold fprintf
  cases sc with
  | nil => left; simp
  | cons o sc =>
    cases o with
    | none => left; simp
    | some k => right; exact ⟨rfl, k, rfl⟩

/-- What a call of `fwrite` leaves on the stream: the `size` bytes when it
returns 1, a prefix of them when it returns 0. -/
theorem fwrite_data (g : OFile) (data : List Byte) (size : Nat) :
    ((fwrite g data size).1 = 1 ∧ (fwrite g data size).2.data = g.data ++ data.take size) ∨
    ((fwrite g data size).1 = 0 ∧
      ∃ k, (fwrite g data size).2.data = g.data ++ (data.take size).take k) := by
  rcases g with ⟨d, sc⟩
  unfold fwrite
  by_cases h0 : size = 0
  · right
    simp [h0]
  · rw [if_neg h0]
    cases sc with
    | nil => left; simp
    | cons o sc =>
      cases o with
      | none => left; simp
      | some k => right; exact ⟨rfl, k, rfl⟩

theorem unsigned_writer_fails {v : Nat} {h : Host} {g : OFile}
    (hf : (unsigned_writer v h.in_c g).1 = -1) :
    ∃ pre, pre <+: utoa v ∧ (unsigned_writer v h.in_c g).2.data = g.data ++ pre := by
  have hfmt : fmt_llu h.in_c v = utoa v := rfl
  unfold unsigned_writer at hf ⊢
  rw [hfmt] at hf ⊢
  rcases fprintf_data g (utoa v) with ⟨hok, _⟩ | ⟨hbad, k, hk⟩
  · have hn : ¬ (fprintf g (utoa v)).1 < 0 := by omega
    simp [hn] at hf
  · have hn : (fprintf g (utoa v)).1 < 0 := by omega
    refine ⟨(utoa v).take k, List.take_prefix _ _, ?_⟩
    simp [hn, hk]

theorem uuid_writer_fails {u : List Byte} {h : Host} {g : OFile}
    (hf : (uuid_writer u h g).1 = -1) :
    ∃ pre, pre <+: uuid_fmt 0 (u.take 16) ∧ (uuid_writer u h g).2.data = g.data ++ pre := by
  unfold uuid_writer at hf ⊢
  simp only [uuid_text_cstr] at hf ⊢
  rcases fprintf_data g (uuid_fmt 0 (u.take 16)) with ⟨hok, _⟩ | ⟨hbad, k, hk⟩
  · have hn : ¬ (fprintf g (uuid_fmt 0 (u.take 16))).1 < 0 := by omega
    simp [hn] at hf
  · have hn : (fprintf g (uuid_fmt 0 (u.take 16))).1 < 0 := by omega
    refine ⟨(uuid_fmt 0 (u.take 16)).take k, List.take_prefix _ _, ?_⟩
    simp [hn, hk]

theorem blob_writer_fails {data : List Byte} {size : Nat} {h : Host} {g : OFile}
    (hf : (blob_writer data size h.in_c g).1 = -1) :
    ∃ pre, pre <+: utoa size ++ 58 :: data.take size ∧
      (blob_writer data size h.in_c g).2.data = g.data ++ pre := by
  have hfmt : fmt_llu h.in_c size = utoa size := rfl
  unfold blob_writer at hf ⊢
  rw [hfmt] at hf ⊢
  rcases fprintf_data g (utoa size ++ [58]) with ⟨hok, hd⟩ | ⟨hbad, k, hk⟩
  · have hn : ¬ (fprintf g (utoa size ++ [58])).1 < 0 := by omega
    rcases fwrite_data (fprintf g (utoa size ++ [58])).2 data size with ⟨h1, _⟩ | ⟨h0, k, hk⟩
    · simp [hn, h1] at hf
    · refine ⟨utoa size ++ 58 :: (data.take size).take k, ?_, ?_⟩
      · exact (List.prefix_append_right_inj _).mpr
          ((List.prefix_cons_inj 58).mpr ( List.take_prefix _ _))
      · simp [hn, h0, hk, hd]
  · have hn : (fprintf g (utoa size ++ [58])).1 < 0 := by omega
    refine ⟨(utoa size ++ [58]).take k, ?_, ?_⟩
    · have h1 : (utoa size ++ [58]).take k <+: utoa size ++ [58] := List.take_prefix _ _
      have h2 : utoa size ++ [58] <+: utoa size ++ 58 :: data.take size :=
        (List.prefix_append_right_inj _).mpr ((List.prefix_cons_inj 58).mpr ( List.nil_prefix))
      exact h1.trans h2
    · simp [hn, hk]

/-- A write whose header write succeeds and whose callback fails: the result
is -1 and the stream is the one the callback left, the header and what the
callback wrote. -/
theorem write_callback_aborts {h : Host} {f : OFile} {L : List Byte}
    {cb : Host → OFile → Int × OFile} (hs : CString L) (hL : is_label_valid (some L) = 1)
    (hh : h.calls_ok) (hhead : 0 ≤ (fprintf f (L ++ [58])).1)
    (hcb : (cb h.in_c (fprintf f (L ++ [58])).2).1 = -1) :
    (write_callback h f (some L) cb).rc = -1 ∧
    (write_callback h f (some L) cb).file = (cb h.in_c (fprintf f (L ++ [58])).2).2 ∧
    (fprintf f (L ++ [58])).2.data = f.data ++ (L ++ [58]) := by
  have hc : cb h.in_c (fprintf f (cstr L ++ [58])).2
      = (-1, (cb h.in_c (fprintf f (L ++ [58])).2).2) := by
    rw [cstr_eq_self hs, ← hcb]
  obtain ⟨hrc, hfile⟩ := write_callback_cb_fails hh hL hc
  refine ⟨hrc, hfile, ?_⟩
  rcases fprintf_data f (L ++ [58]) with ⟨_, hd⟩ | ⟨hbad, _⟩
  · exact hd
  · rw [hbad] at hhead
    exact absurd hhead (by decide)

/-! ## Lemmas: strings and blobs -/

/-- Two callbacks with the same return code and the same rest on every input
give reads with the same return code and the same rest. -/
theorem read_callback_congr {α β : Type} (h : Host) (f : IFile) (label : Option (List Byte))
    {cb1 : Host → IFile → Int × Option α × IFile} {cb2 : Host → IFile → Int × Option β × IFile}
    (hcb : ∀ body, (cb1 h.in_c body).1 = (cb2 h.in_c body).1 ∧
      (cb1 h.in_c body).2.2 = (cb2 h.in_c body).2.2) :
    (read_callback h f label cb1).rc = (read_callback h f label cb2).rc ∧
    (read_callback h f label cb1).file = (read_callback h f label cb2).file ∧
    (read_callback h f label cb1).host = (read_callback h f label cb2).host := by
  cases label with
  | none => simp [read_callback]
  | some lab =>
    cases hq : h.query_ok with
    | false => simp [read_callback, hq]
    | true =>
    cases hd : h.strdup_ok with
    | false => simp [read_callback, hq, hd]
    | true =>
    cases hc : h.set_c_ok with
    | false => simp [read_callback, hq, hd, hc]
    | true =>
      rcases hE : expect_label f (some lab) with ⟨lrc, f1⟩
      by_cases hl : lrc = -1
      · simp [read_callback, hq, hd, hc, hE, hl]
      · cases f1 with
        | nil => simp [read_callback, hq, hd, hc, hE, hl, fscanf_c]
        | cons c body =>
          by_cases hc58 : c = 58
          · subst hc58
            obtain ⟨h1, h2⟩ := hcb body
            rcases hC1 : cb1 h.in_c body with ⟨crc, v, f3⟩
            rcases hC2 : cb2 h.in_c body with ⟨crc2, v2, f32⟩
            rw [hC1, hC2] at h1 h2
            simp only at h1 h2
            subst h1
            subst h2
            by_cases hcrc : crc = -1
            · simp [read_callback, hq, hd, hc, hE, hl, fscanf_c, hC1, hC2, hcrc]
            · cases f3 with
              | nil => simp [read_callback, hq, hd, hc, hE, hl, fscanf_c, hC1, hC2, hcrc]
              | cons d rest =>
                simp [read_callback, hq, hd, hc, hE, hl, fscanf_c, hC1, hC2, hcrc]
          · simp [read_callback, hq, hd, hc, hE, hl, fscanf_c, hc58]

/-! ## Lemmas: composition of records -/

/-- The bytes a write with a working callback appends to a healthy stream. -/
theorem write_callback_emitted {h : Host} {f : OFile} {L : List Byte}
    {cb : Host → OFile → Int × OFile} {payload : List Byte}
    (hh : h.calls_ok) (hs : CString L) (hL : is_label_valid (some L) = 1) (hf : f.healthy)
    (hcb : ∀ g : OFile, g.healthy →
      ∃ g1, cb h.in_c g = (0, g1) ∧ g1.healthy ∧ g1.data = g.data ++ payload)
    (r : List Byte) :
    (write_callback h f (some L) cb).emitted f ++ r = L ++ 58 :: (payload ++ 10 :: r) := by
  obtain ⟨_, _, _, hfile⟩ := write_callback_ok hh hL hf hcb
  rw [emitted_of_data _ f _ hfile, cstr_eq_self hs]
  simp

/-! ## Lemmas: the blob expectation of the tool -/

/-- On buffers that hold at least `n` bytes, `memcmp` returns 0 exactly when
the first `n` bytes are equal. -/
theorem memcmp_eq_zero_iff : ∀ (x y : List Byte) (n : Nat), n ≤ x.length → n ≤ y.length →
    (memcmp x y n = 0 ↔ x.take n = y.take n)
  | _, _, 0, _, _ => by
    constructor
    · intro _; simp
    · intro _
      unfold memcmp
      split <;> first | rfl | simp_all
  | [], _, n + 1, hx, _ => by simp at hx
  | _ :: _, [], n + 1, _, hy => by simp at hy
  | a :: x, b :: y, n + 1, hx, hy => by
    have ih := memcmp_eq_zero_iff x y n (by simpa using hx) (by simpa using hy)
    unfold memcmp
    by_cases hlt : a.toNat < b.toNat
    · have hne : a ≠ b := fun h0 => by rw [h0] at hlt; exact absurd hlt (lt_irrefl _)
      simp [hlt, hne]
    · by_cases hgt : b.toNat < a.toNat
      · have hne : a ≠ b := fun h0 => by rw [h0] at hgt; exact absurd hgt (lt_irrefl _)
        simp [hlt, hgt, hne]
      · have heq : a = b := by
          have h1 : a.toNat = b.toNat := by omega
          have := congrArg UInt8.ofNat h1
          rwa [ofNat_toNat, ofNat_toNat] at this
        subst heq
        simp [ih]

/-- When `blob_reader` succeeds it stored a buffer that is not empty and its
length. -/
theorem blob_reader_value {h : Host} {f r : IFile} {v : Option RBlob}
    (hr : blob_reader h f = (0, v, r)) : ∃ d, v = some ⟨some d, d.length⟩ ∧ d ≠ [] := by
  unfold blob_reader at hr
  rcases hsc : fscanf_llu_colon h f with ⟨n, len, f1⟩
  rw [hsc] at hr
  simp only at hr
  by_cases hn : n ≠ 1
  · rw [if_pos hn] at hr
    simp at hr
  · rw [if_neg hn] at hr
    by_cases hm : (!h.malloc_ok (len.getD 0)) = true
    · rw [if_pos hm] at hr
      simp at hr
    · rw [if_neg hm] at hr
      rcases hfr : fread f1 (len.getD 0) with ⟨k, got, f2⟩
      rw [hfr] at hr
      simp only at hr
      by_cases hk : k ≠ 1
      · rw [if_pos hk] at hr
        simp at hr
      · rw [if_neg hk] at hr
        have hk1 : k = 1 := not_not.mp hk
        subst hk1
        obtain ⟨_, hlen⟩ := fread_inv hfr
        have h0 : len.getD 0 ≠ 0 := by
          intro h0
          rw [h0] at hfr
          simp [fread] at hfr
        have hv := congrArg (fun t => t.2.1) hr
        simp only at hv
        refine ⟨got, ?_, ?_⟩
        · rw [← hv, hlen]
        · intro hg
          rw [hg] at hlen
          exact h0 hlen.symm

theorem read_blob_value {h : Host} {f : IFile} {label : Option (List Byte)}
    (hrc : (read_blob h f label).rc = 0) :
    ∃ d, (read_blob h f label).value = some ⟨some d, d.length⟩ ∧ d ≠ [] := by
  obtain ⟨l, body, v, rest, _, _, _, _, hcb, hres⟩ := read_callback_ok_inv hrc
  obtain ⟨d, hv, hd⟩ := blob_reader_value hcb
  refine ⟨d, ?_, hd⟩
  have : read_blob h f label = ⟨0, v, restore_locale h.in_c h.locale, rest⟩ := hres
  rw [this, hv]

/-- When `read_file_content` succeeds it stored the content of a file that is
not empty, followed by a NUL, and the length of the content. -/
theorem read_file_content_inv {h : Host} {d : Disk} {name : Option (List Byte)}
    (hrc : (read_file_content h d name).1 = 0) :
    ∃ content, read_file_content h d name = (0, some (content ++ [0]), content.length) ∧
      content ≠ [] := by
  unfold read_file_content at hrc ⊢
  cases name with
  | none => simp at hrc
  | some nm =>
    simp only at hrc ⊢
    cases hop : d.fopen (cstr nm) with
    | none => rw [hop] at hrc; simp at hrc
    | some content =>
      rw [hop] at hrc
      simp only at hrc ⊢
      by_cases h1 : (!d.seek_end_ok) = true
      · rw [if_pos h1] at hrc; simp at hrc
      · rw [if_neg h1] at hrc ⊢
        by_cases h2 : (!d.ftell_ok) = true
        · rw [if_pos h2] at hrc; simp at hrc
        · rw [if_neg h2] at hrc ⊢
          by_cases h3 : (!d.seek_set_ok) = true
          · rw [if_pos h3] at hrc; simp at hrc
          · rw [if_neg h3] at hrc ⊢
            by_cases h4 : (!h.malloc_ok (content.length + 1)) = true
            · rw [if_pos h4] at hrc; simp at hrc
            · rw [if_neg h4] at hrc ⊢
              by_cases h0 : content = []
              · subst h0
                simp [fread] at hrc
              · have hfr := fread_exact h0 []
                rw [List.append_nil] at hfr
                exact ⟨content, by simp [hfr], h0⟩

/-- The exit status of `expect` is the one of the comparison: `chain` does not
change it. -/
theorem expect_status {argv : List (List Byte)} {o : Options} (p : Proc)
    (hargs : expect_args argv options_init = some o) :
    (expect argv p).status = (expect_value o p).status := by
  unfold expect
  rw [hargs]
  simp only
  split <;> rfl

/-- The blob comparison of `expect` when both blobs were obtained. -/
theorem expect_value_blob {o : Options} {p : Proc} {actual expected : List Byte}
    (htype : o.type = 4) (hrc : (read_blob p.host p.stdin o.label).rc = 0)
    (hval : (read_blob p.host p.stdin o.label).value = some ⟨some actual, actual.length⟩)
    (hfile : read_file_content (read_blob p.host p.stdin o.label).host p.disk o.value
      = (0, some (expected ++ [0]), expected.length))
    (hne : actual ≠ []) (hq : o.quiet = true ∨ p.stdout.healthy) :
    (expect_value o p).status = if actual = expected then 0 else 1 := by
  have hrc1 : ¬ (read_blob p.host p.stdin o.label).rc = -1 := by rw [hrc]; decide
  have hlen0 : actual.length ≠ 0 := fun h0 => hne (List.length_eq_zero.mp h0)
  unfold expect_value
  simp only [htype, hrc1, hval, hfile, Option.getD_some]
  simp only [show ¬ (4 : Nat) = 1 by decide, show ¬ (4 : Nat) = 2 by decide,
    show ¬ (4 : Nat) = 3 by decide, if_false, if_true]
  by_cases hsz : expected.length = actual.length
  · have hcmp := memcmp_eq_zero_iff actual (expected ++ [0]) actual.length (le_refl _)
      (by rw [List.length_append, hsz]; omega)
    have htake : (expected ++ [0]).take actual.length = expected := by
      rw [← hsz, List.take_left]
    rw [List.take_length, htake] at hcmp
    by_cases heq : actual = expected
    · have hm : memcmp actual (expected ++ [0]) actual.length = 0 := hcmp.mpr heq
      subst heq
      rcases hq with hq | hq
      · simp [hm, hq, EXIT_SUCCESS]
      · cases hqv : o.quiet with
        | true => simp [hm, EXIT_SUCCESS]
        | false =>
          have hfw := fwrite_healthy hq actual hlen0
          simp [hm, EXIT_SUCCESS, hfw]
    · have hm : ¬ memcmp actual (expected ++ [0]) actual.length = 0 := fun h0 => heq (hcmp.mp h0)
      simp [hsz, hm, heq, EXIT_FAILURE]
  · have heq : ¬ actual = expected := fun h0 => hsz (by rw [h0])
    simp [hsz, heq, EXIT_FAILURE]

/-! ## Lemmas: chaining -/

theorem putchar_healthy {out : OFile} (ho : out.healthy) (c : Byte) :
    putchar out c = ((c.toNat : Int), out.accept [c]) := by
  unfold putchar OFile.accept
  rcases out with ⟨d, sc⟩
  cases sc with
  | nil => rfl
  | cons o sc =>
    have : o = none := ho o (List.mem_cons_self _ _)
    subst this
    rfl

/-- On an output whose writes succeed `chain` copies the whole input. -/
theorem chain_loop_healthy : ∀ (inp : IFile) (out : OFile), out.healthy →
    (chain_loop inp out).1 = [] ∧ (chain_loop inp out).2.data = out.data ++ inp ∧
    (chain_loop inp out).2.healthy
  | [], out, ho => ⟨rfl, by simp [chain_loop], ho⟩
  | c :: rest, out, ho => by
    have hne : ¬ ((c.toNat : Int) = -1) := by omega
    have ih := chain_loop_healthy rest (out.accept [c]) (accept_healthy ho [c])
    unfold chain_loop
    rw [putchar_healthy ho c]
    simp only [hne, if_false]
    refine ⟨ih.1, ?_, ih.2.2⟩
    rw [ih.2.1]
    simp [OFile.accept]

theorem fprintf_appends (g : OFile) (t : List Byte) : g.data <+: (fprintf g t).2.data := by
  rcases fprintf_data g t with ⟨_, hd⟩ | ⟨_, k, hk⟩
  · rw [hd]; exact List.prefix_append _ _
  · rw [hk]; exact List.prefix_append _ _

theorem fwrite_appends (g : OFile) (data : List Byte) (size : Nat) :
    g.data <+: (fwrite g data size).2.data := by
  rcases fwrite_data g data size with ⟨_, hd⟩ | ⟨_, k, hk⟩
  · rw [hd]; exact List.prefix_append _ _
  · rw [hk]; exact List.prefix_append _ _

theorem unsigned_writer_appends (v : Nat) (h : Host) (g : OFile) :
    g.data <+: (unsigned_writer v h g).2.data := by
  unfold unsigned_writer
  have := fprintf_appends g (fmt_llu h v)
  rcases hfp : fprintf g (fmt_llu h v) with ⟨n, g1⟩
  rw [hfp] at this
  simp only
  split <;> exact this

theorem uuid_writer_appends (u : List Byte) (h : Host) (g : OFile) :
    g.data <+: (uuid_writer u h g).2.data := by
  have := fprintf_appends g (cstr (uuid_unparse u))
  unfold uuid_writer
  simp only
  split <;> exact this

theorem blob_writer_appends (data : List Byte) (size : Nat) (h : Host) (g : OFile) :
    g.data <+: (blob_writer data size h g).2.data := by
  unfold blob_writer
  have h1 := fprintf_appends g (fmt_llu h size ++ [58])
  rcases hfp : fprintf g (fmt_llu h size ++ [58]) with ⟨n, g1⟩
  rw [hfp] at h1
  simp only
  split
  · exact h1
  · have h2 := fwrite_appends g1 data size
    rcases hfw : fwrite g1 data size with ⟨k, g2⟩
    rw [hfw] at h2
    simp only
    split <;> exact h1.trans h2

/-- A write only appends to the stream. -/
theorem write_callback_appends (h : Host) (f : OFile) (label : Option (List Byte))
    {cb : Host → OFile → Int × OFile} (hcb : ∀ h1 g, g.data <+: (cb h1 g).2.data) :
    f.data <+: (write_callback h f label cb).file.data := by
  cases label with
  | none => simp [write_callback]
  | some lab =>
    by_cases hv : is_label_valid (some lab) = 0
    · simp [write_callback, hv]
    · cases hq : h.query_ok with
      | false => simp [write_callback, hv, hq]
      | true =>
      cases hd : h.strdup_ok with
      | false => simp [write_callback, hv, hq, hd]
      | true =>
      cases hc : h.set_c_ok with
      | false => simp [write_callback, hv, hq, hd, hc]
      | true =>
        have h1 := fprintf_appends f (cstr lab ++ [58])
        have h2 := hcb h.in_c (fprintf f (cstr lab ++ [58])).2
        rcases hC : cb h.in_c (fprintf f (cstr lab ++ [58])).2 with ⟨crc, f2⟩
        rw [hC] at h2
        have h3 := fprintf_appends f2 [10]
        by_cases hcrc : crc = -1
        · simp only [write_callback, hv, hq, hd, hc, hC, hcrc]
          simpa using h1.trans h2
        · simp only [write_callback, hv, hq, hd, hc, hC, hcrc]
          simpa using (h1.trans h2).trans h3

/-- The part of `write` after `chain` only appends to standard output. -/
theorem write_value_appends (o : Options) (label : List Byte) (p : Proc) :
    p.stdout.data <+: (write_value o label p).proc.stdout.data := by
  have hu := fun v => write_callback_appends p.host p.stdout (some label)
    (unsigned_writer_appends v)
  have hi := fun u => write_callback_appends p.host p.stdout (some label)
    (uuid_writer_appends u)
  have hb := fun b n => write_callback_appends p.host p.stdout (some label)
    (blob_writer_appends b n)
  unfold write_value
  simp only
  split
  · split
    · exact List.prefix_refl _
    · split
      · exact List.prefix_refl _
      · split
        · exact List.prefix_refl _
        · split
          · exact List.prefix_refl _
          · split <;> exact hu _
  · split
    · split
      · exact List.prefix_refl _
      · split <;> exact hi _
    · split
      · split <;> exact hb _ _
      · split
        · split
          · exact List.prefix_refl _
          · split <;> exact hb _ _
        · exact List.prefix_refl _

/-- With `quiet` set, the part of `read` before `chain` writes nothing. -/
theorem read_value_quiet {o : Options} (hq : o.quiet = true) (p : Proc) :
    (read_value o p).proc.stdout = p.stdout := by
  unfold read_value
  simp only [hq, Bool.not_true, Bool.false_eq_true, if_false]
  split
  · split <;> rfl
  · split
    · split <;> rfl
    · split
      · split <;> rfl
      · split
        · split <;> rfl
        · rfl

/-- With `quiet` set, the part of `expect` before `chain` writes nothing. -/
theorem expect_value_quiet {o : Options} (hq : o.quiet = true) (p : Proc) :
    (expect_value o p).proc.stdout = p.stdout := by
  unfold expect_value
  simp only [hq, Bool.not_true, Bool.false_eq_true, if_false]
  split
  · split
    · rfl
    · split
      · rfl
      · split
        · rfl
        · split
          · rfl
          · split <;> rfl
  · split
    · split
      · rfl
      · split <;> rfl
    · split
      · split <;> rfl
      · split
        · split
          · rfl
          · split
            · rfl
            · split
              · rfl
              · split <;> rfl
        · rfl

theorem get_argument_flags {rest : List (List Byte)} {o o1 : Options} {k : Nat}
    (h : get_argument rest o k = some o1) : o1.chn = o.chn ∧ o1.quiet = o.quiet := by
  unfold get_argument at h
  cases rest with
  | nil => simp at h
  | cons v r =>
    simp only at h
    split at h
    · simp at h
    · simp only [Option.some.injEq] at h
      subst h
      exact ⟨rfl, rfl⟩

theorem read_args_cons (arg : List Byte) (rest : List (List Byte)) (o : Options) :
    read_args (arg :: rest) o =
    if is_flag arg (bytes "-l") (bytes "--label") then
      match rest with
      | [] => none
      | v :: rest1 =>
        if o.label.isSome then none else read_args rest1 { o with label := some v }
    else if is_flag arg (bytes "-q") (bytes "--quiet") then
      read_args rest { o with quiet := true }
    else if is_flag arg (bytes "-c") (bytes "--chain") then
      read_args rest { o with chn := true, quiet := true }
    else if is_flag arg (bytes "-n") (bytes "--unsigned") then
      if o.type ≠ 0 then none else read_args rest { o with type := 1 }
    else if is_flag arg (bytes "-u") (bytes "--uuid") then
      if o.type ≠ 0 then none else read_args rest { o with type := 2 }
    else if is_flag arg (bytes "-s") (bytes "--string") then
      if o.type ≠ 0 then none else read_args rest { o with type := 3 }
    else if is_flag arg (bytes "-b") (bytes "--blob") then
      if o.type ≠ 0 then none else read_args rest { o with type := 4 }
    else none := by
  cases rest <;> rfl

theorem expect_args_cons (arg : List Byte) (rest : List (List Byte)) (o : Options) :
    expect_args (arg :: rest) o =
    if is_flag arg (bytes "-l") (bytes "--label") then
      match rest with
      | [] => none
      | v :: rest1 =>
        if o.label.isSome then none else expect_args rest1 { o with label := some v }
    else if is_flag arg (bytes "-q") (bytes "--quiet") then
      expect_args rest { o with quiet := true }
    else if is_flag arg (bytes "-c") (bytes "--chain") then
      expect_args rest { o with chn := true, quiet := true }
    else if is_flag arg (bytes "-n") (bytes "--unsigned") then
      match rest, get_argument rest o 1 with
      | _ :: rest1, some o1 => expect_args rest1 o1
      | _, _ => none
    else if is_flag arg (bytes "-u") (bytes "--uuid") then
      match rest, get_argument rest o 2 with
      | _ :: rest1, some o1 => expect_args rest1 o1
      | _, _ => none
    else if is_flag arg (bytes "-s") (bytes "--string") then
      match rest, get_argument rest o 3 with
      | _ :: rest1, some o1 => expect_args rest1 o1
      | _, _ => none
    else if is_flag arg (bytes "-b") (bytes "--blob") then
      match rest, get_argument rest o 4 with
      | _ :: rest1, some o1 => expect_args rest1 o1
      | _, _ => none
    else none := by
  rcases o with ⟨l, q, c, t, v⟩
  cases v <;> cases rest <;> rfl

/-- The argument loop of `read` sets `quiet` whenever it sets `chn`. -/
theorem read_args_quiet (n : Nat) : ∀ (argv : List (List Byte)) (o0 o : Options),
    argv.length ≤ n → read_args argv o0 = some o → (o0.chn = true → o0.quiet = true) →
    o.chn = true → o.quiet = true := by
  induction n with
  | zero =>
    intro argv o0 o hlen h h0
    cases argv with
    | nil =>
      have h1 : some o0 = some o := h
      cases h1
      exact h0
    | cons a r => simp at hlen
  | succ n ih =>
    intro argv o0 o hlen h h0
    cases argv with
    | nil =>
      have h1 : some o0 = some o := h
      cases h1
      exact h0
    | cons arg rest =>
      have hrest : rest.length ≤ n := by simpa using hlen
      have htype : ∀ k, (if o0.type ≠ 0 then none else read_args rest { o0 with type := k })
          = some o → o.chn = true → o.quiet = true := by
        intro k hm
        by_cases ht : o0.type ≠ 0
        · rw [if_pos ht] at hm
          simp at hm
        · rw [if_neg ht] at hm
          exact ih rest _ o hrest hm h0
      rw [read_args_cons] at h
      by_cases hl : is_flag arg (bytes "-l") (bytes "--label") = true
      · rw [if_pos hl] at h
        cases rest with
        | nil => simp at h
        | cons v rest1 =>
          simp only at h
          by_cases hlab : o0.label.isSome = true
          · rw [if_pos hlab] at h
            simp at h
          · rw [if_neg hlab] at h
            exact ih rest1 _ o (by simp at hrest; omega) h h0
      · rw [if_neg hl] at h
        by_cases hqf : is_flag arg (bytes "-q") (bytes "--quiet") = true
        · rw [if_pos hqf] at h
          exact ih rest _ o hrest h (fun _ => rfl)
        · rw [if_neg hqf] at h
          by_cases hcf : is_flag arg (bytes "-c") (bytes "--chain") = true
          · rw [if_pos hcf] at h
            exact ih rest _ o hrest h (fun _ => rfl)
          · rw [if_neg hcf] at h
            by_cases h1 : is_flag arg (bytes "-n") (bytes "--unsigned") = true
            · rw [if_pos h1] at h
              exact htype 1 h
            · rw [if_neg h1] at h
              by_cases h2 : is_flag arg (bytes "-u") (bytes "--uuid") = true
              · rw [if_pos h2] at h
                exact htype 2 h
              · rw [if_neg h2] at h
                by_cases h3 : is_flag arg (bytes "-s") (bytes "--string") = true
                · rw [if_pos h3] at h
                  exact htype 3 h
                · rw [if_neg h3] at h
                  by_cases h4 : is_flag arg (bytes "-b") (bytes "--blob") = true
                  · rw [if_pos h4] at h
                    exact htype 4 h
                  · rw [if_neg h4] at h
                    simp at h

/-- The argument loop of `expect` sets `quiet` whenever it sets `chn`. -/
theorem expect_args_quiet (n : Nat) : ∀ (argv : List (List Byte)) (o0 o : Options),
    argv.length ≤ n → expect_args argv o0 = some o → (o0.chn = true → o0.quiet = true) →
    o.chn = true → o.quiet = true := by
  induction n with
  | zero =>
    intro argv o0 o hlen h h0
    cases argv with
    | nil =>
      have h1 : some o0 = some o := h
      cases h1
      exact h0
    | cons a r => simp at hlen
  | succ n ih =>
    intro argv o0 o hlen h h0
    cases argv with
    | nil =>
      have h1 : some o0 = some o := h
      cases h1
      exact h0
    | cons arg rest =>
      have hrest : rest.length ≤ n := by simpa using hlen
      have key : ∀ (k : Nat) (v : List Byte) (rest1 : List (List Byte)) (o1 : Options),
          rest = v :: rest1 → get_argument rest o0 k = some o1 →
          expect_args rest1 o1 = some o → o.chn = true → o.quiet = true := by
        intro k v rest1 o1 hr hga hm
        obtain ⟨hc, hq⟩ := get_argument_flags hga
        rw [hr] at hrest
        exact ih rest1 o1 o (by simp at hrest; omega) hm (by rw [hc, hq]; exact h0)
      rw [expect_args_cons] at h
      by_cases hl : is_flag arg (bytes "-l") (bytes "--label") = true
      · rw [if_pos hl] at h
        cases rest with
        | nil => simp at h
        | cons v rest1 =>
          simp only at h
          by_cases hlab : o0.label.isSome = true
          · rw [if_pos hlab] at h
            simp at h
          · rw [if_neg hlab] at h
            exact ih rest1 _ o (by simp at hrest; omega) h h0
      · rw [if_neg hl] at h
        by_cases hqf : is_flag arg (bytes "-q") (bytes "--quiet") = true
        · rw [if_pos hqf] at h
          exact ih rest _ o hrest h (fun _ => rfl)
        · rw [if_neg hqf] at h
          by_cases hcf : is_flag arg (bytes "-c") (bytes "--chain") = true
          · rw [if_pos hcf] at h
            exact ih rest _ o hrest h (fun _ => rfl)
          · rw [if_neg hcf] at h
            by_cases h1 : is_flag arg (bytes "-n") (bytes "--unsigned") = true
            · rw [if_pos h1] at h
              cases rest with
              | nil => simp at h
              | cons v rest1 =>
                cases hga : get_argument (v :: rest1) o0 1 with
                | none =>
                  rw [hga] at h
                  simp at h
                | some o1 =>
                  rw [hga] at h
                  exact key 1 v rest1 o1 rfl hga h
            · rw [if_neg h1] at h
              by_cases h2 : is_flag arg (bytes "-u") (bytes "--uuid") = true
              · rw [if_pos h2] at h
                cases rest with
                | nil => simp at h
                | cons v rest1 =>
                  cases hga : get_argument (v :: rest1) o0 2 with
                  | none =>
                    rw [hga] at h
                    simp at h
                  | some o1 =>
                    rw [hga] at h
                    exact key 2 v rest1 o1 rfl hga h
              · rw [if_neg h2] at h
                by_cases h3 : is_flag arg (bytes "-s") (bytes "--string") = true
                · rw [if_pos h3] at h
                  cases rest with
                  | nil => simp at h
                  | cons v rest1 =>
                    cases hga : get_argument (v :: rest1) o0 3 with
                    | none =>
                      rw [hga] at h
                      simp at h
                    | some o1 =>
                      rw [hga] at h
                      exact key 3 v rest1 o1 rfl hga h
                · rw [if_neg h3] at h
                  by_cases h4 : is_flag arg (bytes "-b") (bytes "--blob") = true
                  · rw [if_pos h4] at h
                    cases rest with
                    | nil => simp at h
                    | cons v rest1 =>
                      cases hga : get_argument (v :: rest1) o0 4 with
                      | none =>
                        rw [hga] at h
                        simp at h
                      | some o1 =>
                        rw [hga] at h
                        exact key 4 v rest1 o1 rfl hga h
                  · rw [if_neg h4] at h
                    simp at h

/-- With `chn` and `quiet` set and an output whose writes succeed: a command
that runs `chain` after a successful operation that writes nothing. -/
theorem chain_after {o : Options} {p : Proc} (e : Exit) (hchn : o.chn = true)
    (hstd : e.proc.stdout = p.stdout) (hout : p.stdout.healthy) :
    (if e.status = EXIT_SUCCESS ∧ o.chn = true then (⟨e.status, chain e.proc, e.ub⟩ : Exit) else e).status
      = e.status ∧
    ((if e.status = EXIT_SUCCESS ∧ o.chn = true then (⟨e.status, chain e.proc, e.ub⟩ : Exit) else e).status
        = 0 →
      (if e.status = EXIT_SUCCESS ∧ o.chn = true then (⟨e.status, chain e.proc, e.ub⟩ : Exit)
        else e).proc.stdout.data = p.stdout.data ++ e.proc.stdin ∧
      (if e.status = EXIT_SUCCESS ∧ o.chn = true then (⟨e.status, chain e.proc, e.ub⟩ : Exit)
        else e).proc.stdin = []) ∧
    ((if e.status = EXIT_SUCCESS ∧ o.chn = true then (⟨e.status, chain e.proc, e.ub⟩ : Exit) else e).status
        ≠ 0 →
      (if e.status = EXIT_SUCCESS ∧ o.chn = true then (⟨e.status, chain e.proc, e.ub⟩ : Exit)
        else e).proc.stdout = p.stdout) := by
  have hh : e.proc.stdout.healthy := by rw [hstd]; exact hout
  obtain ⟨hin, hdata, _⟩ := chain_loop_healthy e.proc.stdin e.proc.stdout hh
  by_cases hs : e.status = EXIT_SUCCESS
  · rw [if_pos ⟨hs, hchn⟩]
    refine ⟨rfl, fun _ => ⟨?_, hin⟩, fun hne => absurd hs hne⟩
    show (chain_loop e.proc.stdin e.proc.stdout).2.data = p.stdout.data ++ e.proc.stdin
    rw [hdata, hstd]
  · rw [if_neg (fun h => hs h.1)]
    exact ⟨rfl, fun h0 => absurd h0 hs, fun _ => hstd⟩

/-! ## Lemmas: buffers freed twice -/

/-- After a read that returns 0 the caller's pointer is in the state the
callback left it in, on the payload the callback accepted. -/
theorem read_ptr_of_ok {α : Type} {h : Host} {f : IFile} {label : Option (List Byte)}
    {cb : Host → IFile → Int × Option α × IFile} (st : Host → IFile → PtrState)
    (hrc : (read_callback h f label cb).rc = 0) :
    ∃ body v rest, cb h.in_c body = (0, v, 10 :: rest) ∧
      read_ptr h f label cb st = st h.in_c body := by
  obtain ⟨l, body, v, rest, hl, _, _, hbody, hcb, _⟩ := read_callback_ok_inv hrc
  have hcongr := (@read_callback_congr _ _ h f label cb
    (fun h1 f => ((cb h1 f).1, some (st h1 f), (cb h1 f).2.2)) (fun _ => ⟨rfl, rfl⟩)).1
  rw [hrc] at hcongr
  obtain ⟨l2, body2, v2, rest2, hl2, _, _, hbody2, hcb2, hres2⟩ := read_callback_ok_inv hcongr.symm
  have hll : l2 = l := by
    rw [hl] at hl2
    exact (Option.some.inj hl2).symm
  subst hll
  have hbb : body2 = body := by
    rw [hbody] at hbody2
    exact (List.tail_eq_of_cons_eq hbody2).symm
  subst hbb
  refine ⟨body2, v, rest, hcb, ?_⟩
  unfold read_ptr
  rw [hres2]
  have hv2 : v2 = some (st h.in_c body2) := by
    have := congrArg (fun t => t.2.1) hcb2
    exact this.symm
  rw [hv2]
  rfl

theorem string_reader_ptr_live {h : Host} {f r : IFile} {v : Option (Option (List Byte))}
    (hr : string_reader h f = (0, v, r)) : string_reader_ptr h f = PtrState.live := by
  unfold string_reader at hr
  unfold string_reader_ptr
  rcases hsc : fscanf_llu_colon h f with ⟨n, len, f1⟩
  rw [hsc] at hr
  simp only at hr ⊢
  by_cases hn : n ≠ 1
  · rw [if_pos hn] at hr
    simp at hr
  · rw [if_neg hn] at hr ⊢
    by_cases hm : (!h.malloc_ok ((len.getD 0 + 1) % 2 ^ 64)) = true
    · rw [if_pos hm] at hr
      simp at hr
    · rw [if_neg hm] at hr ⊢
      by_cases hk : (fread f1 (len.getD 0)).1 ≠ 1
      · rw [if_pos hk] at hr
        simp at hr
      · rw [if_neg hk]

theorem blob_reader_ptr_live {h : Host} {f r : IFile} {v : Option RBlob}
    (hr : blob_reader h f = (0, v, r)) : blob_reader_ptr h f = PtrState.live := by
  unfold blob_reader at hr
  unfold blob_reader_ptr
  rcases hsc : fscanf_llu_colon h f with ⟨n, len, f1⟩
  rw [hsc] at hr
  simp only at hr ⊢
  by_cases hn : n ≠ 1
  · rw [if_pos hn] at hr
    simp at hr
  · rw [if_neg hn] at hr ⊢
    by_cases hm : (!h.malloc_ok (len.getD 0)) = true
    · rw [if_pos hm] at hr
      simp at hr
    · rw [if_neg hm] at hr ⊢
      by_cases hk : (fread f1 (len.getD 0)).1 ≠ 1
      · rw [if_pos hk] at hr
        simp at hr
      · rw [if_neg hk]

/-- A `read_string` that returns 0 hands the caller a live buffer. -/
theorem read_string_ptr_live {h : Host} {f : IFile} {label : Option (List Byte)}
    (hrc : (read_string h f label).rc = 0) : read_string_ptr h f label = PtrState.live := by
  obtain ⟨body, v, rest, hcb, hp⟩ := read_ptr_of_ok string_reader_ptr hrc
  unfold read_string_ptr
  rw [hp]
  exact string_reader_ptr_live hcb

/-- A `read_blob` that returns 0 hands the caller a live buffer. -/
theorem read_blob_ptr_live {h : Host} {f : IFile} {label : Option (List Byte)}
    (hrc : (read_blob h f label).rc = 0) : read_blob_ptr h f label = PtrState.live := by
  obtain ⟨body, v, rest, hcb, hp⟩ := read_ptr_of_ok blob_reader_ptr hrc
  unfold read_blob_ptr
  rw [hp]
  exact blob_reader_ptr_live hcb

/-- The second `free` of `expect_string` takes place exactly when `read_string`
left the address of a freed buffer. -/
theorem expect_string_ub (h : Host) (f : IFile) (label : Option (List Byte)) (e : List Byte) :
    (expect_string h f label (some e)).ub
      = decide (read_string_ptr h f label = PtrState.freed) := by
  unfold expect_string
  simp only
  split
  · rfl
  · split
    · split <;> rfl
    · rfl

theorem expect_string_ub_of_ok {h : Host} {f : IFile} {label : Option (List Byte)}
    {e : Option (List Byte)} (hrc : (expect_string h f label e).rc = 0) :
    (expect_string h f label e).ub = false := by
  cases e with
  | none => rfl
  | some e =>
    have hr : (read_string h f label).rc = 0 := by
      rcases read_callback_rc_cases h f label string_reader with h0 | h1
      · exact h0
      · have h1' : (read_string h f label).rc = -1 := h1
        unfold expect_string at hrc
        simp [h1'] at hrc
    rw [expect_string_ub, read_string_ptr_live hr]
    rfl

/-- The caller's pointer after a read that reaches the callback: it is in the
state the callback left it in. -/
theorem read_ptr_reached {α : Type} {h : Host} {l : List Byte}
    (cb : Host → IFile → Int × Option α × IFile) (st : Host → IFile → PtrState)
    (hh : h.calls_ok) (hs : CString l) (hl : is_label_valid (some l) = 1) (body : List Byte) :
    read_ptr h (l ++ 58 :: body) (some l) cb st = st h.in_c body := by
  obtain ⟨hq, hd, hc⟩ := hh
  unfold read_ptr read_callback
  simp only [hq, hd, hc, expect_label_ok hs hl, fscanf_c]
  by_cases hcrc : (cb h.in_c body).1 = -1
  · simp [hcrc]
  · simp [hcrc]

/-- A string record whose payload is of length 0 or shorter than the declared
length: the reader has allocated the buffer when `fread` fails, so the
pointer `read_string` leaves behind is the address of a freed buffer. -/
theorem read_string_ptr_freed {h : Host} {L : List Byte} (hh : h.calls_ok) (hs : CString L)
    (hL : is_label_valid (some L) = 1) {n : Nat} (hn : n < 2 ^ 64)
    (hm : h.malloc_ok ((n + 1) % 2 ^ 64) = true) {p : List Byte} (hp : n = 0 ∨ p.length < n) :
    read_string_ptr h (L ++ 58 :: (utoa n ++ 58 :: p)) (some L) = PtrState.freed := by
  unfold read_string_ptr
  rw [read_ptr_reached string_reader string_reader_ptr hh hs hL]
  have hm1 : h.in_c.malloc_ok ((n + 1) % 2 ^ 64) = true := hm
  unfold string_reader_ptr
  simp only [fscanf_llu_colon_ok h hn, Option.getD_some, hm1]
  rcases hp with h0 | hlt
  · subst h0
    simp [fread]
  · rw [fread_short hlt]
    simp

/-- On such a record `expect_string` frees the buffer a second time. -/
theorem expect_string_double_free {h : Host} {L : List Byte} (hh : h.calls_ok) (hs : CString L)
    (hL : is_label_valid (some L) = 1) {n : Nat} (hn : n < 2 ^ 64)
    (hm : h.malloc_ok ((n + 1) % 2 ^ 64) = true) {p : List Byte} (hp : n = 0 ∨ p.length < n)
    (e : List Byte) :
    (expect_string h (L ++ 58 :: (utoa n ++ 58 :: p)) (some L) (some e)).ub = true := by
  rw [expect_string_ub, read_string_ptr_freed hh hs hL hn hm hp]
  rfl

/-! ## Lemmas: the length prefix is read in one way -/

/-- A write that does not return -1 was given a valid label and found the
locale calls working. -/
theorem write_callback_reached {h : Host} {f : OFile} {l : List Byte}
    {cb : Host → OFile → Int × OFile} (hrc : (write_callback h f (some l) cb).rc ≠ -1) :
    is_label_valid (some l) = 1 ∧ h.calls_ok := by
  unfold write_callback at hrc
  rcases is_label_valid_cases (some l) with h1 | h0
  · refine ⟨h1, ?_⟩
    by_cases hq : h.query_ok = true
    · by_cases hd : h.strdup_ok = true
      · by_cases hc : h.set_c_ok = true
        · exact ⟨hq, hd, hc⟩
        · simp [h1, hq, hd, hc] at hrc
      · simp [h1, hq, hd] at hrc
    · simp [h1, hq] at hrc
  · simp [h0] at hrc

theorem take_strlen (s : List Byte) : s.take (strlen s) = cstr s := by
  unfold strlen cstr
  exact (List.prefix_iff_eq_take.mp (List.takeWhile_prefix _)).symm

theorem write_unsigned_record {h : Host} {f : OFile} {l : List Byte} {n : Nat}
    (hf : f.healthy) (hrc : (write_unsigned h f (some l) n).rc ≠ -1) :
    (write_unsigned h f (some l) n).file.data = f.data ++ (cstr l ++ [58] ++ utoa n ++ [10]) := by
  obtain ⟨hl, hh⟩ := write_callback_reached hrc
  exact (write_callback_ok hh hl hf (fun g hg => unsigned_writer_ok n h hg)).2.2.2

theorem write_uuid_record {h : Host} {f : OFile} {l u : List Byte} (hu : u.length = 16)
    (hf : f.healthy) (hrc : (write_uuid h f (some l) u).rc ≠ -1) :
    (write_uuid h f (some l) u).file.data
      = f.data ++ (cstr l ++ [58] ++ canonical_uuid_text u ++ [10]) := by
  obtain ⟨hl, hh⟩ := write_callback_reached hrc
  rw [← (uuid_fmt_16 u hu).2.2]
  exact (write_callback_ok hh hl hf (fun g hg => uuid_writer_ok hu h hg)).2.2.2

theorem write_blob_record {h : Host} {f : OFile} {l data : List Byte} {size : Nat}
    (hf : f.healthy) (hrc : (write_blob h f (some l) data size).rc ≠ -1) :
    size ≠ 0 ∧
    (write_blob h f (some l) data size).file.data
      = f.data ++ (cstr l ++ [58] ++ (utoa size ++ [58] ++ data.take size) ++ [10]) := by
  obtain ⟨hl, hh⟩ := write_callback_reached hrc
  have hsz : size ≠ 0 := by
    intro h0
    subst h0
    exact hrc (write_blob_zero_fails data hh hl hf).1
  exact ⟨hsz, (write_callback_ok hh hl hf (fun g hg => blob_writer_ok data hsz h hg)).2.2.2⟩

/-- When `read_file_content` does not return -1, the file was opened and is not
empty, and the content, a NUL and the length of the content were stored. -/
theorem read_file_content_ok {h : Host} {d : Disk} {name : Option (List Byte)}
    (hrc : (read_file_content h d name).1 ≠ -1) :
    ∃ nm content, name = some nm ∧ d.fopen (cstr nm) = some content ∧ content ≠ [] ∧
      read_file_content h d name = (0, some (content ++ [0]), content.length) := by
  unfold read_file_content at hrc ⊢
  cases name with
  | none => simp at hrc
  | some nm =>
    simp only at hrc ⊢
    cases hop : d.fopen (cstr nm) with
    | none => rw [hop] at hrc; simp at hrc
    | some content =>
      rw [hop] at hrc
      simp only at hrc ⊢
      by_cases h1 : (!d.seek_end_ok) = true
      · rw [if_pos h1] at hrc; simp at hrc
      · rw [if_neg h1] at hrc ⊢
        by_cases h2 : (!d.ftell_ok) = true
        · rw [if_pos h2] at hrc; simp at hrc
        · rw [if_neg h2] at hrc ⊢
          by_cases h3 : (!d.seek_set_ok) = true
          · rw [if_pos h3] at hrc; simp at hrc
          · rw [if_neg h3] at hrc ⊢
            by_cases h4 : (!h.malloc_ok (content.length + 1)) = true
            · rw [if_pos h4] at hrc; simp at hrc
            · rw [if_neg h4] at hrc ⊢
              by_cases h0 : content = []
              · subst h0
                simp [fread] at hrc
              · have hfr := fread_exact h0 []
                rw [List.append_nil] at hfr
                exact ⟨nm, content, rfl, hop, h0, by simp [hfr]⟩

theorem exit_failure_ne (p : Proc) (b : Bool) : ¬ (⟨EXIT_FAILURE, p, b⟩ : Exit).status = 0 := by
  show ¬ EXIT_FAILURE = 0
  decide

/-- A `write` without `chain` that exits with status 0 on an output whose
writes succeed has freed nothing twice and has appended exactly the record it
was asked for. -/
theorem write_value_record {o : Options} {label : List Byte} {p : Proc}
    (hout : p.stdout.healthy) (h0 : (write_value o label p).status = 0) :
    (write_value o label p).ub = false ∧
    (write_value o label p).proc.stdout.data = p.stdout.data ++ record_of o label p.disk := by
  unfold record_of payload_of
  by_cases t1 : o.type = 1
  · unfold write_value at h0 ⊢
    simp only [t1, if_true] at h0 ⊢
    by_cases c1 : cstr (o.value.getD []) = []
    · rw [if_pos c1] at h0
      exact absurd h0 (exit_failure_ne _ _)
    · rw [if_neg c1] at h0 ⊢
      by_cases c2 : (!(strtoull_arg (o.value.getD [])).2.1) = true
      · rw [if_pos c2] at h0
        exact absurd h0 (exit_failure_ne _ _)
      · rw [if_neg c2] at h0 ⊢
        by_cases c3 : (strtoull_arg (o.value.getD [])).1 = ULLONG_MAX ∧
            (strtoull_arg (o.value.getD [])).2.2.2 = true
        · rw [if_pos c3] at h0
          exact absurd h0 (exit_failure_ne _ _)
        · rw [if_neg c3] at h0 ⊢
          by_cases c4 : (strtoull_arg (o.value.getD [])).2.2.1 ≠ []
          · rw [if_pos c4] at h0
            exact absurd h0 (exit_failure_ne _ _)
          · rw [if_neg c4] at h0 ⊢
            by_cases c5 : (write_unsigned p.host p.stdout (some label)
                (strtoull_arg (o.value.getD [])).1).rc = -1
            · rw [if_pos c5] at h0
              exact absurd h0 (exit_failure_ne _ _)
            · rw [if_neg c5]
              exact ⟨rfl, write_unsigned_record hout c5⟩
  · by_cases t2 : o.type = 2
    · unfold write_value at h0 ⊢
      simp only [t2, show ¬ (2 : Nat) = 1 by decide, if_false, if_true] at h0 ⊢
      cases hu : uuid_parse (o.value.getD []) with
      | none =>
        rw [hu] at h0
        exact absurd h0 (exit_failure_ne _ _)
      | some u =>
        rw [hu] at h0
        simp only at h0 ⊢
        by_cases c5 : (write_uuid p.host p.stdout (some label) u).rc = -1
        · rw [if_pos c5] at h0
          exact absurd h0 (exit_failure_ne _ _)
        · rw [if_neg c5]
          exact ⟨rfl, write_uuid_record (uuid_parse_length hu) hout c5⟩
    · by_cases t3 : o.type = 3
      · unfold write_value at h0 ⊢
        simp only [t3, show ¬ (3 : Nat) = 1 by decide, show ¬ (3 : Nat) = 2 by decide, if_false,
          if_true] at h0 ⊢
        by_cases c5 : (write_string p.host p.stdout (some label) (o.value.getD [])).rc = -1
        · rw [if_pos c5] at h0
          exact absurd h0 (exit_failure_ne _ _)
        · rw [if_neg c5]
          refine ⟨rfl, ?_⟩
          have hrec := (write_blob_record hout c5).2
          rw [take_strlen] at hrec
          exact hrec
      · by_cases t4 : o.type = 4
        · unfold write_value at h0 ⊢
          simp only [t4, show ¬ (4 : Nat) = 1 by decide, show ¬ (4 : Nat) = 2 by decide,
            show ¬ (4 : Nat) = 3 by decide, if_false, if_true] at h0 ⊢
          by_cases c1 : (read_file_content p.host p.disk o.value).1 = -1
          · rw [if_pos c1] at h0
            exact absurd h0 (exit_failure_ne _ _)
          · rw [if_neg c1] at h0 ⊢
            obtain ⟨nm, content, hnm, hop, _, hrd⟩ := read_file_content_ok c1
            rw [hrd] at h0 ⊢
            simp only [Option.getD_some] at h0 ⊢
            by_cases c5 : (write_blob p.host p.stdout (some label) (content ++ [0])
                content.length).rc = -1
            · rw [if_pos c5] at h0
              exact absurd h0 (exit_failure_ne _ _)
            · rw [if_neg c5]
              refine ⟨rfl, ?_⟩
              have hrec := (write_blob_record hout c5).2
              rw [List.take_left] at hrec
              rw [hnm]
              simp only [Option.getD_some, hop]
              exact hrec
        · unfold write_value at h0
          simp only [t1, t2, t3, t4, if_false] at h0
          exact absurd h0 (by decide)

/-- A `read` that exits with status 0 has freed nothing twice. -/
theorem read_value_ok_ub {o : Options} {p : Proc} (h0 : (read_value o p).status = 0) :
    (read_value o p).ub = false := by
  revert h0
  unfold read_value
  simp only
  repeat' split
  all_goals first
    | (intro _; rfl)
    | (intro h0; exact absurd h0 (exit_failure_ne _ _))

theorem expect_string_rc_cases (h : Host) (f : IFile) (label e : Option (List Byte)) :
    (expect_string h f label e).rc = 0 ∨ (expect_string h f label e).rc = -1 := by
  unfold expect_string
  simp only
  repeat' split
  all_goals first
    | (left; rfl)
    | (right; rfl)

/-- An `expect` that exits with status 0 has freed nothing twice. -/
theorem expect_value_ok_ub {o : Options} {p : Proc} (h0 : (expect_value o p).status = 0) :
    (expect_value o p).ub = false := by
  by_cases t3 : o.type = 3
  · unfold expect_value at h0 ⊢
    simp only [t3, show ¬ (3 : Nat) = 1 by decide, show ¬ (3 : Nat) = 2 by decide, if_false,
      if_true] at h0 ⊢
    by_cases c : (expect_string p.host p.stdin o.label o.value).rc = -1
    · rw [if_pos c] at h0
      exact absurd h0 (exit_failure_ne _ _)
    · rw [if_neg c]
      rcases expect_string_rc_cases p.host p.stdin o.label o.value with hz | hm
      · exact expect_string_ub_of_ok hz
      · exact absurd hm c
  · revert h0
    unfold expect_value
    simp only [t3, if_false]
    repeat' split
    all_goals first
      | (intro _; rfl)
      | (intro h0; exact absurd h0 (exit_failure_ne _ _))

/-- The call of `chain` at the end of `read` and `expect` frees nothing. -/
theorem chain_after_ub (o : Options) (e : Exit) :
    (if e.status = EXIT_SUCCESS ∧ o.chn = true then (⟨e.status, chain e.proc, e.ub⟩ : Exit)
      else e).ub = e.ub := by
  split <;> rfl

/-! ## Claims -/

/-- C1: for a label passed as a C string, `is_label_valid` returns 1 exactly
when the label has between 1 and 80 bytes and every byte is in `a`..`z` or is
`_`; otherwise it returns 0. -/
theorem C1_is_label_valid (label : List Byte) (hs : CString label) :
    (is_label_valid (some label) = 1 ↔
      (1 ≤ label.length ∧ label.length ≤ 80 ∧ ∀ b ∈ label, label_byte b))
    ∧ (is_label_valid (some label) ≠ 1 → is_label_valid (some label) = 0) := by
  refine ⟨is_label_valid_iff hs, ?_⟩
  intro h
  rcases is_label_valid_cases (some label) with h1 | h0
  · exact absurd h1 h
  · exact h0

theorem C1_is_label_valid_witness :
    CString (bytes "count") ∧ is_label_valid (some (bytes "count")) = 1 ∧
      (1 ≤ (bytes "count").length ∧ (bytes "count").length ≤ 80
        ∧ ∀ b ∈ bytes "count", label_byte b) :=
  ⟨by decide, by decide,
    (C1_is_label_valid (bytes "count") (by decide)).1.mp (by decide)⟩

/-- C2: for a valid label `L` and a 64-bit value `v`, on a stream whose
writes succeed (and with the locale calls succeeding) `write_unsigned` returns
0 and appends exactly `L`, a colon, the decimal text of `v` and a newline; the
decimal text has digits only, spells `v`, and has no leading zero other than
the single digit of 0. -/
theorem C2_write_unsigned (h : Host) (f : OFile) (L : List Byte) (v : Nat)
    (hs : CString L) (hL : is_label_valid (some L) = 1) (hv : v < 2 ^ 64)
    (hh : h.calls_ok) (hf : f.healthy) :
    (write_unsigned h f (some L) v).rc = 0 ∧
    (write_unsigned h f (some L) v).file.data = f.data ++ (L ++ [58] ++ utoa v ++ [10]) ∧
    is_decimal_of (utoa v) v := by
  obtain ⟨hrc, _, _, hfile⟩ :=
    write_callback_ok hh hL hf (fun g hg => unsigned_writer_ok v h hg)
  refine ⟨hrc, ?_, utoa_spec hv⟩
  unfold write_unsigned
  rw [hfile, cstr_eq_self hs]

theorem C2_write_unsigned_witness :
    (write_unsigned (host_ok (Locale.named 3)) ofile_empty (some (bytes "count")) 42).rc = 0 ∧
    (write_unsigned (host_ok (Locale.named 3)) ofile_empty (some (bytes "count")) 42).file.data
      = bytes "count:42\n" := by
  have hw := C2_write_unsigned (host_ok (Locale.named 3)) ofile_empty (bytes "count") 42
    (by decide) (by decide) (by decide) (by decide) (by decide)
  exact ⟨hw.1, hw.2.1.trans (by decide)⟩

/-- C3: unsigned round trip.  For a valid label `L` and a 64-bit value `v`,
`read_unsigned` with label `L` on the bytes `write_unsigned` produced returns 0
and stores exactly `v` (streams whose writes succeed, locale calls
succeeding). -/
theorem C3_unsigned_round_trip (h h2 : Host) (f : OFile) (L : List Byte) (v : Nat)
    (hs : CString L) (hL : is_label_valid (some L) = 1) (hv : v < 2 ^ 64)
    (hh : h.calls_ok) (hh2 : h2.calls_ok) (hf : f.healthy) :
    (write_unsigned h f (some L) v).rc = 0 ∧
    (read_unsigned h2 ((write_unsigned h f (some L) v).emitted f) (some L)).rc = 0 ∧
    (read_unsigned h2 ((write_unsigned h f (some L) v).emitted f) (some L)).value = some v := by
  obtain ⟨hrc, _, _, hfile⟩ :=
    write_callback_ok hh hL hf (fun g hg => unsigned_writer_ok v h hg)
  have hem : (write_unsigned h f (some L) v).emitted f = L ++ 58 :: (utoa v ++ 10 :: []) := by
    unfold write_unsigned
    rw [emitted_of_data _ f _ hfile, cstr_eq_self hs]
    simp
  have hrd := read_callback_ok hh2 hs hL (unsigned_reader_ok h2 hv [])
  refine ⟨hrc, ?_, ?_⟩
  · rw [hem]; unfold read_unsigned; rw [hrd]
  · rw [hem]; unfold read_unsigned; rw [hrd]

theorem C3_unsigned_round_trip_witness :
    (read_unsigned (host_ok Locale.C)
      ((write_unsigned (host_ok (Locale.named 3)) ofile_empty (some (bytes "count")) 42).emitted
        ofile_empty) (some (bytes "count"))).value = some 42 :=
  (C3_unsigned_round_trip (host_ok (Locale.named 3)) (host_ok Locale.C) ofile_empty
    (bytes "count") 42 (by decide) (by decide) (by decide) (by decide) (by decide)
    (by decide)).2.2


/-- C4 (fails on the empty blob): writing a blob of length 0 under a valid
label on a stream whose writes succeed returns -1 and leaves the record
without its newline; reading the grammatical empty record fails as well. -/
theorem C4_blob_round_trip_empty_fails :
    (write_blob (host_ok Locale.C) ofile_empty (some (bytes "data")) [] 0).rc = -1 ∧
    (write_blob (host_ok Locale.C) ofile_empty (some (bytes "data")) [] 0).file.data
      = bytes "data:0:" ∧
    (read_blob (host_ok Locale.C) (bytes "data:0:\n") (some (bytes "data"))).rc = -1 := by
  decide

/-- C5: UUID round trip.  For a valid label `L` and a 16-byte UUID `u`,
`read_uuid` with label `L` on the bytes `write_uuid` produced returns 0 and
stores the same 16 bytes (streams whose writes succeed, locale calls
succeeding). -/
theorem C5_uuid_round_trip (h h2 : Host) (f : OFile) (L u : List Byte)
    (hs : CString L) (hL : is_label_valid (some L) = 1) (hu : u.length = 16)
    (hh : h.calls_ok) (hh2 : h2.calls_ok) (hf : f.healthy) :
    (write_uuid h f (some L) u).rc = 0 ∧
    (read_uuid h2 ((write_uuid h f (some L) u).emitted f) (some L)).rc = 0 ∧
    (read_uuid h2 ((write_uuid h f (some L) u).emitted f) (some L)).value = some u := by
  obtain ⟨hrc, _, _, hfile⟩ :=
    write_callback_ok hh hL hf (fun g hg => uuid_writer_ok hu h hg)
  have hem : (write_uuid h f (some L) u).emitted f = L ++ 58 :: (uuid_fmt 0 u ++ 10 :: []) := by
    unfold write_uuid
    rw [emitted_of_data _ f _ hfile, cstr_eq_self hs]
    simp
  have hrd := read_callback_ok hh2 hs hL (uuid_reader_ok hu h2.in_c (10 :: []))
  refine ⟨hrc, ?_, ?_⟩
  · rw [hem]; unfold read_uuid; rw [hrd]
  · rw [hem]; unfold read_uuid; rw [hrd]

theorem C5_uuid_round_trip_witness :
    (read_uuid (host_ok Locale.C)
      ((write_uuid (host_ok Locale.C) ofile_empty (some (bytes "id")) uuid_example).emitted
        ofile_empty) (some (bytes "id"))).value = some uuid_example :=
  (C5_uuid_round_trip (host_ok Locale.C) (host_ok Locale.C) ofile_empty (bytes "id")
    uuid_example (by decide) (by decide) (by decide) (by decide) (by decide) (by decide)).2.2

/-- C6: string encoding is blob encoding.  For a valid label `L` and a NUL-free
text `s`, `write_string` is `write_blob` with the byte length of `s`; when it
returns 0 (stream writes and locale calls succeeding) the stream gained exactly
`L`, a colon, the decimal length, a colon, `s` and a newline, and `read_string`
on these bytes returns 0 with the buffer `s` followed by its terminator. -/
theorem C6_write_string_is_write_blob (h h2 : Host) (f : OFile) (L s : List Byte)
    (hsL : CString L) (hL : is_label_valid (some L) = 1) (hss : CString s)
    (hn : s.length < 2 ^ 64) (hh : h.calls_ok) (hf : f.healthy) (hh2 : h2.calls_ok)
    (hm : h2.malloc_ok ((s.length + 1) % 2 ^ 64) = true) :
    write_string h f (some L) s = write_blob h f (some L) s s.length ∧
    ((write_string h f (some L) s).rc = 0 →
      (write_string h f (some L) s).file.data
        = f.data ++ (L ++ [58] ++ (utoa s.length ++ [58] ++ s) ++ [10]) ∧
      is_decimal_of (utoa s.length) s.length ∧
      (read_string h2 ((write_string h f (some L) s).emitted f) (some L)).rc = 0 ∧
      (read_string h2 ((write_string h f (some L) s).emitted f) (some L)).value
        = some (some (s ++ [0]))) := by
  have heq : write_string h f (some L) s = write_blob h f (some L) s s.length := by
    unfold write_string
    rw [strlen_eq_length hss]
  refine ⟨heq, ?_⟩
  rw [heq]
  intro hrc
  by_cases hs0 : s = []
  · subst hs0
    have hbad := (write_blob_zero_fails (f := f) [] hh hL hf).1
    rw [List.length_nil] at hrc
    rw [hbad] at hrc
    exact absurd hrc (by decide)
  · obtain ⟨_, hdata, hread⟩ := string_round_trip_nonempty h h2 f L s hsL hL hs0 hn hh hh2 hf hm
    refine ⟨hdata, utoa_spec hn, ?_, ?_⟩
    · rw [hread]
    · rw [hread]

theorem C6_write_string_is_write_blob_witness :
    (write_string (host_ok Locale.C) ofile_empty (some (bytes "name")) (bytes "John")).file.data
      = bytes "name:4:John\n" ∧
    (read_string (host_ok Locale.C)
      ((write_string (host_ok Locale.C) ofile_empty (some (bytes "name")) (bytes "John")).emitted
        ofile_empty) (some (bytes "name"))).value = some (some (bytes "John" ++ [0])) := by
  have hw := (C6_write_string_is_write_blob (host_ok Locale.C) (host_ok Locale.C) ofile_empty
    (bytes "name") (bytes "John") (by decide) (by decide) (by decide) (by decide) (by decide)
    (by decide) (by decide) (by decide)).2 (by decide)
  exact ⟨hw.1.trans (by decide), hw.2.2.2⟩


/-- C7: for a valid label `L` and a 16-byte UUID `u`, on a stream whose writes
succeed (and with the locale calls succeeding) `write_uuid` returns 0 and
appends exactly `L`, a colon, the canonical text of `u` and a newline.  The
canonical text has 36 characters, a `-` at the positions 8, 13, 18 and 23, and
its other characters are lower-case hexadecimal digits that spell the 16
bytes in order. -/
theorem C7_write_uuid (h : Host) (f : OFile) (L u : List Byte)
    (hs : CString L) (hL : is_label_valid (some L) = 1) (hu : u.length = 16)
    (hh : h.calls_ok) (hf : f.healthy) :
    (write_uuid h f (some L) u).rc = 0 ∧
    (write_uuid h f (some L) u).file.data
      = f.data ++ (L ++ [58] ++ canonical_uuid_text u ++ [10]) ∧
    (canonical_uuid_text u).length = 36 ∧
    (canonical_uuid_text u)[8]? = some 45 ∧ (canonical_uuid_text u)[13]? = some 45 ∧
    (canonical_uuid_text u)[18]? = some 45 ∧ (canonical_uuid_text u)[23]? = some 45 ∧
    (∀ c ∈ (canonical_uuid_text u).filter (fun c => c != 45), lower_hex c) ∧
    hex_bytes ((canonical_uuid_text u).filter (fun c => c != 45)) = u := by
  obtain ⟨hrc, _, _, hfile⟩ :=
    write_callback_ok hh hL hf (fun g hg => uuid_writer_ok hu h hg)
  refine ⟨hrc, ?_, canonical_uuid_text_shape u hu⟩
  unfold write_uuid
  rw [hfile, cstr_eq_self hs, (uuid_fmt_16 u hu).2.2]

theorem C7_write_uuid_witness :
    (write_uuid (host_ok Locale.C) ofile_empty (some (bytes "id")) uuid_example).rc = 0 ∧
    (write_uuid (host_ok Locale.C) ofile_empty (some (bytes "id")) uuid_example).file.data
      = bytes "id:e4fa98a6-929a-4436-9f66-c38f9371db62\n" := by
  have hw := C7_write_uuid (host_ok Locale.C) ofile_empty (bytes "id") uuid_example
    (by decide) (by decide) (by decide) (by decide) (by decide)
  exact ⟨hw.1, hw.2.1.trans (by decide)⟩

/-- C8: `expect_unsigned` returns 0 exactly when `read_unsigned` on the same
stream and label returns 0 and the value it stored equals the expected value;
otherwise it returns -1.  On the stream `count:42` expecting 42 succeeds and
expecting 43 fails. -/
theorem C8_expect_unsigned (h : Host) (f : IFile) (label : Option (List Byte)) (x : Nat) :
    ((expect_unsigned h f label x).rc = 0 ↔
      ((read_unsigned h f label).rc = 0 ∧ (read_unsigned h f label).value = some x)) ∧
    ((expect_unsigned h f label x).rc ≠ 0 → (expect_unsigned h f label x).rc = -1) ∧
    (expect_unsigned (host_ok Locale.C) (bytes "count:42\n") (some (bytes "count")) 42).rc = 0 ∧
    (expect_unsigned (host_ok Locale.C) (bytes "count:42\n") (some (bytes "count")) 43).rc = -1 := by
  refine ⟨?_, ?_, by decide, by decide⟩
  · unfold expect_unsigned
    rcases read_callback_rc_cases h f label unsigned_reader with h0 | h1
    · have h0' : (read_unsigned h f label).rc = 0 := h0
      cases hv : (read_unsigned h f label).value with
      | none => simp [h0', hv]
      | some a =>
        by_cases hxa : x = a
        · simp [h0', hv, hxa]
        · have hax : ¬ a = x := fun e => hxa e.symm
          simp [h0', hv, hxa, hax]
    · have h1' : (read_unsigned h f label).rc = -1 := h1
      simp [h1']
  · intro hne
    rcases read_callback_rc_cases h f label unsigned_reader with h0 | h1
    · have h0' : (read_unsigned h f label).rc = 0 := h0
      unfold expect_unsigned at hne ⊢
      cases hv : (read_unsigned h f label).value with
      | none => simp [h0', hv]
      | some a =>
        by_cases hxa : x = a
        · simp [h0', hv, hxa] at hne
        · simp [h0', hv, hxa]
    · have h1' : (read_unsigned h f label).rc = -1 := h1
      unfold expect_unsigned
      simp [h1']

/-- C9 fails as stated: on a record whose payload is `ab`, NUL, `cde`,
`expect_string` with the expected text `ab` returns 0 although the decoded
payload is not the byte sequence `ab`.  And on the record `name:10:abcdef`,
whose payload is cut short, `read_string` returns -1 after `string_reader` has
freed the buffer, and `expect_string` does not just return -1: its cleanup
block frees the buffer a second time. -/
theorem C9_expect_string_counterexample :
    (expect_string (host_ok Locale.C) nul_stream (some (bytes "name")) (some (bytes "ab"))).rc = 0 ∧
    (read_string (host_ok Locale.C) nul_stream (some (bytes "name"))).rc = 0 ∧
    (read_string (host_ok Locale.C) nul_stream (some (bytes "name"))).value
      = some (some ([97, 98, 0, 99, 100, 101] ++ [0])) ∧
    ([97, 98, 0, 99, 100, 101] : List Byte) ≠ bytes "ab" ∧
    (read_string (host_ok Locale.C) (bytes "name:10:abcdef") (some (bytes "name"))).rc = -1 ∧
    read_string_ptr (host_ok Locale.C) (bytes "name:10:abcdef") (some (bytes "name"))
      = PtrState.freed ∧
    (expect_string (host_ok Locale.C) (bytes "name:10:abcdef") (some (bytes "name"))
      (some (bytes "abcdef"))).ub = true := by
  decide

/-- C9, amended.  `expect_string` frees the buffer a second time, with
undefined behaviour, exactly when `read_string` left the address of a buffer
that `string_reader` had already freed; this does not happen when
`read_string` returns 0.  On every other run, for an expected text `e` (a C
string), `expect_string` returns 0 exactly when `read_string` on the same
stream and label returns 0 and the decoded payload, cut at its first NUL byte,
is exactly `e`; otherwise it returns -1. -/
theorem C9_expect_string (h : Host) (f : IFile) (label : Option (List Byte)) (e : List Byte)
    (he : CString e) :
    ((expect_string h f label (some e)).ub = true ↔
      read_string_ptr h f label = PtrState.freed) ∧
    ((read_string h f label).rc = 0 → (expect_string h f label (some e)).ub = false) ∧
    ((expect_string h f label (some e)).ub = false →
      ((expect_string h f label (some e)).rc = 0 ↔
        ((read_string h f label).rc = 0 ∧
          ∃ payload, (read_string h f label).value = some (some (payload ++ [0]))
            ∧ cstr payload = e)) ∧
      ((expect_string h f label (some e)).rc ≠ 0 →
        (expect_string h f label (some e)).rc = -1)) := by
  refine ⟨?_, ?_, fun _ => ⟨?_, ?_⟩⟩
  · rw [expect_string_ub]
    exact decide_eq_true_iff
  · intro hr
    rw [expect_string_ub, read_string_ptr_live hr]
    rfl
  · rcases read_callback_cases h f label string_reader with
      h1 | ⟨l, body, v, rest, _, _, _, _, hcb, hrd⟩
    · have h1' : (read_string h f label).rc = -1 := h1
      unfold expect_string
      simp [h1']
    · obtain ⟨payload, hv⟩ := string_reader_ok_inv hcb
      have hrd' : read_string h f label = ⟨0, v, restore_locale h.in_c h.locale, rest⟩ := hrd
      have hcmp : strcmp e (payload ++ [0]) = 0 ↔ cstr payload = e := by
        rw [strcmp_eq_zero_iff, cstr_append_zero, cstr_eq_self he]
        exact eq_comm
      unfold expect_string
      simp only [hrd', hv]
      by_cases hc : strcmp e (payload ++ [0]) = 0
      · have hp := hcmp.mp hc
        simp [hc, hp]
      · have hp : ¬ cstr payload = e := fun hp => hc (hcmp.mpr hp)
        simp [hc, hp]
  · intro hne
    rcases expect_string_rc_cases h f label (some e) with h0 | h1
    · exact absurd h0 hne
    · exact h1

theorem C9_expect_string_witness :
    (expect_string (host_ok Locale.C) (bytes "name:4:John\n") (some (bytes "name"))
      (some (bytes "John"))).ub = false ∧
    (expect_string (host_ok Locale.C) (bytes "name:4:John\n") (some (bytes "name"))
      (some (bytes "John"))).rc = 0 ∧
    (expect_string (host_ok Locale.C) (bytes "name:4:John\n") (some (bytes "name"))
      (some (bytes "Jane"))).rc = -1 :=
  ⟨(C9_expect_string (host_ok Locale.C) (bytes "name:4:John\n") (some (bytes "name"))
      (bytes "John") (by decide)).2.1 (by decide),
    ((C9_expect_string (host_ok Locale.C) (bytes "name:4:John\n") (some (bytes "name"))
      (bytes "John") (by decide)).2.2 (by decide)).1.mpr
      ⟨by decide, bytes "John", by decide, by decide⟩,
    ((C9_expect_string (host_ok Locale.C) (bytes "name:4:John\n") (some (bytes "name"))
      (bytes "Jane") (by decide)).2.2 (by decide)).2 (by decide)⟩

/-- C10: for a 16-byte UUID `e`, `expect_uuid` returns 0 exactly when
`read_uuid` on the same stream and label returns 0 and the 16 bytes it stored
equal `e`; otherwise it returns -1. -/
theorem C10_expect_uuid (h : Host) (f : IFile) (label : Option (List Byte)) (e : List Byte)
    (he : e.length = 16) :
    ((expect_uuid h f label e).rc = 0 ↔
      ((read_uuid h f label).rc = 0 ∧ (read_uuid h f label).value = some e)) ∧
    ((expect_uuid h f label e).rc ≠ 0 → (expect_uuid h f label e).rc = -1) := by
  rcases read_callback_cases h f label uuid_reader with h1 | ⟨l, body, v, rest, _, _, _, _, hcb, hrd⟩
  · have h1' : (read_uuid h f label).rc = -1 := h1
    unfold expect_uuid
    simp [h1']
  · obtain ⟨a, hv, ha⟩ := uuid_reader_ok_inv hcb
    have hrd' : read_uuid h f label = ⟨0, v, restore_locale h.in_c h.locale, rest⟩ := hrd
    have hcmp := uuid_compare_eq_zero he ha
    unfold expect_uuid
    simp only [hrd', hv]
    by_cases hc : uuid_compare e a = 0
    · have hp : a = e := (hcmp.mp hc).symm
      rw [if_neg (not_not.mpr hc)]
      simp [hp]
    · have hp : ¬ a = e := fun hp => hc (hcmp.mpr hp.symm)
      rw [if_pos hc]
      simp [hp]

theorem C10_expect_uuid_witness :
    (expect_uuid (host_ok Locale.C) (bytes "id:e4fa98a6-929a-4436-9f66-c38f9371db62\n")
      (some (bytes "id")) uuid_example).rc = 0 :=
  (C10_expect_uuid (host_ok Locale.C) (bytes "id:e4fa98a6-929a-4436-9f66-c38f9371db62\n")
    (some (bytes "id")) uuid_example (by decide)).1.mpr ⟨by decide, by decide⟩

/-- C11: label mismatch.  For a valid label `L` and a stream whose first
`len(L)` bytes are not `L` (a shorter stream included), `read_unsigned`,
`read_uuid`, `read_string` and `read_blob` with label `L` return -1, and so do
`expect_unsigned`, `expect_uuid` and `expect_string` for every expected
value. -/
theorem C11_label_mismatch (h : Host) (f : IFile) (L : List Byte) (hs : CString L)
    (hL : is_label_valid (some L) = 1) (hf : f.take L.length ≠ L) :
    (read_unsigned h f (some L)).rc = -1 ∧ (read_uuid h f (some L)).rc = -1 ∧
    (read_string h f (some L)).rc = -1 ∧ (read_blob h f (some L)).rc = -1 ∧
    (∀ x, (expect_unsigned h f (some L) x).rc = -1) ∧
    (∀ e, (expect_uuid h f (some L) e).rc = -1) ∧
    (∀ e, (expect_string h f (some L) e).rc = -1) :=
  ⟨read_callback_label_mismatch h hs hL hf _, read_callback_label_mismatch h hs hL hf _,
    read_callback_label_mismatch h hs hL hf _, read_callback_label_mismatch h hs hL hf _,
    fun x => expect_unsigned_of_read_fails x (read_callback_label_mismatch h hs hL hf _),
    fun e => expect_uuid_of_read_fails e (read_callback_label_mismatch h hs hL hf _),
    fun e => expect_string_of_read_fails e (read_callback_label_mismatch h hs hL hf _)⟩

theorem C11_label_mismatch_witness :
    (bytes "Count:4\n").take (bytes "count").length ≠ bytes "count" ∧
    (expect_unsigned (host_ok Locale.C) (bytes "Count:4\n") (some (bytes "count")) 4).rc = -1 :=
  ⟨by decide, (C11_label_mismatch (host_ok Locale.C) (bytes "Count:4\n") (bytes "count")
    (by decide) (by decide) (by decide)).2.2.2.2.1 4⟩

/-- C12: framing rejection.  Every read operation is `read_callback` with its
decoder `cb`.  For a valid label `L`: on a stream where the byte after the
label is missing or is not a colon, the read returns -1, stores nothing, and
its result is the same whatever the decoder is (the decoder is not run); and
when the decoder returns 0 on what follows the colon but the next byte is
missing or is not a newline, the read returns -1 although the decoded value
was stored. -/
theorem C12_framing_rejection {α : Type} (h : Host) (L : List Byte) (hs : CString L)
    (hL : is_label_valid (some L) = 1) (cb : Host → IFile → Int × Option α × IFile) :
    (∀ tail : List Byte, (∀ c ∈ tail.head?, c ≠ 58) →
      (read_callback h (L ++ tail) (some L) cb).rc = -1 ∧
      (read_callback h (L ++ tail) (some L) cb).value = none ∧
      ∀ cb1 : Host → IFile → Int × Option α × IFile,
        read_callback h (L ++ tail) (some L) cb1 = read_callback h (L ++ tail) (some L) cb) ∧
    (∀ (body after : List Byte) (v : Option α), cb h.in_c body = (0, v, after) →
      (∀ c ∈ after.head?, c ≠ 10) →
      (read_callback h (L ++ 58 :: body) (some L) cb).rc = -1 ∧
      (h.calls_ok → (read_callback h (L ++ 58 :: body) (some L) cb).value = v)) := by
  constructor
  · intro tail ht
    have hcb := read_callback_no_colon h hs hL ht cb
    refine ⟨?_, ?_, ?_⟩
    · rw [hcb]; split <;> [split; skip] <;> rfl
    · rw [hcb]; split <;> [split; skip] <;> rfl
    · intro cb1
      rw [hcb, read_callback_no_colon h hs hL ht cb1]
  · intro body after v hcb ha
    exact read_callback_no_newline h hs hL hcb ha

theorem C12_framing_rejection_witness :
    (read_callback (host_ok Locale.C) (bytes "count" ++ bytes "42\n") (some (bytes "count"))
      unsigned_reader).rc = -1 ∧
    (read_callback (host_ok Locale.C) (bytes "count" ++ 58 :: bytes "42") (some (bytes "count"))
      unsigned_reader).rc = -1 :=
  ⟨((C12_framing_rejection (host_ok Locale.C) (bytes "count") (by decide) (by decide)
      unsigned_reader).1 (bytes "42\n") (by decide)).1,
   ((C12_framing_rejection (host_ok Locale.C) (bytes "count") (by decide) (by decide)
      unsigned_reader).2 (bytes "42") [] (some 42) (by decide) (by decide)).1⟩

/-- C14 (fails on the claim's own record): on the stream
`count:18446744073709551616\n`, whose number is `2 ^ 64`, `read_unsigned`
returns 0 and stores the saturated value `2 ^ 64 - 1`, and `expect_unsigned`
with the expected value `2 ^ 64 - 1` returns 0. -/
theorem C14_unsigned_overflow_accepted :
    digits_value (bytes "18446744073709551616") = 2 ^ 64 ∧
    (read_unsigned (host_ok Locale.C) overflow_stream (some (bytes "count"))).rc = 0 ∧
    (read_unsigned (host_ok Locale.C) overflow_stream (some (bytes "count"))).value
      = some (2 ^ 64 - 1) ∧
    (expect_unsigned (host_ok Locale.C) overflow_stream (some (bytes "count")) (2 ^ 64 - 1)).rc
      = 0 := by
  decide

/-- C15 fails as stated: the records `count: 42\n`, `count:+42\n` and
`count:-1\n` are read with return code 0 (as 42, 42 and `2 ^ 64 - 1`), and so
is `count:\n7\n`, whose first line has an empty payload. -/
theorem C15_unsigned_grammar_counterexample :
    (read_unsigned (host_ok Locale.C) (bytes "count: 42\n") (some (bytes "count"))).rc = 0 ∧
    (read_unsigned (host_ok Locale.C) (bytes "count: 42\n") (some (bytes "count"))).value
      = some 42 ∧
    (read_unsigned (host_ok Locale.C) (bytes "count:+42\n") (some (bytes "count"))).rc = 0 ∧
    (read_unsigned (host_ok Locale.C) (bytes "count:+42\n") (some (bytes "count"))).value
      = some 42 ∧
    (read_unsigned (host_ok Locale.C) (bytes "count:-1\n") (some (bytes "count"))).rc = 0 ∧
    (read_unsigned (host_ok Locale.C) (bytes "count:-1\n") (some (bytes "count"))).value
      = some (2 ^ 64 - 1) ∧
    (read_unsigned (host_ok Locale.C) (bytes "count:\n7\n") (some (bytes "count"))).rc = 0 := by
  decide

/-- C15, amended: for a valid label `L`, `read_unsigned` returns 0 only if the
stream begins with `L`, a colon, optional white space, an optional sign `+` or
`-`, one or more ASCII digits and a newline; when the locale calls succeed it
returns 0 on every such stream; on every other stream it returns -1. -/
theorem C15_unsigned_grammar (h : Host) (f : IFile) (L : List Byte) (hs : CString L)
    (hL : is_label_valid (some L) = 1) :
    ((read_unsigned h f (some L)).rc = 0 ↔
      h.calls_ok ∧ ∃ ws sg ds rest, f = L ++ 58 :: (ws ++ sg ++ ds ++ 10 :: rest) ∧
        (∀ c ∈ ws, isspace c = true) ∧ is_sign sg ∧ ds ≠ [] ∧ (∀ d ∈ ds, isdigit d = true)) ∧
    ((read_unsigned h f (some L)).rc ≠ 0 → (read_unsigned h f (some L)).rc = -1) := by
  refine ⟨⟨?_, ?_⟩, ?_⟩
  · intro hrc
    obtain ⟨hh, ws, sg, ds, rest, hf, hws, hsg, hne, hds, _⟩ :=
      (read_unsigned_ok_iff h f L hs hL).mp hrc
    exact ⟨hh, ws, sg, ds, rest, hf, hws, hsg, hne, hds⟩
  · rintro ⟨hh, ws, sg, ds, rest, hf, hws, hsg, hne, hds⟩
    subst hf
    have hres : read_unsigned h (L ++ 58 :: (ws ++ sg ++ ds ++ 10 :: rest)) (some L)
        = ⟨0, some (strtoull (decide (sg = [45])) ds), restore_locale h.in_c h.locale, rest⟩ :=
      read_callback_ok hh hs hL (unsigned_reader_signed h hws hsg hne hds rest)
    rw [hres]
  · intro hne
    rcases read_callback_rc_cases h f (some L) unsigned_reader with h0 | h1
    · exact absurd h0 hne
    · exact h1

theorem C15_unsigned_grammar_witness :
    CString (bytes "count") ∧ is_label_valid (some (bytes "count")) = 1 ∧
    (read_unsigned (host_ok Locale.C) (bytes "count:\t-42\nrest") (some (bytes "count"))).rc = 0 ∧
    (read_unsigned (host_ok Locale.C) (bytes "count:x42\n") (some (bytes "count"))).rc = -1 :=
  ⟨by decide, by decide,
    (C15_unsigned_grammar (host_ok Locale.C) (bytes "count:\t-42\nrest") (bytes "count")
      (by decide) (by decide)).1.mpr
      ⟨by decide, [9], [45], bytes "42", bytes "rest", by decide, by decide, by decide,
        by decide, by decide⟩,
    (C15_unsigned_grammar (host_ok Locale.C) (bytes "count:x42\n") (bytes "count")
      (by decide) (by decide)).2 (by decide)⟩

/-- C17 fails as stated: the record of the UUID of the examples spelled with
upper-case hexadecimal digits is read with return code 0, and the 16 bytes of
that UUID are stored. -/
theorem C17_uuid_grammar_counterexample :
    (read_uuid (host_ok Locale.C) upper_uuid_stream (some (bytes "id"))).rc = 0 ∧
    (read_uuid (host_ok Locale.C) upper_uuid_stream (some (bytes "id"))).value
      = some uuid_example ∧
    upper_uuid_stream[3]? = some 69 ∧ ¬ lower_hex 69 := by
  decide

/-- C17, amended: for a valid label `L`, `read_uuid` returns 0 only if the
stream begins with `L`, a colon, exactly 36 payload bytes that are hexadecimal
digits of either case in groups of 8, 4, 4, 4 and 12 separated by `-` at the
positions 8, 13, 18 and 23, and a newline; when the locale calls succeed it
returns 0 on every such stream; on every other stream it returns -1. -/
theorem C17_uuid_grammar (h : Host) (f : IFile) (L : List Byte) (hs : CString L)
    (hL : is_label_valid (some L) = 1) :
    ((read_uuid h f (some L)).rc = 0 ↔
      h.calls_ok ∧ ∃ t rest, f = L ++ 58 :: (t ++ 10 :: rest) ∧ uuid_text_ok t) ∧
    ((read_uuid h f (some L)).rc ≠ 0 → (read_uuid h f (some L)).rc = -1) := by
  refine ⟨⟨?_, ?_⟩, ?_⟩
  · intro hrc
    obtain ⟨l, body, v, rest, hlab, hh, hE, hbody, hcb, _⟩ := read_callback_ok_inv hrc
    cases hlab
    have hf := expect_label_inv hs hL hE
    rw [hbody] at hf
    obtain ⟨t, hsplit, ht⟩ := uuid_reader_grammar hcb
    exact ⟨hh, t, rest, by rw [hf, hsplit], ht⟩
  · rintro ⟨hh, t, rest, hf, ht⟩
    subst hf
    have hres : read_uuid h (L ++ 58 :: (t ++ 10 :: rest)) (some L)
        = ⟨0, some (hex_bytes (t.filter (fun c => c != 45))), restore_locale h.in_c h.locale,
            rest⟩ :=
      read_callback_ok hh hs hL (uuid_reader_text ht h.in_c (10 :: rest))
    rw [hres]
  · intro hne
    rcases read_callback_rc_cases h f (some L) uuid_reader with h0 | h1
    · exact absurd h0 hne
    · exact h1

theorem C17_uuid_grammar_witness :
    CString (bytes "id") ∧ is_label_valid (some (bytes "id")) = 1 ∧
    uuid_text_ok (bytes "e4fa98a6-929a-4436-9f66-c38f9371db62") ∧
    (read_uuid (host_ok Locale.C) (bytes "id" ++ 58 ::
      (bytes "e4fa98a6-929a-4436-9f66-c38f9371db62" ++ 10 :: bytes "x")) (some (bytes "id"))).rc
      = 0 ∧
    (read_uuid (host_ok Locale.C) (bytes "id:e4fa98a6929a-4436-9f66-c38f9371db62\n")
      (some (bytes "id"))).rc = -1 :=
  ⟨by decide, by decide, by decide,
    (C17_uuid_grammar (host_ok Locale.C) _ (bytes "id") (by decide) (by decide)).1.mpr
      ⟨by decide, bytes "e4fa98a6-929a-4436-9f66-c38f9371db62", bytes "x", rfl, by decide⟩,
    (C17_uuid_grammar (host_ok Locale.C) (bytes "id:e4fa98a6929a-4436-9f66-c38f9371db62\n")
      (bytes "id") (by decide) (by decide)).2 (by decide)⟩

/-- C19: locale invariance.  For any two initial process locales `l1` and
`l2` of an otherwise equal process state, `write_unsigned` with the same
label and value returns the same code and appends the same bytes to the same
stream, and `read_unsigned` on the same input returns the same code, stores
the same value and consumes the same bytes. -/
theorem C19_locale_invariance (h : Host) (l1 l2 : Locale) (L : List Byte) (v : Nat) (f : OFile)
    (g : IFile) :
    (write_unsigned (h.with_locale l1) f (some L) v).rc
      = (write_unsigned (h.with_locale l2) f (some L) v).rc ∧
    (write_unsigned (h.with_locale l1) f (some L) v).emitted f
      = (write_unsigned (h.with_locale l2) f (some L) v).emitted f ∧
    (read_unsigned (h.with_locale l1) g (some L)).rc
      = (read_unsigned (h.with_locale l2) g (some L)).rc ∧
    (read_unsigned (h.with_locale l1) g (some L)).value
      = (read_unsigned (h.with_locale l2) g (some L)).value ∧
    (read_unsigned (h.with_locale l1) g (some L)).file
      = (read_unsigned (h.with_locale l2) g (some L)).file := by
  have w1 := write_callback_frame h f (some L) (unsigned_writer v) l1
  have w2 := write_callback_frame h f (some L) (unsigned_writer v) l2
  have r1 := read_callback_frame h g (some L) unsigned_reader l1
  have r2 := read_callback_frame h g (some L) unsigned_reader l2
  refine ⟨?_, ?_, ?_, ?_, ?_⟩
  · exact w1.2.1.trans w2.2.1.symm
  · unfold WResult.emitted
    have : (write_unsigned (h.with_locale l1) f (some L) v).file
        = (write_unsigned (h.with_locale l2) f (some L) v).file := w1.2.2.trans w2.2.2.symm
    rw [this]
  · exact r1.2.1.trans r2.2.1.symm
  · exact r1.2.2.1.trans r2.2.2.1.symm
  · exact r1.2.2.2.trans r2.2.2.2.symm

/-- C20 (fails when the header write fails): on a stream whose first write
call, the one of the header, fails and whose later write calls succeed,
`write_unsigned` and `write_string` return 0, and the record on the stream has
no label and no colon. -/
theorem C20_header_failure_unreported :
    (fprintf header_fail_file (bytes "count:")).1 < 0 ∧
    (write_unsigned (host_ok Locale.C) header_fail_file (some (bytes "count")) 42).rc = 0 ∧
    (write_unsigned (host_ok Locale.C) header_fail_file (some (bytes "count")) 42).file.data
      = bytes "42\n" ∧
    (write_string (host_ok Locale.C) header_fail_file (some (bytes "name")) (bytes "John")).rc
      = 0 ∧
    (write_string (host_ok Locale.C) header_fail_file (some (bytes "name")) (bytes "John")).file.data
      = bytes "4:John\n" := by
  decide

/-- C21: the label grammar is enforced on both paths before any stream I/O.
For every label that `is_label_valid` rejects (a null label included), every
`write_*` operation returns -1 and leaves the output stream as it was, and
every `read_*` and `expect_*` operation returns -1 and leaves the input stream
as it was. -/
theorem C21_invalid_label_rejected (h : Host) (out : OFile) (inp : IFile)
    (label : Option (List Byte)) (hbad : is_label_valid label = 0) :
    (∀ v, (write_unsigned h out label v).rc = -1 ∧ (write_unsigned h out label v).file = out) ∧
    (∀ u, (write_uuid h out label u).rc = -1 ∧ (write_uuid h out label u).file = out) ∧
    (∀ b n, (write_blob h out label b n).rc = -1 ∧ (write_blob h out label b n).file = out) ∧
    (∀ s, (write_string h out label s).rc = -1 ∧ (write_string h out label s).file = out) ∧
    ((read_unsigned h inp label).rc = -1 ∧ (read_unsigned h inp label).file = inp) ∧
    ((read_uuid h inp label).rc = -1 ∧ (read_uuid h inp label).file = inp) ∧
    ((read_string h inp label).rc = -1 ∧ (read_string h inp label).file = inp) ∧
    ((read_blob h inp label).rc = -1 ∧ (read_blob h inp label).file = inp) ∧
    (∀ x, (expect_unsigned h inp label x).rc = -1 ∧ (expect_unsigned h inp label x).file = inp) ∧
    (∀ e, (expect_uuid h inp label e).rc = -1 ∧ (expect_uuid h inp label e).file = inp) ∧
    (∀ e, (expect_string h inp label e).rc = -1 ∧ (expect_string h inp label e).file = inp) := by
  refine ⟨fun v => ?_, fun u => ?_, fun b n => ?_, fun s => ?_, ?_, ?_, ?_, ?_,
    expect_unsigned_invalid h inp hbad, expect_uuid_invalid h inp hbad,
    expect_string_invalid h inp hbad⟩
  · unfold write_unsigned
    rw [write_callback_invalid h out hbad]
    exact ⟨rfl, rfl⟩
  · unfold write_uuid
    rw [write_callback_invalid h out hbad]
    exact ⟨rfl, rfl⟩
  · unfold write_blob
    rw [write_callback_invalid h out hbad]
    exact ⟨rfl, rfl⟩
  · unfold write_string write_blob
    rw [write_callback_invalid h out hbad]
    exact ⟨rfl, rfl⟩
  · exact ⟨(read_callback_invalid h inp hbad unsigned_reader).1,
      (read_callback_invalid h inp hbad unsigned_reader).2.2⟩
  · exact ⟨(read_callback_invalid h inp hbad uuid_reader).1,
      (read_callback_invalid h inp hbad uuid_reader).2.2⟩
  · exact ⟨(read_callback_invalid h inp hbad string_reader).1,
      (read_callback_invalid h inp hbad string_reader).2.2⟩
  · exact ⟨(read_callback_invalid h inp hbad blob_reader).1,
      (read_callback_invalid h inp hbad blob_reader).2.2⟩

theorem C21_invalid_label_rejected_witness :
    is_label_valid (some (bytes "Count")) = 0 ∧
    (write_unsigned (host_ok Locale.C) ofile_empty (some (bytes "Count")) 4).file = ofile_empty ∧
    (expect_unsigned (host_ok Locale.C) (bytes "Count:4\n") (some (bytes "Count")) 4).rc = -1 ∧
    (expect_unsigned (host_ok Locale.C) (bytes "Count:4\n") (some (bytes "Count")) 4).file
      = bytes "Count:4\n" :=
  ⟨by decide,
    ((C21_invalid_label_rejected (host_ok Locale.C) ofile_empty (bytes "Count:4\n")
      (some (bytes "Count")) (by decide)).1 4).2,
    ((C21_invalid_label_rejected (host_ok Locale.C) ofile_empty (bytes "Count:4\n")
      (some (bytes "Count")) (by decide)).2.2.2.2.2.2.2.2.1 4).1,
    ((C21_invalid_label_rejected (host_ok Locale.C) ofile_empty (bytes "Count:4\n")
      (some (bytes "Count")) (by decide)).2.2.2.2.2.2.2.2.1 4).2⟩

/-- C22: the length prefix is authoritative.  For a valid label `L`, a payload
`p` of `n >= 1` arbitrary bytes and a suffix `r`, `read_blob` on the stream
`L`, colon, decimal text of `n`, colon, `p`, newline, `r` returns 0 with the
size `n` and the data `p`, and leaves exactly `r` unread (locale calls and
allocation succeeding). -/
theorem C22_length_prefix_authoritative (h : Host) (L p r : List Byte) (hs : CString L)
    (hL : is_label_valid (some L) = 1) (hp : p ≠ []) (hn : p.length < 2 ^ 64)
    (hh : h.calls_ok) (hm : h.malloc_ok p.length = true) :
    (read_blob h (L ++ 58 :: (utoa p.length ++ 58 :: (p ++ 10 :: r))) (some L)).rc = 0 ∧
    (read_blob h (L ++ 58 :: (utoa p.length ++ 58 :: (p ++ 10 :: r))) (some L)).value
      = some ⟨some p, p.length⟩ ∧
    (read_blob h (L ++ 58 :: (utoa p.length ++ 58 :: (p ++ 10 :: r))) (some L)).file = r := by
  have hres : read_blob h (L ++ 58 :: (utoa p.length ++ 58 :: (p ++ 10 :: r))) (some L)
      = ⟨0, some ⟨some p, p.length⟩, restore_locale h.in_c h.locale, r⟩ :=
    read_callback_ok hh hs hL (blob_reader_ok h hp hn hm r)
  rw [hres]
  exact ⟨rfl, rfl, rfl⟩

theorem C22_length_prefix_authoritative_witness :
    utoa delimiter_payload.length = bytes "4" ∧
    (read_blob (host_ok Locale.C)
      (bytes "data" ++ 58 :: (utoa delimiter_payload.length ++ 58 ::
        (delimiter_payload ++ 10 :: bytes "next:1\n"))) (some (bytes "data"))).value
      = some ⟨some delimiter_payload, 4⟩ ∧
    (read_blob (host_ok Locale.C)
      (bytes "data" ++ 58 :: (utoa delimiter_payload.length ++ 58 ::
        (delimiter_payload ++ 10 :: bytes "next:1\n"))) (some (bytes "data"))).file
      = bytes "next:1\n" :=
  ⟨by decide,
    (C22_length_prefix_authoritative (host_ok Locale.C) (bytes "data") delimiter_payload
      (bytes "next:1\n") (by decide) (by decide) (by decide) (by decide) (by decide) rfl).2.1,
    (C22_length_prefix_authoritative (host_ok Locale.C) (bytes "data") delimiter_payload
      (bytes "next:1\n") (by decide) (by decide) (by decide) (by decide) (by decide) rfl).2.2⟩

/-- C23 (fails on the record of length 0): on the stream `name:0:\n`,
`read_blob` and `read_string` return -1, each after its reader has allocated
and freed the buffer, and `expect_string` with the empty expected text does not
succeed: the value it computes is -1, and its cleanup block frees the buffer a
second time. -/
theorem C23_zero_length_unreadable :
    (read_blob (host_ok Locale.C) (bytes "name:0:\n") (some (bytes "name"))).rc = -1 ∧
    (read_string (host_ok Locale.C) (bytes "name:0:\n") (some (bytes "name"))).rc = -1 ∧
    (expect_string (host_ok Locale.C) (bytes "name:0:\n") (some (bytes "name")) (some [])).rc
      = -1 ∧
    (expect_string (host_ok Locale.C) (bytes "name:0:\n") (some (bytes "name")) (some [0])).rc
      = -1 ∧
    read_blob_ptr (host_ok Locale.C) (bytes "name:0:\n") (some (bytes "name")) = PtrState.freed ∧
    read_string_ptr (host_ok Locale.C) (bytes "name:0:\n") (some (bytes "name"))
      = PtrState.freed ∧
    (expect_string (host_ok Locale.C) (bytes "name:0:\n") (some (bytes "name")) (some [])).ub
      = true ∧
    (expect_string (host_ok Locale.C) (bytes "name:0:\n") (some (bytes "name")) (some [0])).ub
      = true := by
  decide

/-- C24: writes are incremental and abort at the first failing step.  For a
valid label `L` (locale calls succeeding), when the write of the header
succeeds and the payload encoder fails, each `write_*` operation returns -1,
makes no further write call (the stream is left as the encoder left it, so no
newline is emitted), and the stream holds what it held before, `L`, a colon
and a prefix of the payload text. -/
theorem C24_write_aborts (h : Host) (f : OFile) (L : List Byte) (hs : CString L)
    (hL : is_label_valid (some L) = 1) (hh : h.calls_ok)
    (hhead : 0 ≤ (fprintf f (L ++ [58])).1) :
    (∀ v, (unsigned_writer v h.in_c (fprintf f (L ++ [58])).2).1 = -1 →
      (write_unsigned h f (some L) v).rc = -1 ∧
      (write_unsigned h f (some L) v).file = (unsigned_writer v h.in_c (fprintf f (L ++ [58])).2).2 ∧
      ∃ pre, pre <+: utoa v ∧
        (write_unsigned h f (some L) v).file.data = f.data ++ (L ++ [58] ++ pre)) ∧
    (∀ u, (uuid_writer u h.in_c (fprintf f (L ++ [58])).2).1 = -1 →
      (write_uuid h f (some L) u).rc = -1 ∧
      (write_uuid h f (some L) u).file = (uuid_writer u h.in_c (fprintf f (L ++ [58])).2).2 ∧
      ∃ pre, pre <+: uuid_fmt 0 (u.take 16) ∧
        (write_uuid h f (some L) u).file.data = f.data ++ (L ++ [58] ++ pre)) ∧
    (∀ b n, (blob_writer b n h.in_c (fprintf f (L ++ [58])).2).1 = -1 →
      (write_blob h f (some L) b n).rc = -1 ∧
      (write_blob h f (some L) b n).file = (blob_writer b n h.in_c (fprintf f (L ++ [58])).2).2 ∧
      ∃ pre, pre <+: utoa n ++ 58 :: b.take n ∧
        (write_blob h f (some L) b n).file.data = f.data ++ (L ++ [58] ++ pre)) ∧
    (∀ s, (blob_writer s (strlen s) h.in_c (fprintf f (L ++ [58])).2).1 = -1 →
      (write_string h f (some L) s).rc = -1 ∧
      (write_string h f (some L) s).file
        = (blob_writer s (strlen s) h.in_c (fprintf f (L ++ [58])).2).2 ∧
      ∃ pre, pre <+: utoa (strlen s) ++ 58 :: s.take (strlen s) ∧
        (write_string h f (some L) s).file.data = f.data ++ (L ++ [58] ++ pre)) := by
  refine ⟨fun v hv => ?_, fun u hu => ?_, fun b n hb => ?_, fun s hb => ?_⟩
  · obtain ⟨hrc, hfile, hd⟩ := write_callback_aborts hs hL hh hhead hv
    obtain ⟨pre, hpre, hdata⟩ := unsigned_writer_fails hv
    refine ⟨hrc, hfile, pre, hpre, ?_⟩
    unfold write_unsigned
    rw [hfile, hdata, hd]
    simp
  · obtain ⟨hrc, hfile, hd⟩ := write_callback_aborts hs hL hh hhead hu
    obtain ⟨pre, hpre, hdata⟩ := uuid_writer_fails hu
    refine ⟨hrc, hfile, pre, hpre, ?_⟩
    unfold write_uuid
    rw [hfile, hdata, hd]
    simp
  · obtain ⟨hrc, hfile, hd⟩ := write_callback_aborts hs hL hh hhead hb
    obtain ⟨pre, hpre, hdata⟩ := blob_writer_fails hb
    refine ⟨hrc, hfile, pre, hpre, ?_⟩
    unfold write_blob
    rw [hfile, hdata, hd]
    simp
  · obtain ⟨hrc, hfile, hd⟩ := write_callback_aborts hs hL hh hhead hb
    obtain ⟨pre, hpre, hdata⟩ := blob_writer_fails hb
    refine ⟨hrc, hfile, pre, hpre, ?_⟩
    unfold write_string write_blob
    rw [hfile, hdata, hd]
    simp

theorem C24_write_aborts_witness :
    (write_unsigned (host_ok Locale.C) payload_fail_file (some (bytes "count")) 42).rc = -1 ∧
    (write_unsigned (host_ok Locale.C) payload_fail_file (some (bytes "count")) 42).file.data
      = bytes "count:4" ∧
    (write_blob (host_ok Locale.C) blob_fail_file (some (bytes "name")) (bytes "John") 4).rc = -1 ∧
    (write_blob (host_ok Locale.C) blob_fail_file (some (bytes "name")) (bytes "John") 4).file.data
      = bytes "name:4:Jo" := by
  have hu := (C24_write_aborts (host_ok Locale.C) payload_fail_file (bytes "count") (by decide)
    (by decide) (by decide) (by decide)).1 42 (by decide)
  have hb := (C24_write_aborts (host_ok Locale.C) blob_fail_file (bytes "name") (by decide)
    (by decide) (by decide) (by decide)).2.2.1 (bytes "John") 4 (by decide)
  exact ⟨hu.1, hu.2.1 ▸ (by decide), hb.1, hb.2.1 ▸ (by decide)⟩

/-- C26: records compose sequentially.  On a stream whose writes succeed (locale
calls and allocation succeeding), for a valid label `L`, every value for which
the `write_*` operation returns 0 and every suffix `r`: the matching `read_*`
on the written bytes followed by `r` returns 0, stores the value and leaves
exactly `r` unread.  This holds for unsigned values, UUIDs, strings and
blobs. -/
theorem C26_records_compose (h h2 : Host) (f : OFile) (L r : List Byte) (hs : CString L)
    (hL : is_label_valid (some L) = 1) (hh : h.calls_ok) (hh2 : h2.calls_ok) (hf : f.healthy)
    (hm : ∀ n, h2.malloc_ok n = true) :
    (∀ v, v < 2 ^ 64 → (write_unsigned h f (some L) v).rc = 0 →
      read_unsigned h2 ((write_unsigned h f (some L) v).emitted f ++ r) (some L)
        = ⟨0, some v, restore_locale h2.in_c h2.locale, r⟩) ∧
    (∀ u, u.length = 16 → (write_uuid h f (some L) u).rc = 0 →
      read_uuid h2 ((write_uuid h f (some L) u).emitted f ++ r) (some L)
        = ⟨0, some u, restore_locale h2.in_c h2.locale, r⟩) ∧
    (∀ s, CString s → s.length < 2 ^ 64 → (write_string h f (some L) s).rc = 0 →
      read_string h2 ((write_string h f (some L) s).emitted f ++ r) (some L)
        = ⟨0, some (some (s ++ [0])), restore_locale h2.in_c h2.locale, r⟩) ∧
    (∀ b, b.length < 2 ^ 64 → (write_blob h f (some L) b b.length).rc = 0 →
      read_blob h2 ((write_blob h f (some L) b b.length).emitted f ++ r) (some L)
        = ⟨0, some ⟨some b, b.length⟩, restore_locale h2.in_c h2.locale, r⟩) := by
  have hblob : ∀ b : List Byte, (write_blob h f (some L) b b.length).rc = 0 → b ≠ [] := by
    intro b hrc hb
    subst hb
    have hbad := (@write_blob_zero_fails h f L [] hh hL hf).1
    rw [List.length_nil] at hrc
    rw [hbad] at hrc
    exact absurd hrc (by decide)
  have hem : ∀ b : List Byte, b ≠ [] →
      (write_blob h f (some L) b b.length).emitted f ++ r
        = L ++ 58 :: ((utoa b.length ++ [58] ++ b) ++ 10 :: r) := by
    intro b hb
    have hsz : b.length ≠ 0 := fun h0 => hb (List.length_eq_zero.mp h0)
    have := write_callback_emitted hh hs hL hf (fun g hg => blob_writer_ok b hsz h hg) r
    rw [List.take_length] at this
    exact this
  refine ⟨fun v hv _ => ?_, fun u hu _ => ?_, fun s hss hn hrc => ?_, fun b hn hrc => ?_⟩
  · unfold write_unsigned
    rw [write_callback_emitted hh hs hL hf (fun g hg => unsigned_writer_ok v h hg) r]
    exact read_callback_ok hh2 hs hL (unsigned_reader_ok h2 hv r)
  · unfold write_uuid
    rw [write_callback_emitted hh hs hL hf (fun g hg => uuid_writer_ok hu h hg) r]
    exact read_callback_ok hh2 hs hL (uuid_reader_ok hu h2.in_c (10 :: r))
  · have heq : write_string h f (some L) s = write_blob h f (some L) s s.length := by
      unfold write_string
      rw [strlen_eq_length hss]
    rw [heq] at hrc ⊢
    have hs0 := hblob s hrc
    rw [hem s hs0]
    have := read_callback_ok hh2 hs hL (string_reader_ok h2 hs0 hn (hm _) r)
    simpa using this
  · have hb0 := hblob b hrc
    rw [hem b hb0]
    have := read_callback_ok hh2 hs hL (blob_reader_ok h2 hb0 hn (hm _) r)
    simpa using this

theorem C26_records_compose_witness :
    (write_unsigned (host_ok Locale.C) ofile_empty (some (bytes "count")) 42).emitted ofile_empty
      ++ bytes "name:4:John\n" = bytes "count:42\nname:4:John\n" ∧
    read_unsigned (host_ok Locale.C)
      ((write_unsigned (host_ok Locale.C) ofile_empty (some (bytes "count")) 42).emitted ofile_empty
        ++ bytes "name:4:John\n") (some (bytes "count"))
      = ⟨0, some 42, restore_locale (host_ok Locale.C).in_c (host_ok Locale.C).locale,
          bytes "name:4:John\n"⟩ ∧
    read_string (host_ok Locale.C)
      ((write_string (host_ok Locale.C) ofile_empty (some (bytes "name")) (bytes "John")).emitted
        ofile_empty ++ bytes "count:42\n") (some (bytes "name"))
      = ⟨0, some (some (bytes "John" ++ [0])),
          restore_locale (host_ok Locale.C).in_c (host_ok Locale.C).locale, bytes "count:42\n"⟩ :=
  ⟨by decide,
    (C26_records_compose (host_ok Locale.C) (host_ok Locale.C) ofile_empty (bytes "count")
      (bytes "name:4:John\n") (by decide) (by decide) (by decide) (by decide) (by decide)
      (fun _ => rfl)).1 42 (by decide) (by decide),
    (C26_records_compose (host_ok Locale.C) (host_ok Locale.C) ofile_empty (bytes "name")
      (bytes "count:42\n") (by decide) (by decide) (by decide) (by decide) (by decide)
      (fun _ => rfl)).2.2.1 (bytes "John") (by decide) (by decide) (by decide)⟩

/-- C27: blob expectation of the command `expect`.  When the arguments select
the blob type, the record was decoded from standard input and the expected
bytes were loaded from the file (and the output is not written or its writes
succeed), the exit status is 0 exactly when the decoded size equals the
expected size and the two byte sequences are equal over that many bytes; when
the sizes differ the command fails whatever the bytes are; a status that is
not 0 is the failure status 1. -/
theorem C27_expect_blob (argv : List (List Byte)) (p : Proc) (o : Options)
    (hargs : expect_args argv options_init = some o) (htype : o.type = 4)
    (hb : (read_blob p.host p.stdin o.label).rc = 0)
    (hf : (read_file_content (read_blob p.host p.stdin o.label).host p.disk o.value).1 = 0)
    (hq : o.quiet = true ∨ p.stdout.healthy) :
    ∃ actual expected,
      (read_blob p.host p.stdin o.label).value = some ⟨some actual, actual.length⟩ ∧
      read_file_content (read_blob p.host p.stdin o.label).host p.disk o.value
        = (0, some (expected ++ [0]), expected.length) ∧
      ((expect argv p).status = 0 ↔
        actual.length = expected.length ∧
          actual.take actual.length = expected.take actual.length) ∧
      (actual.length ≠ expected.length → (expect argv p).status = 1) ∧
      ((expect argv p).status ≠ 0 → (expect argv p).status = 1) := by
  obtain ⟨actual, hval, hne⟩ := read_blob_value hb
  obtain ⟨expected, hfile, _⟩ := read_file_content_inv hf
  have hst := expect_value_blob htype hb hval hfile hne hq
  rw [← expect_status p hargs] at hst
  refine ⟨actual, expected, hval, hfile, ?_, ?_, ?_⟩
  · rw [hst]
    constructor
    · intro h0
      by_cases heq : actual = expected
      · subst heq
        exact ⟨rfl, rfl⟩
      · rw [if_neg heq] at h0
        exact absurd h0 (by decide)
    · rintro ⟨hlen, htake⟩
      have heq : actual = expected := by
        rw [List.take_length, hlen, List.take_length] at htake
        exact htake
      rw [if_pos heq]
  · intro hlen
    rw [hst, if_neg (fun heq => hlen (by rw [heq]))]
  · intro hne0
    rw [hst] at hne0 ⊢
    by_cases heq : actual = expected
    · rw [if_pos heq] at hne0
      exact absurd rfl hne0
    · rw [if_neg heq]

theorem C27_expect_blob_witness :
    (expect [bytes "-l", bytes "name", bytes "-b", bytes "expected.bin"]
      (proc_of (bytes "name:4:John\n"))).status = 0 ∧
    ∃ actual expected,
      (read_blob (proc_of (bytes "name:4:Joan\n")).host (proc_of (bytes "name:4:Joan\n")).stdin
        (some (bytes "name"))).value = some ⟨some actual, actual.length⟩ ∧
      read_file_content
        (read_blob (proc_of (bytes "name:4:Joan\n")).host (proc_of (bytes "name:4:Joan\n")).stdin
          (some (bytes "name"))).host (proc_of (bytes "name:4:Joan\n")).disk
        (some (bytes "expected.bin")) = (0, some (expected ++ [0]), expected.length) ∧
      ((expect [bytes "-l", bytes "name", bytes "-b", bytes "expected.bin"]
          (proc_of (bytes "name:4:Joan\n"))).status = 0 ↔
        actual.length = expected.length ∧
          actual.take actual.length = expected.take actual.length) ∧
      (actual.length ≠ expected.length →
        (expect [bytes "-l", bytes "name", bytes "-b", bytes "expected.bin"]
          (proc_of (bytes "name:4:Joan\n"))).status = 1) ∧
      ((expect [bytes "-l", bytes "name", bytes "-b", bytes "expected.bin"]
          (proc_of (bytes "name:4:Joan\n"))).status ≠ 0 →
        (expect [bytes "-l", bytes "name", bytes "-b", bytes "expected.bin"]
          (proc_of (bytes "name:4:Joan\n"))).status = 1) :=
  ⟨by decide,
    C27_expect_blob [bytes "-l", bytes "name", bytes "-b", bytes "expected.bin"]
      (proc_of (bytes "name:4:Joan\n"))
      ⟨some (bytes "name"), false, false, 4, some (bytes "expected.bin")⟩
      (by decide) rfl (by decide) (by decide) (Or.inr (by decide))⟩

/-- C28 fails as stated for `write`: with `--chain`, the standard input
`a:1\n` and the arguments that write the record `b:2\n`, the output is the
copied input followed by the record, not the record followed by the input; and
when the value is not a number the command fails although the input was
copied. -/
theorem C28_chain_ordering_counterexample :
    (write [bytes "--chain", bytes "-l", bytes "b", bytes "-n", bytes "2"]
      (proc_of (bytes "a:1\n"))).status = 0 ∧
    (write [bytes "--chain", bytes "-l", bytes "b", bytes "-n", bytes "2"]
      (proc_of (bytes "a:1\n"))).proc.stdout.data = bytes "a:1\nb:2\n" ∧
    bytes "a:1\nb:2\n" ≠ bytes "b:2\na:1\n" ∧
    (write [bytes "--chain", bytes "-l", bytes "b", bytes "-n", bytes "x"]
      (proc_of (bytes "a:1\n"))).status = 1 ∧
    (write [bytes "--chain", bytes "-l", bytes "b", bytes "-n", bytes "x"]
      (proc_of (bytes "a:1\n"))).ub = false ∧
    (write [bytes "--chain", bytes "-l", bytes "b", bytes "-n", bytes "x"]
      (proc_of (bytes "a:1\n"))).proc.stdout.data = bytes "a:1\n" := by
  decide

/-- C28, amended: chain ordering, on an output whose writes succeed and on runs
that free no buffer twice (which covers every run that exits with status 0).
For `read` and `expect` given `--chain`, the input the operation left is
copied verbatim to the output only after the operation has succeeded (the
operation itself prints nothing), and nothing is written when it fails.  For
`write` given `--chain` and a label, the whole input is copied to the output
first and what the write emits comes after the copy, whether or not the write
succeeds; when it exits with status 0 the output is the old output, the copied
input and then exactly the record asked for (`record_of`: the label, a colon,
the payload of the value and a newline). -/
theorem C28_chain_ordering (argv : List (List Byte)) (p : Proc) (o : Options)
    (hchn : o.chn = true) (hout : p.stdout.healthy) :
    (read_args argv options_init = some o →
      (read argv p).status = (read_value o p).status ∧
      ((read argv p).status = 0 →
        (read argv p).ub = false ∧
        (read argv p).proc.stdout.data = p.stdout.data ++ (read_value o p).proc.stdin ∧
        (read argv p).proc.stdin = []) ∧
      ((read argv p).status ≠ 0 → (read argv p).ub = false →
        (read argv p).proc.stdout = p.stdout)) ∧
    (expect_args argv options_init = some o →
      (expect argv p).status = (expect_value o p).status ∧
      ((expect argv p).status = 0 →
        (expect argv p).ub = false ∧
        (expect argv p).proc.stdout.data = p.stdout.data ++ (expect_value o p).proc.stdin ∧
        (expect argv p).proc.stdin = []) ∧
      ((expect argv p).status ≠ 0 → (expect argv p).ub = false →
        (expect argv p).proc.stdout = p.stdout)) ∧
    (write_args argv options_init = some o → ∀ label, o.label = some label →
      write argv p = write_value o label (chain p) ∧
      (chain p).stdin = [] ∧ (chain p).stdout.data = p.stdout.data ++ p.stdin ∧
      ((write argv p).ub = false →
        p.stdout.data ++ p.stdin <+: (write argv p).proc.stdout.data) ∧
      ((write argv p).status = 0 →
        (write argv p).ub = false ∧
        (write argv p).proc.stdout.data
          = p.stdout.data ++ p.stdin ++ record_of o label p.disk)) := by
  refine ⟨fun hargs => ?_, fun hargs => ?_, fun hargs label hlab => ?_⟩
  · have hq := read_args_quiet argv.length argv options_init o (le_refl _) hargs
      (fun h => absurd h (by decide)) hchn
    have hres := chain_after (read_value o p) hchn (read_value_quiet hq p) hout
    have hub := chain_after_ub o (read_value o p)
    unfold read
    rw [hargs]
    refine ⟨hres.1, fun h0 => ⟨?_, hres.2.1 h0⟩, fun hne _ => hres.2.2 hne⟩
    exact hub.trans (read_value_ok_ub (hres.1.symm.trans h0))
  · have hq := expect_args_quiet argv.length argv options_init o (le_refl _) hargs
      (fun h => absurd h (by decide)) hchn
    have hres := chain_after (expect_value o p) hchn (expect_value_quiet hq p) hout
    have hub := chain_after_ub o (expect_value o p)
    unfold expect
    rw [hargs]
    refine ⟨hres.1, fun h0 => ⟨?_, hres.2.1 h0⟩, fun hne _ => hres.2.2 hne⟩
    exact hub.trans (expect_value_ok_ub (hres.1.symm.trans h0))
  · obtain ⟨hin, hdata, hhealthy⟩ := chain_loop_healthy p.stdin p.stdout hout
    have hw : write argv p = write_value o label (chain p) := by
      unfold write
      rw [hargs]
      simp only [hlab, hchn, if_true]
    have hcd : (chain p).stdout.data = p.stdout.data ++ p.stdin := hdata
    have hch : (chain p).stdout.healthy := hhealthy
    refine ⟨hw, hin, hdata, fun _ => ?_, fun h0 => ?_⟩
    · rw [hw, ← hcd]
      exact write_value_appends o label (chain p)
    · rw [hw] at h0 ⊢
      obtain ⟨hub, hrec⟩ := write_value_record hch h0
      refine ⟨hub, ?_⟩
      rw [hrec, hcd]
      rfl

theorem C28_chain_ordering_witness :
    (proc_of (bytes "a:1\nb:2\n")).stdout.healthy ∧
    (read [bytes "--chain", bytes "-l", bytes "a", bytes "-n"]
      (proc_of (bytes "a:1\nb:2\n"))).proc.stdout.data = bytes "b:2\n" ∧
    (expect [bytes "--chain", bytes "-l", bytes "a", bytes "-n", bytes "7"]
      (proc_of (bytes "a:1\nb:2\n"))).proc.stdout = ofile_empty ∧
    (write [bytes "--chain", bytes "-l", bytes "c", bytes "-n", bytes "3"]
      (proc_of (bytes "a:1\nb:2\n"))).proc.stdout.data = bytes "a:1\nb:2\nc:3\n" ∧
    (write [bytes "--chain", bytes "-l", bytes "name", bytes "-s", bytes "John"]
      (proc_of (bytes "a:1\n"))).proc.stdout.data = bytes "a:1\nname:4:John\n" :=
  ⟨by decide,
    (((C28_chain_ordering [bytes "--chain", bytes "-l", bytes "a", bytes "-n"]
      (proc_of (bytes "a:1\nb:2\n")) ⟨some (bytes "a"), true, true, 1, none⟩ rfl (by decide)).1
      (by decide)).2.1 (by decide)).2.1.trans (by decide),
    ((C28_chain_ordering [bytes "--chain", bytes "-l", bytes "a", bytes "-n", bytes "7"]
      (proc_of (bytes "a:1\nb:2\n")) ⟨some (bytes "a"), true, true, 1, some (bytes "7")⟩ rfl
      (by decide)).2.1 (by decide)).2.2 (by decide) (by decide),
    ((((C28_chain_ordering [bytes "--chain", bytes "-l", bytes "c", bytes "-n", bytes "3"]
      (proc_of (bytes "a:1\nb:2\n")) ⟨some (bytes "c"), false, true, 1, some (bytes "3")⟩ rfl
      (by decide)).2.2 (by decide) (bytes "c") rfl).2.2.2.2 (by decide)).2).trans (by decide),
    ((((C28_chain_ordering [bytes "--chain", bytes "-l", bytes "name", bytes "-s", bytes "John"]
      (proc_of (bytes "a:1\n")) ⟨some (bytes "name"), false, true, 3, some (bytes "John")⟩ rfl
      (by decide)).2.2 (by decide) (bytes "name") rfl).2.2.2.2 (by decide)).2).trans
      (by decide)⟩

/-- C29: the expected text must be present.  For every stream and label,
`expect_string` with a null expected text returns -1, leaves the stream as it
was and leaves the process state, the locale included, as it was. -/
theorem C29_expect_string_null (h : Host) (f : IFile) (label : Option (List Byte)) :
    (expect_string h f label none).rc = -1 ∧ (expect_string h f label none).file = f ∧
    (expect_string h f label none).host = h ∧
    (expect_string h f label none).host.locale = h.locale :=
  ⟨rfl, rfl, rfl, rfl⟩

end Tioc
